import Mathlib

/-!
Verification of the Eir interactive graph-editing engine against its
natural-language specification.

The definitions below are shallow embeddings of the Python source:

* `CommandManager` embeds the undo/redo history manager of
  `src/ui/control_structure_tab.py` (class `CommandManager`).
* `IDGenerator` / `ControlStructure` embed the ID allocator and graph store of
  `src/core/models.py`.
* `Scene` and the `SceneCmd` command types embed the graph-editing scene and
  the command classes of `src/ui/control_structure_tab.py`.

Python floats are modelled as rationals (no claim depends on rounding),
Python `int` as `Int`/`Nat`, Python dicts as insertion-ordered association
lists, and Python sets as `Finset`.
-/

namespace Eir

/-! ## Generic association-list helpers

Python dicts preserve insertion order; we model them as `List (κ × ν)` whose
keys are unique (an invariant carried as a hypothesis where needed). -/

/-- Lookup in an association list (first match). -/
def alookup {κ ν : Type} [DecidableEq κ] (k : κ) : List (κ × ν) → Option ν
  | [] => none
  | (k2, v) :: rest => if k2 = k then some v else alookup k rest

/-- Remove the entry with the given key (first match). -/
def aerase {κ ν : Type} [DecidableEq κ] (k : κ) : List (κ × ν) → List (κ × ν)
  | [] => []
  | (k2, v) :: rest => if k2 = k then rest else (k2, v) :: aerase k rest

/-- `d[k] = v` in Python: update in place if the key exists, else append. -/
def aupsert {κ ν : Type} [DecidableEq κ] (k : κ) (v : ν) : List (κ × ν) → List (κ × ν)
  | [] => [(k, v)]
  | (k2, v2) :: rest => if k2 = k then (k, v) :: rest else (k2, v2) :: aupsert k v rest

/-- `d[k] = f old` in Python when the key exists, else append `f dflt`. -/
def aupdate {κ ν : Type} [DecidableEq κ] (k : κ) (f : ν → ν) (dflt : ν) :
    List (κ × ν) → List (κ × ν)
  | [] => [(k, f dflt)]
  | (k2, v2) :: rest => if k2 = k then (k2, f v2) :: rest else (k2, v2) :: aupdate k f dflt rest

/-- The keys of an association list. -/
def akeys {κ ν : Type} (l : List (κ × ν)) : List κ := l.map Prod.fst

/-- First-of-two options (the value a two-list concatenation makes visible). -/
def ofirst {ν : Type} : Option ν → Option ν → Option ν
  | some v, _ => some v
  | none, b => b

/-! ## Command history manager

Embedding of `CommandManager` (src/ui/control_structure_tab.py lines 58-122).
`history` is the Python list, `current_index` the Python integer cursor
(which legitimately takes the value `-1`), `max_history` the cap. -/

structure CommandManager (α : Type) where
  max_history : Nat
  history : List α
  current_index : Int
deriving DecidableEq

/-- `CommandManager(max_history)` constructor. -/
def CommandManager.new (α : Type) (cap : Nat) : CommandManager α :=
  { max_history := cap, history := [], current_index := -1 }

/-- Lines 70-81 of `execute_command`: the pure history mechanics that run after
`command.execute()` has returned normally: truncate redoable entries past the
cursor, append the command, advance the cursor, and evict the oldest entry
(decrementing the cursor) if the cap is exceeded. -/
def CommandManager.pushHistory {α : Type} (m : CommandManager α) (c : α) : CommandManager α :=
  let h1 := if m.current_index < (m.history.length : Int) - 1 then
              m.history.take (m.current_index + 1).toNat
            else m.history
  let h2 := h1 ++ [c]
  let i2 := m.current_index + 1
  if (m.max_history : Int) < (h2.length : Int) then
    { m with history := h2.drop 1, current_index := i2 - 1 }
  else
    { m with history := h2, current_index := i2 }

/-- `execute_command` (lines 66-85): `command.execute()` runs first (line 68),
acting on an external state `σ`; `run c st = none` models the command raising
an exception, which propagates to the caller before any of the history
mutations of lines 70-81 run, so no new manager state is produced. -/
def CommandManager.execute_command {α σ : Type} (run : α → σ → Option σ)
    (st : σ) (m : CommandManager α) (c : α) : Option (σ × CommandManager α) :=
  match run c st with
  | none => none
  | some st2 => some (st2, m.pushHistory c)

/-- `can_undo` (lines 91-93). -/
def CommandManager.can_undo {α : Type} (m : CommandManager α) : Bool :=
  0 ≤ m.current_index

/-- `can_redo` (lines 95-97). -/
def CommandManager.can_redo {α : Type} (m : CommandManager α) : Bool :=
  m.current_index < (m.history.length : Int) - 1

/-- `undo` (lines 99-107): a no-op when `can_undo` is false; otherwise indexes
`history[current_index]` (a `none` result models an `IndexError`, which never
occurs from reachable states), invokes that command's `undo` (abstracted), and
decrements the cursor. -/
def CommandManager.undo {α : Type} (m : CommandManager α) : Option (CommandManager α) :=
  if m.can_undo then
    match m.history.get? m.current_index.toNat with
    | none => none
    | some _ => some { m with current_index := m.current_index - 1 }
  else some m

/-- `redo` (lines 109-117): a no-op when `can_redo` is false; otherwise
increments the cursor and replays `history[current_index]` (abstracted). -/
def CommandManager.redo {α : Type} (m : CommandManager α) : Option (CommandManager α) :=
  if m.can_redo then
    match m.history.get? (m.current_index + 1).toNat with
    | none => none
    | some _ => some { m with current_index := m.current_index + 1 }
  else some m

/-- A run function for commands whose `execute()` always succeeds and does not
touch any external state; used to state the pure history-mechanics claims. -/
def alwaysOk {α : Type} : α → Unit → Option Unit := fun _ _ => some ()

/-- Execute a list of always-succeeding commands in order. -/
def execMany {α : Type} (m : CommandManager α) : List α → CommandManager α
  | [] => m
  | c :: cs =>
    match CommandManager.execute_command alwaysOk () m c with
    | none => m
    | some (_, m2) => execMany m2 cs

/-- Iterate `undo` `n` times, propagating a (never occurring) `IndexError`. -/
def undoN {α : Type} : Nat → CommandManager α → Option (CommandManager α)
  | 0, m => some m
  | n + 1, m => (m.undo).bind (undoN n)

/-! ## Graph store and ID allocator (src/core/models.py)

Python strings are embedded as `PyStr`: the constructor `nid n` stands for the
string produced by the f-string `"n{n}"` (`"n"` followed by the canonical
decimal of `n`, no leading zeros), `eid n` for `"e{n}"`, `intStr n` for
`str(n)` of an integer, and `plain s` for every other string (including
non-canonical pattern matches such as `"n007"`).  By convention a `plain`
value never holds text of one of the three canonical shapes, so that equality
of `PyStr` values coincides with equality of the Python strings they denote. -/

inductive PyStr : Type
  | nid (n : Nat)
  | eid (n : Nat)
  | intStr (n : Int)
  | plain (s : String)
deriving DecidableEq

/-- Edge keys in the store are Python `str` or `int` (`Union[str, int]`). -/
inductive EdgeKey : Type
  | kstr (s : PyStr)
  | kint (n : Int)
deriving DecidableEq

/-- `str(key)` as used by `_scan_existing_link_ids` and `register_link_id`. -/
def EdgeKey.toPyStr : EdgeKey → PyStr
  | .kstr s => s
  | .kint n => .intStr n

/-- Python `s.isdigit()` restricted to ASCII decimal digits, with Python's
convention that the empty string is not a digit string. -/
def pyIsDigits (s : String) : Bool :=
  !s.isEmpty && s.all Char.isDigit

/-- Decimal value of an all-digit string (used after a `pyIsDigits` check). -/
def decNat (s : String) : Nat :=
  s.foldl (fun a c => 10 * a + (c.toNat - 48)) 0

/-- The node-ID pattern test of `models.py`: `node_id.startswith('n') and
node_id[1:].isdigit()`, returning the parsed number. -/
def nodePat : PyStr → Option Nat
  | .nid n => some n
  | .plain s =>
      if s.startsWith "n" && pyIsDigits (s.drop 1) then some (decNat (s.drop 1)) else none
  | _ => none

/-- The link-ID pattern test: `key.startswith('e') and key[1:].isdigit()`. -/
def eidPat : PyStr → Option Nat
  | .eid n => some n
  | .plain s =>
      if s.startsWith "e" && pyIsDigits (s.drop 1) then some (decNat (s.drop 1)) else none
  | _ => none

/-- `SystemNode` attributes as stored in the graph's node dict by
`add_node_with_data` (every field of the dataclass except `id`).
State records are `(name, description, is_initial)` triples. -/
structure NodeAttrs where
  name : String
  position : ℚ × ℚ := (0, 0)
  shape : String := "circle"
  size : ℚ := 24
  description : String := ""
  states : List (String × String × Bool) := []
deriving DecidableEq

/-- `ControlLink` fields as stored in the edge dict by `add_link`
(`link.__dict__`, including the redundant id/source/target copies). -/
structure LinkAttrs where
  id : EdgeKey
  source_id : PyStr
  target_id : PyStr
  name : String := ""
  description : String := ""
  weight : ℚ := 1
  undirected : Bool := false
  bidirectional : Bool := false
deriving DecidableEq

/-- The payload of `add_link` besides the endpoint/id arguments. -/
structure LinkData where
  name : String := ""
  description : String := ""
  weight : ℚ := 1
  undirected : Bool := false
  bidirectional : Bool := false
deriving DecidableEq

/-- `IDGenerator` state (models.py lines 169-302).  Python sets are `Finset`;
the `None`/populated cache distinction is `Option`. -/
structure IDGenerator where
  enable_cache : Bool := true
  node_counter : Nat := 1
  link_counter : Nat := 1
  cached_node_ids : Option (Finset PyStr) := none
  cached_link_ids : Option (Finset PyStr) := none
  dirty_node_cache : Bool := true
  dirty_link_cache : Bool := true
deriving DecidableEq

/-- `invalidate_cache` (lines 181-186). -/
def IDGenerator.invalidate_cache (g : IDGenerator) : IDGenerator :=
  { g with dirty_node_cache := true, dirty_link_cache := true }

/-- The graph store: a `networkx.MultiDiGraph` subclass.  Nodes are keyed by
`PyStr` id; a `none` attribute value models the empty attribute dict of a node
auto-created by `add_edge`.  Edges are keyed by `(source, target, key)`. -/
structure ControlStructure where
  nodes : List (PyStr × Option NodeAttrs) := []
  edges : List ((PyStr × PyStr × EdgeKey) × LinkAttrs) := []
  gen : IDGenerator := {}
deriving DecidableEq

/-- The node ids of the store, in insertion order. -/
def ControlStructure.nodeIds (cs : ControlStructure) : List PyStr := akeys cs.nodes

/-- One step of the node-id scan's running maximum. -/
def nodeMaxStep (m : Nat) (p : PyStr × Option NodeAttrs) : Nat :=
  match nodePat p.1 with
  | some k => max m k
  | none => m

/-- `_scan_existing_node_ids`: max numeric value among `n<digits>` node ids. -/
def ControlStructure.scanNodeMax (cs : ControlStructure) : Nat :=
  cs.nodes.foldl nodeMaxStep 0

/-- `_scan_existing_link_ids`: the edge-key strings (`str` keys directly,
`str(key)` for `int` keys), as the Python set it builds. -/
def ControlStructure.linkKeyStrs (cs : ControlStructure) : List PyStr :=
  cs.edges.map (fun e => e.1.2.2.toPyStr)

/-- One step of the link-id scan's running maximum. -/
def linkMaxStep (m : Nat) (e : (PyStr × PyStr × EdgeKey) × LinkAttrs) : Nat :=
  match e.1.2.2 with
  | .kstr s => match eidPat s with | some k => max m k | none => m
  | .kint n => max m n.toNat

/-- `_scan_existing_link_ids`: max over `e<digits>` string keys and over
`int` keys (Python `max(max_id, key)` against a non-negative accumulator). -/
def ControlStructure.scanLinkMax (cs : ControlStructure) : Nat :=
  cs.edges.foldl linkMaxStep 0

/-- The `while f"n{counter}" in cache: counter += 1` loop, with explicit fuel
(the loop terminates because the cache is finite). -/
def bumpNode (cache : Finset PyStr) : Nat → Nat → Nat
  | 0, c => c
  | fuel + 1, c => if PyStr.nid c ∈ cache then bumpNode cache fuel (c + 1) else c

/-- The corresponding loop of `get_next_link_id`. -/
def bumpLink (cache : Finset PyStr) : Nat → Nat → Nat
  | 0, c => c
  | fuel + 1, c => if PyStr.eid c ∈ cache then bumpLink cache fuel (c + 1) else c

/-- The node-id cache `get_next_node_id` works with: rebuilt from the store
when dirty or absent (lines 232-234), the existing cache otherwise. -/
def IDGenerator.nodeCacheNow (g : IDGenerator) (cs : ControlStructure) : Finset PyStr :=
  if g.dirty_node_cache || g.cached_node_ids.isNone then cs.nodeIds.toFinset
  else g.cached_node_ids.getD ∅

/-- The node counter in effect after the optional rescan. -/
def IDGenerator.nodeCounterNow (g : IDGenerator) (cs : ControlStructure) : Nat :=
  if g.dirty_node_cache || g.cached_node_ids.isNone then cs.scanNodeMax + 1
  else g.node_counter

/-- The counter value after the collision-skipping loop of lines 237-238. -/
def IDGenerator.nodeBumped (g : IDGenerator) (cs : ControlStructure) : Nat :=
  bumpNode (g.nodeCacheNow cs) ((g.nodeCacheNow cs).card + 1) (g.nodeCounterNow cs)

/-- `IDGenerator.get_next_node_id` (lines 222-247), returning the generated id
together with the updated generator.  With the cache disabled it rescans and
returns `n(max+1)` without touching any state; otherwise it rebuilds the cache
when dirty or absent, bumps the counter past cached collisions, and records
the issued id in the cache. -/
def IDGenerator.get_next_node_id (g : IDGenerator) (cs : ControlStructure) :
    PyStr × IDGenerator :=
  if g.enable_cache = false then
    (PyStr.nid (cs.scanNodeMax + 1), g)
  else
    (PyStr.nid (g.nodeBumped cs),
     { g with node_counter := g.nodeBumped cs + 1,
              cached_node_ids := some (insert (PyStr.nid (g.nodeBumped cs)) (g.nodeCacheNow cs)),
              dirty_node_cache := false })

/-- The link-key cache `get_next_link_id` works with. -/
def IDGenerator.linkCacheNow (g : IDGenerator) (cs : ControlStructure) : Finset PyStr :=
  if g.dirty_link_cache || g.cached_link_ids.isNone then cs.linkKeyStrs.toFinset
  else g.cached_link_ids.getD ∅

/-- The link counter in effect after the optional rescan. -/
def IDGenerator.linkCounterNow (g : IDGenerator) (cs : ControlStructure) : Nat :=
  if g.dirty_link_cache || g.cached_link_ids.isNone then cs.scanLinkMax + 1
  else g.link_counter

/-- The counter value after the collision-skipping loop of lines 268-269. -/
def IDGenerator.linkBumped (g : IDGenerator) (cs : ControlStructure) : Nat :=
  bumpLink (g.linkCacheNow cs) ((g.linkCacheNow cs).card + 1) (g.linkCounterNow cs)

/-- `IDGenerator.get_next_link_id` (lines 249-278), mirror of the above. -/
def IDGenerator.get_next_link_id (g : IDGenerator) (cs : ControlStructure) :
    PyStr × IDGenerator :=
  if g.enable_cache = false then
    (PyStr.eid (cs.scanLinkMax + 1), g)
  else
    (PyStr.eid (g.linkBumped cs),
     { g with link_counter := g.linkBumped cs + 1,
              cached_link_ids := some (insert (PyStr.eid (g.linkBumped cs)) (g.linkCacheNow cs)),
              dirty_link_cache := false })

/-- `register_node_id` (lines 280-288): only acts when the cache is populated;
adds the id to the cache and advances the counter past a pattern match. -/
def IDGenerator.register_node_id (g : IDGenerator) (id1 : PyStr) : IDGenerator :=
  match g.enable_cache, g.cached_node_ids with
  | true, some cache =>
      let g2 := { g with cached_node_ids := some (insert id1 cache) }
      match nodePat id1 with
      | some num => if g.node_counter ≤ num then { g2 with node_counter := num + 1 } else g2
      | none => g2
  | _, _ => g

/-- `register_link_id` (lines 290-302): adds `str(link_id)` to the cache and
advances the counter past a string or integer pattern match. -/
def IDGenerator.register_link_id (g : IDGenerator) (lid : EdgeKey) : IDGenerator :=
  match g.enable_cache, g.cached_link_ids with
  | true, some cache =>
      let g2 := { g with cached_link_ids := some (insert lid.toPyStr cache) }
      match lid with
      | .kstr s =>
          match eidPat s with
          | some num => if g.link_counter ≤ num then { g2 with link_counter := num + 1 } else g2
          | none => g2
      | .kint n =>
          if (g.link_counter : Int) ≤ n then { g2 with link_counter := n.toNat + 1 } else g2
  | _, _ => g

/-- `add_node_with_data` / `add_node` (lines 312-326): builds the attribute
dict from the `SystemNode` and stores it under the id; an existing node's
attributes are overwritten (`networkx` merge with the full attribute set),
then the id is registered with the generator.  Nothing on this path raises. -/
def ControlStructure.add_node (cs : ControlStructure) (id1 : PyStr) (a : NodeAttrs) :
    ControlStructure :=
  { cs with nodes := aupsert id1 (some a) cs.nodes,
            gen := cs.gen.register_node_id id1 }

/-- `networkx.add_edge` endpoint handling: a missing endpoint node is silently
created with an empty attribute dict. -/
def ControlStructure.autoAddNode (cs : ControlStructure) (id1 : PyStr) : ControlStructure :=
  if (alookup id1 cs.nodes).isSome then cs
  else { cs with nodes := cs.nodes ++ [(id1, none)] }

/-- `add_link` (lines 328-337): builds a `ControlLink`, stores its `__dict__`
as the edge attributes under `(source_id, target_id, key=link_id)` via
`networkx.add_edge` — which auto-creates absent endpoint nodes and never
raises — then registers the id.  There is no endpoint-existence check. -/
def ControlStructure.add_link (cs : ControlStructure) (lid : EdgeKey)
    (src tgt : PyStr) (d : LinkData) : ControlStructure :=
  let attrs : LinkAttrs :=
    { id := lid, source_id := src, target_id := tgt, name := d.name,
      description := d.description, weight := d.weight,
      undirected := d.undirected, bidirectional := d.bidirectional }
  let cs2 := (cs.autoAddNode src).autoAddNode tgt
  { cs2 with edges := aupsert (src, tgt, lid) attrs cs2.edges,
             gen := cs2.gen.register_link_id lid }

/-- `remove_node_with_links` (lines 346-351): when the id is present, removes
the node and (by the `networkx.remove_node` cascade) every edge having it as
source or target, then invalidates the ID cache; when absent it silently does
nothing — no error of any kind is signalled. -/
def ControlStructure.remove_node_with_links (cs : ControlStructure) (id1 : PyStr) :
    ControlStructure :=
  if (alookup id1 cs.nodes).isSome then
    { cs with nodes := aerase id1 cs.nodes,
              edges := cs.edges.filter (fun e => !(e.1.1 = id1 || e.1.2.1 = id1)),
              gen := cs.gen.invalidate_cache }
  else cs

/-- `remove_edge` (lines 353-356): `networkx.remove_edge` raises when the edge
is absent (modelled by `none`), in which case the exception propagates before
`invalidate_cache` runs and the store is unchanged. -/
def ControlStructure.remove_edge (cs : ControlStructure) (u v : PyStr) (k : EdgeKey) :
    Option ControlStructure :=
  if (alookup (u, v, k) cs.edges).isSome then
    some { cs with edges := aerase (u, v, k) cs.edges,
                   gen := cs.gen.invalidate_cache }
  else none

/-- `clear` (lines 358-361). -/
def ControlStructure.clearAll (cs : ControlStructure) : ControlStructure :=
  { nodes := [], edges := [], gen := cs.gen.invalidate_cache }

/-- `ControlStructure.get_next_node_id` (lines 363-365), threading the
generator state through the store. -/
def ControlStructure.get_next_node_id (cs : ControlStructure) : PyStr × ControlStructure :=
  let (id1, g) := cs.gen.get_next_node_id cs
  (id1, { cs with gen := g })

/-- `ControlStructure.get_next_link_id` (lines 367-369). -/
def ControlStructure.get_next_link_id (cs : ControlStructure) : PyStr × ControlStructure :=
  let (id1, g) := cs.gen.get_next_link_id cs
  (id1, { cs with gen := g })

/-- One operation applied through the graph store's own mutation API. -/
inductive StoreOp : Type
  | addNode (id1 : PyStr) (a : NodeAttrs)
  | addLink (lid : EdgeKey) (src tgt : PyStr) (d : LinkData)
  | removeNode (id1 : PyStr)
  | removeEdge (u v : PyStr) (k : EdgeKey)
  | clearAll
  | genNodeId
  | genLinkId
deriving DecidableEq

/-- Apply one store operation.  A raising `remove_edge` leaves the store
unchanged (the exception propagates, nothing after the raise runs); the id
returned by a generator call is discarded here (a caller that uses it adds the
node/edge through a separate `addNode`/`addLink` operation). -/
def stepOp (cs : ControlStructure) : StoreOp → ControlStructure
  | .addNode id1 a => cs.add_node id1 a
  | .addLink lid src tgt d => cs.add_link lid src tgt d
  | .removeNode id1 => cs.remove_node_with_links id1
  | .removeEdge u v k => (cs.remove_edge u v k).getD cs
  | .clearAll => cs.clearAll
  | .genNodeId => cs.get_next_node_id.2
  | .genLinkId => cs.get_next_link_id.2

/-- Run a sequence of store operations from a store state. -/
def runOps (cs : ControlStructure) : List StoreOp → ControlStructure
  | [] => cs
  | op :: ops => runOps (stepOp cs op) ops

/-- Every `addLink` in the sequence is issued with both endpoints present in
the store at that moment (the discipline the specification assumes). -/
def EndpointsOk (cs : ControlStructure) : List StoreOp → Prop
  | [] => True
  | op :: ops =>
      (match op with
       | .addLink _ src tgt _ =>
           (alookup src cs.nodes).isSome = true ∧ (alookup tgt cs.nodes).isSome = true
       | _ => True) ∧ EndpointsOk (stepOp cs op) ops

instance (cs : ControlStructure) (ops : List StoreOp) : Decidable (EndpointsOk cs ops) := by
  induction ops generalizing cs with
  | nil => exact isTrue trivial
  | cons op ops ih =>
      have : Decidable ((match op with
       | .addLink _ src tgt _ =>
           (alookup src cs.nodes).isSome = true ∧ (alookup tgt cs.nodes).isSome = true
       | _ => True) ∧ EndpointsOk (stepOp cs op) ops) := by
        have h2 := ih (stepOp cs op)
        cases op <;> simp only <;> exact inferInstance
      exact this

/-- Does the string pattern-match a node id `n<m>` with `c ≤ m`?  (Used only
to measure the collision-skipping loop.) -/
def nidGE (c : Nat) : PyStr → Bool
  | .nid m => c ≤ m
  | _ => false

/-- Does the string pattern-match a link id `e<m>` with `c ≤ m`? -/
def eidGE (c : Nat) : PyStr → Bool
  | .eid m => c ≤ m
  | _ => false

/-- The node-side cache soundness invariant: when the cache is clean and
populated it contains every node id of the store. -/
def NodeCacheInv (cs : ControlStructure) : Prop :=
  cs.gen.dirty_node_cache = false →
    ∀ cache, cs.gen.cached_node_ids = some cache → ∀ id2 ∈ cs.nodeIds, id2 ∈ cache

/-- The link-side cache soundness invariant: when the cache is clean and
populated it contains the key string of every edge of the store. -/
def LinkCacheInv (cs : ControlStructure) : Prop :=
  cs.gen.dirty_link_cache = false →
    ∀ cache, cs.gen.cached_link_ids = some cache →
      ∀ e ∈ cs.edges, EdgeKey.toPyStr e.1.2.2 ∈ cache

/-- The store invariant maintained by the mutation API: unique node ids,
unique `(source, target, key)` edge identities, caching enabled (as the
editor always constructs it), and both cache soundness invariants. -/
def StoreInv (cs : ControlStructure) : Prop :=
  cs.gen.enable_cache = true ∧
  (akeys cs.nodes).Nodup ∧ (akeys cs.edges).Nodup ∧ NodeCacheInv cs ∧ LinkCacheInv cs

/-! ## The graph-editing scene (src/ui/control_structure_tab.py)

The editor tab keeps its own `networkx.MultiDiGraph` (`self.G`, integer node
ids, integer edge keys) plus Qt item objects (`NodeItem`, `EdgeItem`) mirroring
it; the command classes mutate both.  We embed the graph dicts and the item
lists; purely visual calls (`update()`, `update_path()`, `_rect`,
`update_text_rect()`) have no model counterpart. -/

/-- A Python value as passed around by the property-change machinery. -/
inductive PyVal : Type
  | pstr (s : String)
  | pnum (q : ℚ)
  | pbool (b : Bool)
  | plist (xs : List String)
deriving DecidableEq

/-- Python `str(value)`.  For non-string values the exact rendering never
matters to the claims (it only occurs under equal-to-current-value
hypotheses); we use a fixed deterministic rendering. -/
def pyStr : PyVal → String
  | .pstr s => s
  | .pnum q => toString q
  | .pbool b => if b then "True" else "False"
  | .plist xs => toString xs

/-- Python `bool(value)`. -/
def pyBool : PyVal → Bool
  | .pstr s => !s.isEmpty
  | .pnum q => if q = 0 then false else true
  | .pbool b => b
  | .plist xs => !xs.isEmpty

/-- A Python float as produced by `float(...)`: a finite value (an exact
rational) or one of the special values `float("inf")`, `float("-inf")`,
`float("nan")`. -/
inductive PyFloat : Type
  | finite (q : ℚ)
  | inf
  | ninf
  | nan
deriving DecidableEq

/-- The ASCII whitespace characters `str.strip()` removes around a float
literal: space and TAB..CR (`\t`, `\n`, vertical tab, form feed, `\r`). -/
def isPySpace (c : Char) : Bool :=
  c.toNat = 32 || (9 ≤ c.toNat && c.toNat ≤ 13)

/-- Both-ends whitespace strip (`str.strip()` on the ASCII repertoire). -/
def pyStripChars (cs : List Char) : List Char :=
  ((cs.dropWhile isPySpace).reverse.dropWhile isPySpace).reverse

/-- ASCII lower-casing of a character (for the case-insensitive
`inf`/`infinity`/`nan` and `E` forms). -/
def asciiLower (c : Char) : Char :=
  if 65 ≤ c.toNat && c.toNat ≤ 90 then Char.ofNat (c.toNat + 32) else c

/-- Split a character list at every occurrence of the separator `c`
(`str.split(c)` semantics: `n` separators give `n + 1` groups). -/
def splitOnChar (c : Char) : List Char → List (List Char)
  | [] => [[]]
  | d :: ds =>
      match splitOnChar c ds with
      | [] => [[]]
      | g :: gs => if d = c then [] :: g :: gs else (d :: g) :: gs

/-- The tail `(["_"] digit)*` of a `digitpart` of the Python float grammar:
an underscore must sit between two digits. -/
def isDigitPartRest : List Char → Bool
  | [] => true
  | '_' :: c :: cs => c.isDigit && isDigitPartRest cs
  | ['_'] => false
  | c :: cs => c.isDigit && isDigitPartRest cs

/-- `digitpart ::= digit (["_"] digit)*` of the Python float grammar. -/
def isDigitPart : List Char → Bool
  | [] => false
  | c :: cs => c.isDigit && isDigitPartRest cs

/-- The digits of a `digitpart` with the underscore separators removed. -/
def stripSeps (cs : List Char) : List Char :=
  cs.filter (fun c => !(c = '_'))

/-- Decimal value of a digit list (used after an `isDigitPart` check). -/
def decNatChars (cs : List Char) : Nat :=
  cs.foldl (fun a c => 10 * a + (c.toNat - 48)) 0

/-- The mantissa `number ::= digitpart | [digitpart] "." digitpart |
digitpart "."` of the Python float grammar, as an exact rational. -/
def parseMantissa (cs : List Char) : Option ℚ :=
  match splitOnChar '.' cs with
  | [a] =>
      if isDigitPart a then some ((decNatChars (stripSeps a) : ℚ)) else none
  | [a, b] =>
      if (isDigitPart a || a.isEmpty) && (isDigitPart b || b.isEmpty)
          && !(a.isEmpty && b.isEmpty) then
        some ((decNatChars (stripSeps a) : ℚ) +
          (decNatChars (stripSeps b) : ℚ) / ((10 : ℚ) ^ (stripSeps b).length))
      else none
  | _ => none

/-- The exponent suffix `[sign] digitpart` of the Python float grammar (the
`e`/`E` marker itself is split off by the caller). -/
def parseExpSuffix : List Char → Option ℤ
  | '-' :: r => if isDigitPart r then some (-(decNatChars (stripSeps r) : ℤ)) else none
  | '+' :: r => if isDigitPart r then some ((decNatChars (stripSeps r) : ℤ)) else none
  | r => if isDigitPart r then some ((decNatChars (stripSeps r) : ℤ)) else none

/-- Python `float(string)`: optional surrounding whitespace, an optional
sign, then either a case-insensitive `inf`/`infinity`/`nan` or a finite
literal `digitpart`, `[digitpart] "." digitpart` or `digitpart "."`, with an
optional `("e"|"E") [sign] digitpart` exponent; single underscores are
allowed between digits.  A `none` result is Python's `ValueError`; finite
results are exact rationals (every finite decimal literal is one).  Python
additionally accepts non-ASCII decimal-digit and whitespace codepoints;
strings of this development range over the ASCII repertoire. -/
def parseFloat (s : String) : Option PyFloat :=
  let t := pyStripChars s.data
  let (neg, u) : Bool × List Char :=
    match t with
    | '-' :: r => (true, r)
    | '+' :: r => (false, r)
    | r => (false, r)
  let w := u.map asciiLower
  if w = "inf".data || w = "infinity".data then some (if neg then .ninf else .inf)
  else if w = "nan".data then some .nan
  else
    match splitOnChar 'e' w with
    | [m] => (parseMantissa m).map (fun q => .finite (if neg then -q else q))
    | [m, ex] =>
        match parseMantissa m, parseExpSuffix ex with
        | some q, some e =>
            some (.finite ((if neg then -q else q) * (10 : ℚ) ^ e))
        | _, _ => none
    | _ => none

/-- Python `float(value)`: floats pass through, bools are 0/1, strings are
parsed, anything else raises `TypeError`.  A `none` stands for `float(...)`
raising (`TypeError` here, `ValueError` from `parseFloat`); the
property-change commands catch both alike. -/
def pyFloat : PyVal → Option PyFloat
  | .pnum q => some (.finite q)
  | .pbool b => some (.finite (if b then 1 else 0))
  | .pstr s => parseFloat s
  | .plist _ => none

/-- `list(value) if isinstance(value, (list, tuple)) else [str(value)]` of the
`states` branch. -/
def pyListOf (v : PyVal) : List String :=
  match v with
  | .plist xs => xs
  | w => [pyStr w]

/-- The `NodeData` dataclass of the editor (name, states, shape, size). -/
structure NodeData where
  name : String := "Node"
  states : List String := []
  shape : String := "circle"
  size : PyFloat := .finite 24
deriving DecidableEq

/-- The `EdgeData` dataclass of the editor. -/
structure EdgeData where
  name : String := "Edge"
  weight : PyFloat := .finite 1
  undirected : Bool := false
  bidirectional : Bool := false
deriving DecidableEq

/-- Attribute dict of a node of the editor's graph `self.G`.  The first five
fields are written by `_create_node_internal`; `node_type` and `description`
exist only once a property-change command has written them. -/
structure GNodeA where
  name : String
  states : List String
  shape : String
  size : PyFloat
  position : ℚ × ℚ
  node_type : Option PyVal := none
  description : Option PyVal := none
deriving DecidableEq

/-- Attribute dict of an edge of `self.G`; `link_type` and `description`
exist only once a property-change command has written them. -/
structure GEdgeA where
  name : String
  weight : PyFloat
  undirected : Bool
  bidirectional : Bool
  link_type : Option PyVal := none
  description : Option PyVal := none
deriving DecidableEq

/-- The node attribute dict `_create_node_internal` writes for fresh data. -/
def coreNode (d : NodeData) (pos : ℚ × ℚ) : GNodeA :=
  { name := d.name, states := d.states, shape := d.shape, size := d.size,
    position := pos }

/-- The edge attribute dict `_create_edge_internal` writes for fresh data. -/
def coreEdge (d : EdgeData) : GEdgeA :=
  { name := d.name, weight := d.weight, undirected := d.undirected,
    bidirectional := d.bidirectional }

/-- A `NodeItem`: its `NodeData` and its scene position. -/
structure NItem where
  data : NodeData
  pos : ℚ × ℚ
deriving DecidableEq

/-- An `EdgeItem`: endpoints and key identify it; it carries its `EdgeData`
and the curve offset assigned by reflow (0.0 on construction). -/
structure EItem where
  src : Int
  dst : Int
  key : Int
  data : EdgeData
  curve_offset : ℚ := 0
deriving DecidableEq

/-- The `(source, target, key)` identity of an edge item. -/
def EItem.triple (it : EItem) : Int × Int × Int := (it.src, it.dst, it.key)

/-- The scene's edge-creation sub-mode (`self._edge_mode`). -/
inductive EdgeMode : Type
  | directed
  | undirected
  | bidirectional
deriving DecidableEq

/-- The editor scene: the graph `self.G` (node and edge attribute dicts) and
the item objects, plus the edge mode and the reentrancy flag. -/
structure Scene where
  gnodes : List (Int × GNodeA) := []
  gedges : List ((Int × Int × Int) × GEdgeA) := []
  nitems : List (Int × NItem) := []
  eitems : List EItem := []
  edge_mode : EdgeMode := .directed
  applying_command : Bool := false
deriving DecidableEq

/-- The `EdgeData` of the scene's edge item with the given identity,
disregarding its curve offset. -/
def eitemObs (s : Scene) (t : Int × Int × Int) : Option EdgeData :=
  (s.eitems.find? (fun it => it.triple = t)).map (fun it => it.data)

/-- The curve offset of the scene's edge item with the given identity. -/
def eitemOffset (items : List EItem) (t : Int × Int × Int) : Option ℚ :=
  (items.find? (fun it => it.triple = t)).map (fun it => it.curve_offset)

/-! ### Multi-edge reflow (`_reflow_all_edges_between_nodes`, lines 1263-1308) -/

/-- The keys of the edge items running from `u` to `v`, in scene order. -/
def dirKeys (items : List EItem) (u v : Int) : List Int :=
  items.filterMap (fun it => if it.src = u ∧ it.dst = v then some it.key else none)

/-- The identities of `all_edges` in the order the reflow collects them:
`u → v` items sorted by key, then `v → u` items sorted by key.  The direction
split is taken from the call's `(u, v)` arguments. -/
def collectTriples (items : List EItem) (u v : Int) : List (Int × Int × Int) :=
  (((dirKeys items u v).insertionSort (· ≤ ·)).map (fun k => (u, v, k)))
    ++ (((dirKeys items v u).insertionSort (· ≤ ·)).map (fun k => (v, u, k)))

/-- The offset the reflow assigns to index `i` of `n` collected edges:
`0` for a single edge; `(i - n // 2) * 50` for odd `n`;
`(i - (n - 1) / 2) * 50` (exact division) for even `n`. -/
def offsetAt (n i : Nat) : ℚ :=
  if n = 1 then 0
  else if n % 2 = 1 then ((i : ℚ) - ((n / 2 : Nat) : ℚ)) * 50
  else ((i : ℚ) - ((n : ℚ) - 1) / 2) * 50

/-- Index of the last occurrence of `t` in `tr` (`none` when absent).  The
Python loop assigns offsets in order, so an edge listed twice — which happens
exactly for self-loop pairs, where `items_uv` and `items_vu` coincide — keeps
the offset of its last position. -/
def idxOfLast {T : Type} [DecidableEq T] (tr : List T) (t : T) : Option Nat :=
  match tr with
  | [] => none
  | x :: xs =>
      match idxOfLast xs t with
      | some j => some (j + 1)
      | none => if x = t then some 0 else none

/-- The per-item effect of one reflow pass: an item whose identity occurs in
the collected order receives the offset of its (last) index there; other
items are untouched. -/
def reflowAssign (tr : List (Int × Int × Int)) (n : Nat) (it : EItem) : EItem :=
  match idxOfLast tr it.triple with
  | some i => { it with curve_offset := offsetAt n i }
  | none => it

/-- `_reflow_all_edges_between_nodes(u, v)`: assigns each collected edge the
offset of its (last) index; a call collecting no edges returns immediately.
Items are identified by their `(src, dst, key)` triple (unique in a
well-formed scene). -/
def reflowItems (items : List EItem) (u v : Int) : List EItem :=
  let tr := collectTriples items u v
  if tr.length = 0 then items
  else items.map (reflowAssign tr tr.length)

/-- Reflow acting on the scene. -/
def reflowScene (s : Scene) (u v : Int) : Scene :=
  { s with eitems := reflowItems s.eitems u v }

/-! ### Scene creation/deletion internals (lines 1161-1250) -/

/-- Update the scene-held node item with the given id, if present. (Command
objects hold the Python item object itself, so a mutation of an item that is
no longer in the scene is invisible in the scene — modelled as a no-op.) -/
def adjustNItem (s : Scene) (i : Int) (f : NItem → NItem) : Scene :=
  { s with nitems := s.nitems.map (fun p => if p.1 = i then (p.1, f p.2) else p) }

/-- Update the scene-held edge item with the given identity, if present. -/
def adjustEItem (s : Scene) (t : Int × Int × Int) (f : EItem → EItem) : Scene :=
  { s with eitems := s.eitems.map (fun it => if it.triple = t then f it else it) }

/-- Update the attribute dict `self.G.nodes[i]`; `none` models the `KeyError`
raised when the node is not in the graph. -/
def gUpdateNode (s : Scene) (i : Int) (f : GNodeA → GNodeA) : Option Scene :=
  if (alookup i s.gnodes).isSome then
    some { s with gnodes := s.gnodes.map (fun p => if p.1 = i then (p.1, f p.2) else p) }
  else none

/-- Update the attribute dict `self.G[u][v][k]`; `none` models the `KeyError`
raised when the edge is not in the graph. -/
def gUpdateEdge (s : Scene) (t : Int × Int × Int) (f : GEdgeA → GEdgeA) : Option Scene :=
  if (alookup t s.gedges).isSome then
    some { s with gedges := s.gedges.map (fun p => if p.1 = t then (p.1, f p.2) else p) }
  else none

/-- Maximum of a list of integers with a mandatory first element. -/
def maxInt (x : Int) (xs : List Int) : Int := xs.foldl max x

/-- The id allocation of `_create_node_internal` (lines 1171-1177): `0` for an
empty graph, else one more than the maximal existing id (every node id the
editor creates is an `int`, so the `ValueError` fallback is unreachable). -/
def allocNodeId (s : Scene) : Int :=
  match s.gnodes with
  | [] => 0
  | p :: ps => maxInt p.1 (ps.map Prod.fst) + 1

/-- `networkx.add_node` with the full attribute set `_create_node_internal`
passes: overwrites those five keys, keeping any other existing attributes. -/
def gAddNode (l : List (Int × GNodeA)) (i : Int) (d : NodeData) (pos : ℚ × ℚ) :
    List (Int × GNodeA) :=
  if (alookup i l).isSome then
    l.map (fun p => if p.1 = i then
      (p.1, { p.2 with name := d.name, states := d.states, shape := d.shape,
                       size := d.size, position := pos }) else p)
  else l ++ [(i, { name := d.name, states := d.states, shape := d.shape,
                   size := d.size, position := pos })]

/-- `_create_node_internal(pos, data, node_id)`: allocates an id when none is
given, inserts the node into `self.G`, and adds a fresh `NodeItem`. -/
def createNodeInternal (s : Scene) (pos : ℚ × ℚ) (d : NodeData) (nid : Option Int) :
    Scene × Int :=
  let i := nid.getD (allocNodeId s)
  ({ s with gnodes := gAddNode s.gnodes i d pos,
            nitems := s.nitems ++ [(i, { data := d, pos := pos })] }, i)

/-- `_delete_node_item_internal` (lines 1191-1209): removes every edge item
touching the node, then (when the node is in `self.G`) removes it from the
graph — `networkx.remove_node` cascading over all incident graph edges — and
finally removes the node item. -/
def deleteNodeItemInternal (s : Scene) (i : Int) : Scene :=
  let eitems2 := s.eitems.filter (fun it => !(it.src = i || it.dst = i))
  let present := (alookup i s.gnodes).isSome
  { s with
    eitems := eitems2,
    gnodes := if present then aerase i s.gnodes else s.gnodes,
    gedges := if present then s.gedges.filter (fun p => !(p.1.1 = i || p.1.2.1 = i))
              else s.gedges,
    nitems := aerase i s.nitems }

/-- The key allocation shared by `_create_edge_internal` (lines 1216-1221) and
`AddEdgeCommand.execute` (lines 253-258): `max(existing) + 1` over the keys of
the `u → v` edges, or `0` when there are none. -/
def allocEdgeKey (s : Scene) (u v : Int) : Int :=
  match s.gedges.filterMap (fun p =>
      if p.1.1 = u ∧ p.1.2.1 = v then some p.1.2.2 else none) with
  | [] => 0
  | k :: ks => maxInt k ks + 1

/-- `networkx.add_edge` with the full core attribute set: overwrites those
four keys, keeping any other existing attributes. -/
def gAddEdge (l : List ((Int × Int × Int) × GEdgeA)) (t : Int × Int × Int) (d : EdgeData) :
    List ((Int × Int × Int) × GEdgeA) :=
  if (alookup t l).isSome then
    l.map (fun p => if p.1 = t then
      (p.1, { p.2 with name := d.name, weight := d.weight,
                       undirected := d.undirected, bidirectional := d.bidirectional })
      else p)
  else l ++ [(t, { name := d.name, weight := d.weight,
                   undirected := d.undirected, bidirectional := d.bidirectional })]

/-- `_create_edge_internal(src, dst, data, edge_key)`: allocates a key when
none is given, inserts the edge into `self.G`, appends a fresh `EdgeItem`
(offset 0), and reflows the pair. -/
def createEdgeInternal (s : Scene) (u v : Int) (d : EdgeData) (key : Option Int) :
    Scene × Int :=
  let k := key.getD (allocEdgeKey s u v)
  let s2 := { s with gedges := gAddEdge s.gedges (u, v, k) d,
                     eitems := s.eitems ++ [{ src := u, dst := v, key := k, data := d }] }
  (reflowScene s2 u v, k)

/-- `_delete_edge_item_internal`: removes the graph edge when present, removes
the edge item, and reflows the pair. -/
def deleteEdgeItemInternal (s : Scene) (u v k : Int) : Scene :=
  let ge := if (alookup (u, v, k) s.gedges).isSome then aerase (u, v, k) s.gedges
            else s.gedges
  let its := s.eitems.eraseP (fun it => it.triple = (u, v, k))
  reflowScene { s with gedges := ge, eitems := its } u v

/-! ### Commands (lines 125-436)

A command object is embedded as a constructor carrying its captured fields;
`execCmd` returns the updated command (Python commands capture state in
`execute`) together with the new scene, `none` modelling an escaping
exception. -/

inductive SceneCmd : Type
  | addNode (pos : ℚ × ℚ) (dat : NodeData) (node_id : Option Int)
  | deleteNode (node_id : Int) (dat : NodeData) (position : ℚ × ℚ)
      (connected : List (Int × Int × EdgeData × Int))
  | addEdge (src dst : Int) (edge_dat : Option EdgeData) (edge_key : Option Int)
      (item : Option (Int × Int × Int))
  | deleteEdge (src dst : Int) (dat : EdgeData) (key : Int)
  | renameNode (node_id : Int) (oldName newName : String)
  | renameEdge (src dst key : Int) (oldName newName : String)
  | changeNodeProp (node_id : Int) (prop : String) (oldv newv : PyVal)
  | changeEdgeProp (src dst key : Int) (prop : String) (oldv newv : PyVal)
  | moveNode (node_id : Int) (oldPos newPos : ℚ × ℚ)
deriving DecidableEq

/-- `ChangeNodePropertyCommand._apply_property` (lines 330-357).  The `size`
branch evaluates `float(value)` first: a `ValueError`/`TypeError` is caught
and ignored (`pass`), after which the item's data and `self.G` are updated;
an unknown property name matches no branch and does nothing.  A `none` result
models the uncaught `KeyError` of indexing a node absent from `self.G` (the
item-object mutation already performed on that raising path is not otherwise
observable in the scene). -/
def applyNodeProp (s : Scene) (i : Int) (prop : String) (v : PyVal) : Option Scene :=
  if prop = "name" then
    gUpdateNode (adjustNItem s i (fun it => { it with data.name := pyStr v })) i
      (fun g => { g with name := pyStr v })
  else if prop = "states" then
    let xs := pyListOf v
    gUpdateNode (adjustNItem s i (fun it => { it with data.states := xs })) i
      (fun g => { g with states := xs })
  else if prop = "shape" then
    gUpdateNode (adjustNItem s i (fun it => { it with data.shape := pyStr v })) i
      (fun g => { g with shape := pyStr v })
  else if prop = "size" then
    match pyFloat v with
    | none => some s
    | some q =>
        gUpdateNode (adjustNItem s i (fun it => { it with data.size := q })) i
          (fun g => { g with size := q })
  else if prop = "node_type" then
    gUpdateNode s i (fun g => { g with node_type := some v })
  else if prop = "description" then
    gUpdateNode s i (fun g => { g with description := some v })
  else some s

/-- `ChangeEdgePropertyCommand._apply_property` (lines 381-404), analogous. -/
def applyEdgeProp (s : Scene) (t : Int × Int × Int) (prop : String) (v : PyVal) :
    Option Scene :=
  if prop = "label" then
    gUpdateEdge (adjustEItem s t (fun it => { it with data.name := pyStr v })) t
      (fun g => { g with name := pyStr v })
  else if prop = "link_type" then
    gUpdateEdge s t (fun g => { g with link_type := some v })
  else if prop = "description" then
    gUpdateEdge s t (fun g => { g with description := some v })
  else if prop = "undirected" then
    gUpdateEdge (adjustEItem s t (fun it => { it with data.undirected := pyBool v })) t
      (fun g => { g with undirected := pyBool v })
  else if prop = "bidirectional" then
    gUpdateEdge (adjustEItem s t (fun it => { it with data.bidirectional := pyBool v })) t
      (fun g => { g with bidirectional := pyBool v })
  else if prop = "weight" then
    match pyFloat v with
    | none => some s
    | some q =>
        gUpdateEdge (adjustEItem s t (fun it => { it with data.weight := q })) t
          (fun g => { g with weight := q })
  else some s

/-- `MoveNodeCommand`'s position application: sets the item position and
`self.G.nodes[id]['position']`, toggling the reentrancy flag around it;
`none` models the exception raised when the item is no longer in a scene or
the node is absent from `self.G`. -/
def applyMove (s : Scene) (i : Int) (pos : ℚ × ℚ) : Option Scene :=
  if (alookup i s.nitems).isSome && (alookup i s.gnodes).isSome then
    let gn := s.gnodes.map (fun p => if p.1 = i then (p.1, { p.2 with position := pos }) else p)
    let s2 := adjustNItem { s with gnodes := gn } i (fun it => { it with pos := pos })
    some { s2 with applying_command := false }
  else none

/-- `execute()` of each command class.  The returned command carries the state
captured during execution (allocated ids/keys, the incident-edge list of a
node deletion, the flags and name computed for a fresh edge). -/
def execCmd (s : Scene) : SceneCmd → Option (SceneCmd × Scene)
  | .addNode pos dat _ =>
      let r := createNodeInternal s pos dat none
      some (.addNode pos dat (some r.2), r.1)
  | .deleteNode i dat pos _ =>
      let conn := s.eitems.filterMap (fun it =>
        if it.src = i || it.dst = i then some (it.src, it.dst, it.data, it.key) else none)
      some (.deleteNode i dat pos conn, deleteNodeItemInternal s i)
  | .addEdge u v ed ek _ =>
      match ed with
      | none =>
          let fl : Bool × Bool :=
            match s.edge_mode with
            | .undirected => (true, false)
            | .bidirectional => (false, true)
            | .directed => (false, false)
          let k := allocEdgeKey s u v
          let dat : EdgeData :=
            { name := "e" ++ toString u ++ "_" ++ toString v ++ "_" ++ toString k,
              weight := .finite 1, undirected := fl.1, bidirectional := fl.2 }
          let r := createEdgeInternal s u v dat (some k)
          some (.addEdge u v (some dat) (some k) (some (u, v, r.2)), r.1)
      | some dat =>
          let r := createEdgeInternal s u v dat ek
          some (.addEdge u v (some dat) ek (some (u, v, r.2)), r.1)
  | .deleteEdge u v dat k =>
      some (.deleteEdge u v dat k, deleteEdgeItemInternal s u v k)
  | .renameNode i o n =>
      some (.renameNode i o n, adjustNItem s i (fun it => { it with data.name := n }))
  | .renameEdge u v k o n =>
      some (.renameEdge u v k o n,
            adjustEItem s (u, v, k) (fun it => { it with data.name := n }))
  | .changeNodeProp i prop o n =>
      (applyNodeProp s i prop n).map (fun s2 => (.changeNodeProp i prop o n, s2))
  | .changeEdgeProp u v k prop o n =>
      (applyEdgeProp s (u, v, k) prop n).map (fun s2 => (.changeEdgeProp u v k prop o n, s2))
  | .moveNode i op np =>
      (applyMove s i np).map (fun s2 => (.moveNode i op np, s2))

/-- The `(source, target, key)` identity of a captured incident-edge tuple. -/
def connTriple (e : Int × Int × EdgeData × Int) : Int × Int × Int :=
  (e.1, e.2.1, e.2.2.2)

/-- The captured incident-edge tuples as an association list from identity to
item data. -/
def connMap (conn : List (Int × Int × EdgeData × Int)) :
    List ((Int × Int × Int) × EdgeData) :=
  conn.map (fun e => (connTriple e, e.2.2.1))

/-- One step of `DeleteNodeCommand.undo`'s edge-restoring loop: re-create the
captured edge when both endpoint items exist (the Python guard). -/
def connStep (st : Scene) (e : Int × Int × EdgeData × Int) : Scene :=
  if (alookup e.1 st.nitems).isSome && (alookup e.2.1 st.nitems).isSome then
    (createEdgeInternal st e.1 e.2.1 e.2.2.1 (some e.2.2.2)).1
  else st

/-- `undo()` of each command class. -/
def undoCmd (s : Scene) : SceneCmd → Option Scene
  | .addNode _ _ nid =>
      match nid with
      | some i => some (deleteNodeItemInternal s i)
      | none => some s
  | .deleteNode i dat pos conn =>
      some (conn.foldl connStep (createNodeInternal s pos dat (some i)).1)
  | .addEdge _ _ _ _ item =>
      match item with
      | some t => some (deleteEdgeItemInternal s t.1 t.2.1 t.2.2)
      | none => some s
  | .deleteEdge u v dat k =>
      if (alookup u s.nitems).isSome && (alookup v s.nitems).isSome then
        some (createEdgeInternal s u v dat (some k)).1
      else some s
  | .renameNode i o _ =>
      some (adjustNItem s i (fun it => { it with data.name := o }))
  | .renameEdge u v k o _ =>
      some (adjustEItem s (u, v, k) (fun it => { it with data.name := o }))
  | .changeNodeProp i prop o _ => applyNodeProp s i prop o
  | .changeEdgeProp u v k prop o _ => applyEdgeProp s (u, v, k) prop o
  | .moveNode i op _ => applyMove s i op

/-! ### Observational equality and well-formedness -/

/-- Observational equality of the graph store held by two scenes: same node
attribute dicts, same edge attribute dicts, same item data — curve offsets
are layout, not store content. -/
def obsEq (s1 s2 : Scene) : Prop :=
  (∀ i, alookup i s1.gnodes = alookup i s2.gnodes) ∧
  (∀ t, alookup t s1.gedges = alookup t s2.gedges) ∧
  (∀ i, alookup i s1.nitems = alookup i s2.nitems) ∧
  (∀ t, eitemObs s1 t = eitemObs s2 t)

/-- Consistency invariant of a scene as the editor maintains it: unique ids
and edge identities, item lists mirroring the graph, edges only between
existing nodes, and item data agreeing with graph attributes. -/
def SceneWf (s : Scene) : Prop :=
  (akeys s.gnodes).Nodup ∧
  (akeys s.gedges).Nodup ∧
  (akeys s.nitems).Nodup ∧
  (s.eitems.map EItem.triple).Nodup ∧
  (∀ p ∈ s.gnodes, (alookup p.1 s.nitems).isSome = true) ∧
  (∀ q ∈ s.nitems, (alookup q.1 s.gnodes).isSome = true) ∧
  (∀ p ∈ s.gedges, (eitemObs s p.1).isSome = true) ∧
  (∀ it ∈ s.eitems, (alookup it.triple s.gedges).isSome = true) ∧
  (∀ p ∈ s.gedges, (alookup p.1.1 s.gnodes).isSome = true ∧
                   (alookup p.1.2.1 s.gnodes).isSome = true) ∧
  (∀ q ∈ s.nitems, ∀ g, alookup q.1 s.gnodes = some g →
      g.name = q.2.data.name ∧ g.states = q.2.data.states ∧
      g.shape = q.2.data.shape ∧ g.size = q.2.data.size ∧ g.position = q.2.pos) ∧
  (∀ it ∈ s.eitems, ∀ g, alookup it.triple s.gedges = some g →
      g.name = it.data.name ∧ g.weight = it.data.weight ∧
      g.undirected = it.data.undirected ∧ g.bidirectional = it.data.bidirectional)

instance (s : Scene) : Decidable (SceneWf s) := by
  unfold SceneWf; infer_instance

/-- The node carries none of the graph-only extra attributes. -/
def nodeExtrasClean (s : Scene) (i : Int) : Prop :=
  ∀ g, alookup i s.gnodes = some g → g.node_type = none ∧ g.description = none

instance (s : Scene) (i : Int) : Decidable (nodeExtrasClean s i) := by
  unfold nodeExtrasClean
  cases alookup i s.gnodes with
  | none => exact isTrue (by intro g h; cases h)
  | some g =>
      have : Decidable (g.node_type = none ∧ g.description = none) := inferInstance
      cases this with
      | isTrue h => exact isTrue (by intro g2 h2; cases h2; exact h)
      | isFalse h => exact isFalse (by intro h2; exact h (h2 g rfl))

/-- The edge carries none of the graph-only extra attributes. -/
def edgeExtrasClean (s : Scene) (t : Int × Int × Int) : Prop :=
  ∀ g, alookup t s.gedges = some g → g.link_type = none ∧ g.description = none

instance (s : Scene) (t : Int × Int × Int) : Decidable (edgeExtrasClean s t) := by
  unfold edgeExtrasClean
  cases alookup t s.gedges with
  | none => exact isTrue (by intro g h; cases h)
  | some g =>
      have : Decidable (g.link_type = none ∧ g.description = none) := inferInstance
      cases this with
      | isTrue h => exact isTrue (by intro g2 h2; cases h2; exact h)
      | isFalse h => exact isFalse (by intro h2; exact h (h2 g rfl))

/-! ### A concrete two-node, one-edge scene used to evaluate commands -/

/-- Attribute dict of node `0` of the concrete scene. -/
def gnW : GNodeA :=
  { name := "A", states := [], shape := "circle", size := .finite 24, position := (0, 0) }

/-- Attribute dict of the edge `(0, 1, 0)` of the concrete scene. -/
def geW : GEdgeA :=
  { name := "e0_1_0", weight := .finite 1, undirected := false, bidirectional := false }

/-- A scene with nodes `0`, `1` and one directed edge `(0, 1, 0)`, with item
lists mirroring the graph. -/
def sceneW : Scene :=
  { gnodes := [(0, gnW), (1, { gnW with name := "B", position := (100, 0) })],
    gedges := [((0, 1, 0), geW)],
    nitems := [(0, { data := { name := "A", states := [], shape := "circle",
                               size := .finite 24 },
                     pos := (0, 0) }),
               (1, { data := { name := "B", states := [], shape := "circle",
                               size := .finite 24 },
                     pos := (100, 0) })],
    eitems := [{ src := 0, dst := 1, key := 0,
                 data := { name := "e0_1_0", weight := .finite 1, undirected := false,
                           bidirectional := false },
                 curve_offset := 0 }] }

/-- A one-node scene whose node `0` carries a `description` graph attribute,
as written by a `node_type`/`description` property-change command. -/
def sceneWd : Scene :=
  { gnodes := [(0, { gnW with description := some (.pstr "critical") })],
    gedges := [],
    nitems := [(0, { data := { name := "A", states := [], shape := "circle",
                               size := .finite 24 },
                     pos := (0, 0) })],
    eitems := [] }

/-! ## Lemmas on the command history manager -/

theorem execMany_cons {α : Type} (m : CommandManager α) (c : α) (cs : List α) :
    execMany m (c :: cs) = execMany (m.pushHistory c) cs := rfl

theorem execMany_append {α : Type} (cs : List α) (c : α) :
    ∀ m : CommandManager α, execMany m (cs ++ [c]) = (execMany m cs).pushHistory c := by
  induction cs with
  | nil => intro m; rfl
  | cons d ds ih => intro m; rw [List.cons_append, execMany_cons, execMany_cons, ih]

/-- `pushHistory` from a state whose cursor sits on the last entry: append and
advance, evicting the oldest entry once the capacity is exceeded. -/
theorem pushHistory_atEnd {α : Type} (cap : Nat) (h : List α) (c : α) :
    CommandManager.pushHistory ⟨cap, h, (h.length : Int) - 1⟩ c =
      if h.length < cap then ⟨cap, h ++ [c], (h.length : Int)⟩
      else ⟨cap, (h ++ [c]).drop 1, (h.length : Int) - 1⟩ := by
  have hc1 : ¬ (((h.length : Int) - 1) < ((h.length : Int) - 1)) := lt_irrefl _
  simp only [CommandManager.pushHistory]
  rw [if_neg hc1]
  rcases Nat.lt_or_ge h.length cap with hlt | hge
  · rw [if_neg (by simp only [List.length_append, List.length_singleton]; omega),
        if_pos hlt]
    congr 1
    omega
  · rw [if_pos (by simp only [List.length_append, List.length_singleton]; omega),
        if_neg (by omega)]
    congr 1
    omega

/-- Executing a command sequence on a fresh manager of positive capacity keeps
exactly the last `min length cap` commands and leaves the cursor on the last
entry. -/
theorem execMany_new_eq {α : Type} (cap : Nat) (hcap : 0 < cap) (cs : List α) :
    execMany (CommandManager.new α cap) cs =
      { max_history := cap, history := cs.drop (cs.length - cap),
        current_index := ((min cs.length cap : Nat) : Int) - 1 } := by
  induction cs using List.reverseRecOn with
  | nil => simp [execMany, CommandManager.new]
  | append_singleton ds c ih =>
      rw [execMany_append, ih]
      have hHlen : (ds.drop (ds.length - cap)).length = min ds.length cap := by
        rw [List.length_drop]
        omega
      have hidx : ((min ds.length cap : Nat) : Int) - 1 =
          ((ds.drop (ds.length - cap)).length : Int) - 1 := by
        rw [hHlen]
      rw [hidx, pushHistory_atEnd, hHlen]
      rcases Nat.lt_or_ge ds.length cap with hlt | hge
      · have h1 : ds.length - cap = 0 := by omega
        have h3 : ds.length + 1 - cap = 0 := by omega
        rw [if_pos (by omega)]
        simp only [List.length_append, List.length_singleton, h1, h3, List.drop_zero]
        congr 1
        omega
      · rw [if_neg (by omega)]
        have hdr : (ds.drop (ds.length - cap) ++ [c]).drop 1 =
            (ds ++ [c]).drop (ds.length + 1 - cap) := by
          rw [List.drop_append_of_le_length (by omega : ds.length + 1 - cap ≤ ds.length),
              List.drop_append_of_le_length
                (by rw [List.length_drop]; omega :
                  1 ≤ (ds.drop (ds.length - cap)).length),
              List.drop_drop]
          have h5 : ds.length - cap + 1 = ds.length + 1 - cap := by omega
          rw [h5]
        rw [hdr]
        simp only [List.length_append, List.length_singleton]
        congr 1
        omega

/-- From a state whose cursor is a valid index, `j ≤ cursor + 1` undos all
succeed and simply decrement the cursor `j` times. -/
theorem undoN_ok {α : Type} (j : Nat) :
    ∀ m : CommandManager α, (j : Int) ≤ m.current_index + 1 →
      m.current_index < (m.history.length : Int) →
      undoN j m = some { m with current_index := m.current_index - j } := by
  induction j with
  | zero => intro m _ _; simp [undoN]
  | succ j ih =>
      intro m hj hlt
      have h0 : (0 : Int) ≤ m.current_index := by
        have := Int.natCast_nonneg j
        omega
      have hcu : m.can_undo = true := by
        simp only [CommandManager.can_undo, decide_eq_true_eq]
        omega
      have hidx : m.current_index.toNat < m.history.length := by omega
      have hget : m.history[m.current_index.toNat]? = some m.history[m.current_index.toNat] :=
        List.getElem?_eq_getElem hidx
      have hstep : m.undo = some { m with current_index := m.current_index - 1 } := by
        simp [CommandManager.undo, hcu, hget]
      show (m.undo).bind (undoN j) = _
      rw [hstep, Option.some_bind]
      rw [ih { m with current_index := m.current_index - 1 }
            (by simp only []; omega) (by simp only []; omega)]
      have : m.current_index - 1 - (j : Int) = m.current_index - ((j : Nat) + 1 : Nat) := by
        push_cast
        omega
      rw [this]

/-! ## Claim theorems: command history (C7, C8, C10) -/

/-- C7: after executing `cap + k` commands (`cap > 0`, `k > 0`) on a fresh
history with no intervening undos, exactly `cap` commands remain — the `k`
oldest were dropped and the cursor sits on the last entry — undoing `cap`
times succeeds, each of those undos finding `can_undo` true, and afterwards
`can_undo` is false. -/
theorem history_cap_bound (cap k : Nat) (cs : List Nat) (hcap : 0 < cap) (hk : 0 < k)
    (hlen : cs.length = cap + k) :
    ((execMany (CommandManager.new Nat cap) cs).history.length = cap) ∧
    ((execMany (CommandManager.new Nat cap) cs).history = cs.drop k) ∧
    ((execMany (CommandManager.new Nat cap) cs).current_index = (cap : Int) - 1) ∧
    (∀ j < cap, ∃ m2, undoN j (execMany (CommandManager.new Nat cap) cs) = some m2 ∧
        m2.can_undo = true) ∧
    (∃ m2, undoN cap (execMany (CommandManager.new Nat cap) cs) = some m2 ∧
        m2.can_undo = false) := by
  have hmin : min cs.length cap = cap := by omega
  have hdk : cs.length - cap = k := by omega
  have he := execMany_new_eq cap hcap cs
  rw [hdk, hmin] at he
  have hhl : (cs.drop k).length = cap := by
    rw [List.length_drop]
    omega
  refine ⟨by rw [he]; exact hhl, by rw [he], by rw [he], ?_, ?_⟩
  · intro j hj
    rw [he]
    refine ⟨_, undoN_ok j _ (by show (j : Int) ≤ ((cap : Int) - 1) + 1; omega)
        (by show (cap : Int) - 1 < ((cs.drop k).length : Int); rw [hhl]; omega), ?_⟩
    simp only [CommandManager.can_undo, decide_eq_true_eq]
    show (0 : Int) ≤ (cap : Int) - 1 - (j : Int)
    omega
  · rw [he]
    refine ⟨_, undoN_ok cap _ (by show (cap : Int) ≤ ((cap : Int) - 1) + 1; omega)
        (by show (cap : Int) - 1 < ((cs.drop k).length : Int); rw [hhl]; omega), ?_⟩
    simp only [CommandManager.can_undo]
    show decide ((0 : Int) ≤ (cap : Int) - 1 - (cap : Int)) = false
    simp only [decide_eq_false_iff_not]
    omega

/-- Witness for C7 at `cap = 2`, `k = 1`, commands `[0, 1, 2]`. -/
theorem history_cap_bound_witness :
    0 < 2 ∧ 0 < 1 ∧ ([0, 1, 2] : List Nat).length = 2 + 1 ∧
    (((execMany (CommandManager.new Nat 2) [0, 1, 2]).history.length = 2) ∧
     ((execMany (CommandManager.new Nat 2) [0, 1, 2]).history = [0, 1, 2].drop 1) ∧
     ((execMany (CommandManager.new Nat 2) [0, 1, 2]).current_index = (2 : Int) - 1) ∧
     (∀ j < 2, ∃ m2, undoN j (execMany (CommandManager.new Nat 2) [0, 1, 2]) = some m2 ∧
         m2.can_undo = true) ∧
     (∃ m2, undoN 2 (execMany (CommandManager.new Nat 2) [0, 1, 2]) = some m2 ∧
         m2.can_undo = false)) :=
  ⟨by decide, by decide, by decide,
   history_cap_bound 2 1 [0, 1, 2] (by decide) (by decide) (by decide)⟩

/-- C8: on a fresh history (any capacity of at least 2, covering the default),
`execute(A); execute(B); undo(); execute(C)` leaves the history `[A, C]` with
the cursor on `C`, `can_redo` false, and `B` (when distinct from `A` and `C`)
no longer anywhere in the history. -/
theorem branch_truncation (cap : Nat) (hcap : 2 ≤ cap) (a b c : Nat) :
    ∃ m1 m2 m2u m3 : CommandManager Nat,
      CommandManager.execute_command alwaysOk () (CommandManager.new Nat cap) a
        = some ((), m1) ∧
      CommandManager.execute_command alwaysOk () m1 b = some ((), m2) ∧
      m2.undo = some m2u ∧
      CommandManager.execute_command alwaysOk () m2u c = some ((), m3) ∧
      m3.history = [a, c] ∧ m3.current_index = 1 ∧ m3.can_redo = false ∧
      (b ≠ a → b ≠ c → b ∉ m3.history) := by
  refine ⟨⟨cap, [a], 0⟩, ⟨cap, [a, b], 1⟩, ⟨cap, [a, b], 0⟩, ⟨cap, [a, c], 1⟩,
    ?_, ?_, ?_, ?_, rfl, rfl, ?_, ?_⟩
  · simp only [CommandManager.execute_command, alwaysOk, CommandManager.new,
      CommandManager.pushHistory]
    norm_num
    omega
  · simp only [CommandManager.execute_command, alwaysOk, CommandManager.pushHistory]
    norm_num
    omega
  · simp only [CommandManager.undo, CommandManager.can_undo]
    norm_num
  · simp only [CommandManager.execute_command, alwaysOk, CommandManager.pushHistory]
    norm_num
    omega
  · simp [CommandManager.can_redo]
  · intro hba hbc
    simp [hba, hbc]

/-- Witness for C8 at capacity 50 (the default `MAX_UNDO_HISTORY`) with the
distinct commands 10, 20, 30. -/
theorem branch_truncation_witness :
    2 ≤ 50 ∧
    (∃ m1 m2 m2u m3 : CommandManager Nat,
      CommandManager.execute_command alwaysOk () (CommandManager.new Nat 50) 10
        = some ((), m1) ∧
      CommandManager.execute_command alwaysOk () m1 20 = some ((), m2) ∧
      m2.undo = some m2u ∧
      CommandManager.execute_command alwaysOk () m2u 30 = some ((), m3) ∧
      m3.history = [10, 30] ∧ m3.current_index = 1 ∧ m3.can_redo = false ∧
      (20 ≠ 10 → 20 ≠ 30 → 20 ∉ m3.history)) :=
  ⟨by decide, branch_truncation 50 (by decide) 10 20 30⟩

/-- C10: when a command's `execute()` raises, `execute_command` propagates the
exception without producing any successor history state: the command is never
appended, nothing is truncated or evicted, and the caller's manager is exactly
as before the call (the history mutations of lines 70-81 all run after the
`command.execute()` of line 68). -/
theorem execute_command_exception {α σ : Type} (run : α → σ → Option σ) (st : σ)
    (m : CommandManager α) (c : α) (h : run c st = none) :
    CommandManager.execute_command run st m c = none := by
  unfold CommandManager.execute_command
  rw [h]

/-- Witness for C10: a command whose `execute()` always raises. -/
theorem execute_command_exception_witness :
    (fun (_ : Nat) (_ : Unit) => (none : Option Unit)) 7 () = none ∧
    CommandManager.execute_command (fun (_ : Nat) (_ : Unit) => (none : Option Unit)) ()
      (CommandManager.new Nat 50) 7 = none :=
  ⟨rfl, execute_command_exception _ () (CommandManager.new Nat 50) 7 rfl⟩

/-! ## Association-list lemmas -/

theorem alookup_isSome_iff_mem {κ ν : Type} [DecidableEq κ] (k : κ) (l : List (κ × ν)) :
    (alookup k l).isSome = true ↔ k ∈ akeys l := by
  induction l with
  | nil => simp [alookup, akeys]
  | cons p rest ih =>
      rcases p with ⟨k2, v⟩
      by_cases h : k2 = k
      · subst h
        simp [alookup, akeys]
      · simp [alookup, akeys, h, ih, Ne.symm h]

theorem alookup_aupsert_self {κ ν : Type} [DecidableEq κ] (k : κ) (v : ν) (l : List (κ × ν)) :
    alookup k (aupsert k v l) = some v := by
  induction l with
  | nil => simp [aupsert, alookup]
  | cons p rest ih =>
      rcases p with ⟨k2, v2⟩
      by_cases h : k2 = k
      · simp [aupsert, alookup, h]
      · simp [aupsert, alookup, h, ih]

theorem alookup_aupsert_ne {κ ν : Type} [DecidableEq κ] (k j : κ) (v : ν) (l : List (κ × ν))
    (hne : j ≠ k) : alookup j (aupsert k v l) = alookup j l := by
  induction l with
  | nil => simp [aupsert, alookup, Ne.symm hne]
  | cons p rest ih =>
      rcases p with ⟨k2, v2⟩
      rw [aupsert]
      by_cases h : k2 = k
      · have hk2j : ¬ k2 = j := fun hh => hne (hh ▸ h)
        rw [if_pos h, alookup, if_neg (Ne.symm hne), alookup, if_neg hk2j]
      · rw [if_neg h, alookup, alookup]
        by_cases h2 : k2 = j
        · rw [if_pos h2, if_pos h2]
        · rw [if_neg h2, if_neg h2]
          exact ih

theorem mem_akeys_aupsert {κ ν : Type} [DecidableEq κ] (k j : κ) (v : ν) (l : List (κ × ν)) :
    j ∈ akeys (aupsert k v l) ↔ j ∈ akeys l ∨ j = k := by
  induction l with
  | nil => simp [aupsert, akeys]
  | cons p rest ih =>
      rcases p with ⟨k2, v2⟩
      rw [aupsert]
      by_cases h : k2 = k
      · subst h
        rw [if_pos rfl]
        simp only [akeys, List.map_cons, List.mem_cons]
        tauto
      · rw [if_neg h]
        simp only [akeys, List.map_cons, List.mem_cons]
        simp only [akeys] at ih
        rw [ih]
        tauto

theorem nodup_akeys_aupsert {κ ν : Type} [DecidableEq κ] (k : κ) (v : ν) (l : List (κ × ν))
    (hnd : (akeys l).Nodup) : (akeys (aupsert k v l)).Nodup := by
  induction l with
  | nil => simp [aupsert, akeys]
  | cons p rest ih =>
      rcases p with ⟨k2, v2⟩
      have hnd2 : (k2 :: akeys rest).Nodup := hnd
      rcases List.nodup_cons.mp hnd2 with ⟨hk2, hrest⟩
      rw [aupsert]
      by_cases h : k2 = k
      · subst h
        rw [if_pos rfl]
        show (k2 :: akeys rest).Nodup
        exact List.nodup_cons.mpr ⟨hk2, hrest⟩
      · rw [if_neg h]
        show (k2 :: akeys (aupsert k v rest)).Nodup
        refine List.nodup_cons.mpr ⟨?_, ih hrest⟩
        rw [mem_akeys_aupsert]
        push_neg
        exact ⟨hk2, h⟩

theorem alookup_aerase_ne {κ ν : Type} [DecidableEq κ] (k j : κ) (l : List (κ × ν))
    (hne : j ≠ k) : alookup j (aerase k l) = alookup j l := by
  induction l with
  | nil => simp [aerase]
  | cons p rest ih =>
      rcases p with ⟨k2, v2⟩
      rw [aerase]
      by_cases h : k2 = k
      · rw [if_pos h, alookup, if_neg (fun hh : k2 = j => hne (hh ▸ h))]
      · rw [if_neg h, alookup, alookup]
        by_cases h2 : k2 = j
        · rw [if_pos h2, if_pos h2]
        · rw [if_neg h2, if_neg h2]
          exact ih

theorem mem_akeys_aerase {κ ν : Type} [DecidableEq κ] (k j : κ) (l : List (κ × ν)) :
    j ∈ akeys (aerase k l) → j ∈ akeys l := by
  induction l with
  | nil => simp [aerase]
  | cons p rest ih =>
      rcases p with ⟨k2, v2⟩
      rw [aerase]
      by_cases h : k2 = k
      · rw [if_pos h]
        intro hm
        show j ∈ k2 :: akeys rest
        exact List.mem_cons.mpr (Or.inr hm)
      · rw [if_neg h]
        intro hm
        have hm2 : j ∈ k2 :: akeys (aerase k rest) := hm
        show j ∈ k2 :: akeys rest
        rcases List.mem_cons.mp hm2 with he | hm3
        · exact List.mem_cons.mpr (Or.inl he)
        · exact List.mem_cons.mpr (Or.inr (ih hm3))

theorem alookup_aerase_self {κ ν : Type} [DecidableEq κ] (k : κ) (l : List (κ × ν))
    (hnd : (akeys l).Nodup) : alookup k (aerase k l) = none := by
  induction l with
  | nil => simp [aerase, alookup]
  | cons p rest ih =>
      rcases p with ⟨k2, v2⟩
      rcases List.nodup_cons.mp hnd with ⟨hk2, hrest⟩
      by_cases h : k2 = k
      · subst h
        rw [aerase, if_pos rfl]
        cases ho : alookup k2 rest with
        | none => rfl
        | some w =>
            exfalso
            exact hk2 ((alookup_isSome_iff_mem k2 rest).mp (by rw [ho]; rfl))
      · rw [aerase, if_neg h, alookup, if_neg h]
        exact ih hrest

theorem nodup_akeys_aerase {κ ν : Type} [DecidableEq κ] (k : κ) (l : List (κ × ν))
    (hnd : (akeys l).Nodup) : (akeys (aerase k l)).Nodup := by
  induction l with
  | nil => exact hnd
  | cons p rest ih =>
      rcases p with ⟨k2, v2⟩
      have hnd2 : (k2 :: akeys rest).Nodup := hnd
      rcases List.nodup_cons.mp hnd2 with ⟨hk2, hrest⟩
      rw [aerase]
      by_cases h : k2 = k
      · rw [if_pos h]
        exact hrest
      · rw [if_neg h]
        show (k2 :: akeys (aerase k rest)).Nodup
        exact List.nodup_cons.mpr ⟨fun hm => hk2 (mem_akeys_aerase k k2 rest hm), ih hrest⟩

theorem alookup_filter_key {κ ν : Type} [DecidableEq κ] (p : κ → Bool) (k : κ)
    (l : List (κ × ν)) :
    alookup k (l.filter (fun e => p e.1)) = if p k then alookup k l else none := by
  induction l with
  | nil => simp [alookup]
  | cons q rest ih =>
      rcases q with ⟨k2, v2⟩
      rw [List.filter_cons]
      by_cases h : k2 = k
      · subst h
        by_cases hp : p k2 = true
        · rw [if_pos (by simpa using hp), alookup, if_pos rfl, if_pos hp, alookup, if_pos rfl]
        · rw [if_neg (by simpa using hp), ih]
          rw [if_neg hp, if_neg hp]
      · by_cases hp : p k2 = true
        · rw [if_pos (by simpa using hp), alookup, if_neg h, ih]
          by_cases hk : p k = true
          · rw [if_pos hk, if_pos hk, alookup, if_neg h]
          · rw [if_neg hk, if_neg hk]
        · rw [if_neg (by simpa using hp), ih]
          by_cases hk : p k = true
          · rw [if_pos hk, if_pos hk, alookup, if_neg h]
          · rw [if_neg hk, if_neg hk]

theorem nodup_akeys_filter {κ ν : Type} (p : κ × ν → Bool) (l : List (κ × ν))
    (hnd : (akeys l).Nodup) : (akeys (l.filter p)).Nodup := by
  have hsub : (l.filter p).Sublist l := List.filter_sublist l
  exact List.Nodup.sublist (List.Sublist.map Prod.fst hsub) hnd

/-! ## Claim theorems: graph store mutators (C5, C6) -/

theorem autoAddNode_present (cs : ControlStructure) (i : PyStr)
    (h : (alookup i cs.nodes).isSome = true) : cs.autoAddNode i = cs := by
  rw [ControlStructure.autoAddNode, if_pos h]

theorem autoAddNode_lookup_isSome (cs : ControlStructure) (i j : PyStr)
    (h : (alookup j cs.nodes).isSome = true) :
    (alookup j (cs.autoAddNode i).nodes).isSome = true := by
  rw [ControlStructure.autoAddNode]
  by_cases hp : (alookup i cs.nodes).isSome = true
  · rw [if_pos hp]
    exact h
  · rw [if_neg hp]
    show (alookup j (cs.nodes ++ [(i, none)])).isSome = true
    rw [alookup_isSome_iff_mem] at h ⊢
    simp only [akeys, List.map_append, List.mem_append]
    exact Or.inl h

theorem autoAddNode_self_isSome (cs : ControlStructure) (i : PyStr) :
    (alookup i (cs.autoAddNode i).nodes).isSome = true := by
  rw [ControlStructure.autoAddNode]
  by_cases hp : (alookup i cs.nodes).isSome = true
  · rw [if_pos hp]
    exact hp
  · rw [if_neg hp]
    show (alookup i (cs.nodes ++ [(i, none)])).isSome = true
    rw [alookup_isSome_iff_mem]
    simp [akeys]

/-- C5 (amended): `add_link` with a missing endpoint does not fail — it never
checks endpoint existence; `networkx.add_edge` silently creates the missing
endpoint nodes, the edge is inserted with the full `ControlLink` attribute
dict, existing nodes are untouched, and the store is changed.  (The function
is total: no `NotFound` or any other error can be signalled on this path.) -/
theorem add_link_autocreates (cs : ControlStructure) (lid : EdgeKey) (u v : PyStr)
    (d : LinkData)
    (h : (alookup u cs.nodes).isSome = false ∨ (alookup v cs.nodes).isSome = false) :
    (alookup u (cs.add_link lid u v d).nodes).isSome = true ∧
    (alookup v (cs.add_link lid u v d).nodes).isSome = true ∧
    alookup (u, v, lid) (cs.add_link lid u v d).edges =
      some { id := lid, source_id := u, target_id := v, name := d.name,
             description := d.description, weight := d.weight,
             undirected := d.undirected, bidirectional := d.bidirectional } ∧
    (∀ j, (alookup j cs.nodes).isSome = true →
        (alookup j (cs.add_link lid u v d).nodes).isSome = true) ∧
    cs.add_link lid u v d ≠ cs := by
  have hnodes : (cs.add_link lid u v d).nodes = ((cs.autoAddNode u).autoAddNode v).nodes := rfl
  have hu : (alookup u (cs.add_link lid u v d).nodes).isSome = true := by
    rw [hnodes]
    exact autoAddNode_lookup_isSome _ v u (autoAddNode_self_isSome cs u)
  have hv : (alookup v (cs.add_link lid u v d).nodes).isSome = true := by
    rw [hnodes]
    exact autoAddNode_self_isSome _ v
  refine ⟨hu, hv, ?_, ?_, ?_⟩
  · show alookup (u, v, lid) (aupsert (u, v, lid) _ ((cs.autoAddNode u).autoAddNode v).edges)
      = _
    rw [alookup_aupsert_self]
  · intro j hj
    rw [hnodes]
    exact autoAddNode_lookup_isSome _ v j (autoAddNode_lookup_isSome _ u j hj)
  · intro heq
    rcases h with hu0 | hv0
    · rw [heq] at hu
      rw [hu0] at hu
      cases hu
    · rw [heq] at hv
      rw [hv0] at hv
      cases hv

/-- Witness for C5 (amended) on an empty store. -/
theorem add_link_autocreates_witness :
    ((alookup (.nid 1) ({} : ControlStructure).nodes).isSome = false ∨
     (alookup (.nid 2) ({} : ControlStructure).nodes).isSome = false) ∧
    ((alookup (.nid 1)
        (ControlStructure.add_link {} (.kstr (.eid 1)) (.nid 1) (.nid 2) {}).nodes).isSome
          = true ∧
     (alookup (.nid 2)
        (ControlStructure.add_link {} (.kstr (.eid 1)) (.nid 1) (.nid 2) {}).nodes).isSome
          = true ∧
     alookup (.nid 1, .nid 2, .kstr (.eid 1))
        (ControlStructure.add_link {} (.kstr (.eid 1)) (.nid 1) (.nid 2) {}).edges =
       some { id := .kstr (.eid 1), source_id := .nid 1, target_id := .nid 2,
              name := "", description := "", weight := 1,
              undirected := false, bidirectional := false } ∧
     (∀ j, (alookup j ({} : ControlStructure).nodes).isSome = true →
        (alookup j
          (ControlStructure.add_link {} (.kstr (.eid 1)) (.nid 1) (.nid 2) {}).nodes).isSome
            = true) ∧
     ControlStructure.add_link {} (.kstr (.eid 1)) (.nid 1) (.nid 2) {} ≠
       ({} : ControlStructure)) :=
  ⟨Or.inl rfl, add_link_autocreates {} (.kstr (.eid 1)) (.nid 1) (.nid 2) {} (Or.inl rfl)⟩

/-- Counterexample to C5 as stated: `add_link` on an empty store with both
endpoints absent succeeds (no error value exists on this code path) and
changes the store — a node is created and an edge is added — contradicting
"fails with NotFound and the store is left unchanged". -/
theorem add_link_missing_endpoint_cx :
    (alookup (PyStr.nid 1) ({} : ControlStructure).nodes).isSome = false ∧
    (ControlStructure.add_link {} (.kstr (.eid 1)) (.nid 1) (.nid 2) {}).edges.length = 1 ∧
    (alookup (PyStr.nid 1)
      (ControlStructure.add_link {} (.kstr (.eid 1)) (.nid 1) (.nid 2) {}).nodes).isSome
        = true ∧
    ControlStructure.add_link {} (.kstr (.eid 1)) (.nid 1) (.nid 2) {} ≠
      ({} : ControlStructure) := by
  refine ⟨rfl, rfl, rfl, ?_⟩
  intro h
  have h2 := congrArg (fun c => c.edges.length) h
  exact absurd h2 (by decide)

/-- C6 (amended): `remove_node_with_links` on a present id removes that node
and exactly the edges having it as source or target, leaving every other node
(with its attributes) and every non-incident edge untouched; on an absent id
it is a silent no-op — the store is returned unchanged and no `NotFound` (or
any other) error is signalled, the membership test guarding the whole body. -/
theorem remove_node_with_links_spec (cs : ControlStructure) (i : PyStr)
    (hnd : (akeys cs.nodes).Nodup) :
    ((alookup i cs.nodes).isSome = true →
      alookup i (cs.remove_node_with_links i).nodes = none ∧
      (∀ j, j ≠ i →
        alookup j (cs.remove_node_with_links i).nodes = alookup j cs.nodes) ∧
      (∀ e, e ∈ (cs.remove_node_with_links i).edges ↔
        (e ∈ cs.edges ∧ e.1.1 ≠ i ∧ e.1.2.1 ≠ i))) ∧
    ((alookup i cs.nodes).isSome = false → cs.remove_node_with_links i = cs) := by
  constructor
  · intro hp
    rw [ControlStructure.remove_node_with_links, if_pos hp]
    refine ⟨alookup_aerase_self i cs.nodes hnd, ?_, ?_⟩
    · intro j hj
      exact alookup_aerase_ne i j cs.nodes hj
    · intro e
      rw [List.mem_filter]
      constructor
      · rintro ⟨hm, hb⟩
        refine ⟨hm, ?_, ?_⟩ <;>
          · intro hc
            rw [hc] at hb
            simp at hb
      · rintro ⟨hm, h1, h2⟩
        refine ⟨hm, ?_⟩
        simp [h1, h2]
  · intro hp
    rw [ControlStructure.remove_node_with_links, if_neg (by rw [hp]; exact Bool.false_ne_true)]

/-- Witness for C6 (amended) on a two-node, one-edge store. -/
theorem remove_node_with_links_spec_witness :
    (akeys (((({} : ControlStructure).add_node (.nid 1) { name := "A" }).add_node
        (.nid 2) { name := "B" }).add_link (.kstr (.eid 1)) (.nid 1) (.nid 2) {}).nodes).Nodup ∧
    (((alookup (.nid 1) (((({} : ControlStructure).add_node (.nid 1) { name := "A" }).add_node
        (.nid 2) { name := "B" }).add_link (.kstr (.eid 1)) (.nid 1) (.nid 2) {}).nodes).isSome
          = true →
      alookup (.nid 1) ((((({} : ControlStructure).add_node (.nid 1) { name := "A" }).add_node
        (.nid 2) { name := "B" }).add_link (.kstr (.eid 1)) (.nid 1) (.nid 2)
          {}).remove_node_with_links (.nid 1)).nodes = none ∧
      (∀ j, j ≠ PyStr.nid 1 →
        alookup j ((((({} : ControlStructure).add_node (.nid 1) { name := "A" }).add_node
          (.nid 2) { name := "B" }).add_link (.kstr (.eid 1)) (.nid 1) (.nid 2)
            {}).remove_node_with_links (.nid 1)).nodes =
        alookup j (((({} : ControlStructure).add_node (.nid 1) { name := "A" }).add_node
          (.nid 2) { name := "B" }).add_link (.kstr (.eid 1)) (.nid 1) (.nid 2) {}).nodes) ∧
      (∀ e, e ∈ ((((({} : ControlStructure).add_node (.nid 1) { name := "A" }).add_node
          (.nid 2) { name := "B" }).add_link (.kstr (.eid 1)) (.nid 1) (.nid 2)
            {}).remove_node_with_links (.nid 1)).edges ↔
        (e ∈ (((({} : ControlStructure).add_node (.nid 1) { name := "A" }).add_node
          (.nid 2) { name := "B" }).add_link (.kstr (.eid 1)) (.nid 1) (.nid 2) {}).edges ∧
          e.1.1 ≠ PyStr.nid 1 ∧ e.1.2.1 ≠ PyStr.nid 1))) ∧
     ((alookup (.nid 1) (((({} : ControlStructure).add_node (.nid 1) { name := "A" }).add_node
        (.nid 2) { name := "B" }).add_link (.kstr (.eid 1)) (.nid 1) (.nid 2) {}).nodes).isSome
          = false →
      (((({} : ControlStructure).add_node (.nid 1) { name := "A" }).add_node
        (.nid 2) { name := "B" }).add_link (.kstr (.eid 1)) (.nid 1) (.nid 2)
          {}).remove_node_with_links (.nid 1) =
      ((({} : ControlStructure).add_node (.nid 1) { name := "A" }).add_node
        (.nid 2) { name := "B" }).add_link (.kstr (.eid 1)) (.nid 1) (.nid 2) {})) :=
  ⟨by decide, remove_node_with_links_spec _ (.nid 1) (by decide)⟩

/-- Counterexample to C6 as stated: removing an id absent from a one-node
store returns the store unchanged through the ordinary return path — the
guarding membership test makes the absent case a silent no-op, and no
`NotFound` error is signalled anywhere in the function. -/
theorem remove_node_absent_cx :
    (alookup (PyStr.nid 2)
      (({} : ControlStructure).add_node (.nid 1) { name := "A" }).nodes).isSome = false ∧
    (({} : ControlStructure).add_node (.nid 1) { name := "A" }).remove_node_with_links
        (.nid 2) =
      ({} : ControlStructure).add_node (.nid 1) { name := "A" } := by
  exact ⟨rfl, rfl⟩

/-! ## ID-allocator lemmas (towards C2) -/

/-- The collision-skipping loop, given enough fuel, exits on a value whose id
string is not in the cache (pigeonhole: the candidates are pairwise distinct). -/
theorem bumpNode_not_mem (cache : Finset PyStr) :
    ∀ (fuel c : Nat), (cache.filter (fun p => nidGE c p = true)).card < fuel →
      PyStr.nid (bumpNode cache fuel c) ∉ cache := by
  intro fuel
  induction fuel with
  | zero => intro c h; exact absurd h (Nat.not_lt_zero _)
  | succ fuel ih =>
      intro c h
      rw [bumpNode]
      by_cases hm : PyStr.nid c ∈ cache
      · rw [if_pos hm]
        apply ih
        have hsub : cache.filter (fun p => nidGE (c + 1) p = true) ⊆
            (cache.filter (fun p => nidGE c p = true)).erase (PyStr.nid c) := by
          intro p hp
          rcases Finset.mem_filter.mp hp with ⟨hpc, hge⟩
          rw [Finset.mem_erase]
          constructor
          · intro he
            rw [he] at hge
            simp only [nidGE, decide_eq_true_eq] at hge
            omega
          · refine Finset.mem_filter.mpr ⟨hpc, ?_⟩
            cases p with
            | nid m =>
                simp only [nidGE, decide_eq_true_eq] at hge ⊢
                omega
            | eid m => simp [nidGE] at hge
            | intStr n => simp [nidGE] at hge
            | plain s => simp [nidGE] at hge
        have hmem : PyStr.nid c ∈ cache.filter (fun p => nidGE c p = true) :=
          Finset.mem_filter.mpr ⟨hm, by simp [nidGE]⟩
        have h1 := Finset.card_le_card hsub
        have h2 := Finset.card_erase_lt_of_mem hmem
        omega
      · rw [if_neg hm]
        exact hm

/-- Mirror of the previous lemma for the link loop. -/
theorem bumpLink_not_mem (cache : Finset PyStr) :
    ∀ (fuel c : Nat), (cache.filter (fun p => eidGE c p = true)).card < fuel →
      PyStr.eid (bumpLink cache fuel c) ∉ cache := by
  intro fuel
  induction fuel with
  | zero => intro c h; exact absurd h (Nat.not_lt_zero _)
  | succ fuel ih =>
      intro c h
      rw [bumpLink]
      by_cases hm : PyStr.eid c ∈ cache
      · rw [if_pos hm]
        apply ih
        have hsub : cache.filter (fun p => eidGE (c + 1) p = true) ⊆
            (cache.filter (fun p => eidGE c p = true)).erase (PyStr.eid c) := by
          intro p hp
          rcases Finset.mem_filter.mp hp with ⟨hpc, hge⟩
          rw [Finset.mem_erase]
          constructor
          · intro he
            rw [he] at hge
            simp only [eidGE, decide_eq_true_eq] at hge
            omega
          · refine Finset.mem_filter.mpr ⟨hpc, ?_⟩
            cases p with
            | eid m =>
                simp only [eidGE, decide_eq_true_eq] at hge ⊢
                omega
            | nid m => simp [eidGE] at hge
            | intStr n => simp [eidGE] at hge
            | plain s => simp [eidGE] at hge
        have hmem : PyStr.eid c ∈ cache.filter (fun p => eidGE c p = true) :=
          Finset.mem_filter.mpr ⟨hm, by simp [eidGE]⟩
        have h1 := Finset.card_le_card hsub
        have h2 := Finset.card_erase_lt_of_mem hmem
        omega
      · rw [if_neg hm]
        exact hm

theorem nodeMaxStep_le (acc : Nat) (p : PyStr × Option NodeAttrs) :
    acc ≤ nodeMaxStep acc p := by
  rw [nodeMaxStep]
  cases nodePat p.1 with
  | none => exact le_refl acc
  | some k => exact le_max_left acc k

theorem scanNode_foldl_le (l : List (PyStr × Option NodeAttrs)) :
    ∀ acc : Nat, acc ≤ l.foldl nodeMaxStep acc := by
  induction l with
  | nil => intro acc; exact le_refl acc
  | cons p rest ih =>
      intro acc
      rw [List.foldl_cons]
      exact le_trans (nodeMaxStep_le acc p) (ih _)

theorem scanNode_foldl_ge (l : List (PyStr × Option NodeAttrs)) :
    ∀ (acc : Nat) (p : PyStr × Option NodeAttrs) (k : Nat), p ∈ l →
      nodePat p.1 = some k → k ≤ l.foldl nodeMaxStep acc := by
  induction l with
  | nil => intro _ _ _ h; cases h
  | cons q rest ih =>
      intro acc p k hp hk
      rw [List.foldl_cons]
      rcases List.mem_cons.mp hp with he | hm
      · subst he
        refine le_trans ?_ (scanNode_foldl_le rest _)
        rw [nodeMaxStep, hk]
        exact le_max_right acc k
      · exact ih _ p k hm hk

/-- Every pattern-matching node id of the store is bounded by the scan max. -/
theorem scanNodeMax_ge (cs : ControlStructure) (p : PyStr × Option NodeAttrs)
    (hp : p ∈ cs.nodes) (k : Nat) (hk : nodePat p.1 = some k) : k ≤ cs.scanNodeMax :=
  scanNode_foldl_ge cs.nodes 0 p k hp hk

theorem linkMaxStep_le (acc : Nat) (e : (PyStr × PyStr × EdgeKey) × LinkAttrs) :
    acc ≤ linkMaxStep acc e := by
  rcases e with ⟨⟨u, v, key⟩, a⟩
  cases key with
  | kstr s =>
      show acc ≤ (match eidPat s with | some k => max acc k | none => acc)
      cases eidPat s with
      | none => exact le_refl acc
      | some k => exact le_max_left acc k
  | kint n =>
      show acc ≤ max acc n.toNat
      exact le_max_left acc n.toNat

theorem scanLink_foldl_le (l : List ((PyStr × PyStr × EdgeKey) × LinkAttrs)) :
    ∀ acc : Nat, acc ≤ l.foldl linkMaxStep acc := by
  induction l with
  | nil => intro acc; exact le_refl acc
  | cons e rest ih =>
      intro acc
      rw [List.foldl_cons]
      exact le_trans (linkMaxStep_le acc e) (ih _)

theorem scanLink_foldl_ge (l : List ((PyStr × PyStr × EdgeKey) × LinkAttrs)) :
    ∀ (acc : Nat) (e : (PyStr × PyStr × EdgeKey) × LinkAttrs) (m : Nat), e ∈ l →
      e.1.2.2 = .kstr (.eid m) → m ≤ l.foldl linkMaxStep acc := by
  induction l with
  | nil => intro _ _ _ h; cases h
  | cons q rest ih =>
      intro acc e m he hm
      rw [List.foldl_cons]
      rcases List.mem_cons.mp he with hq | hmem
      · subst hq
        refine le_trans ?_ (scanLink_foldl_le rest _)
        rw [linkMaxStep, hm]
        show m ≤ max acc m
        exact le_max_right acc m
      · exact ih _ e m hmem hm

/-- Every `e<m>`-keyed edge of the store is bounded by the link scan max. -/
theorem scanLinkMax_ge (cs : ControlStructure) (e : (PyStr × PyStr × EdgeKey) × LinkAttrs)
    (he : e ∈ cs.edges) (m : Nat) (hm : e.1.2.2 = .kstr (.eid m)) : m ≤ cs.scanLinkMax :=
  scanLink_foldl_ge cs.edges 0 e m he hm

/-- Under the cache-soundness hypothesis the working cache contains every
node id of the store, whichever branch produced it. -/
theorem nodeCacheNow_supset (g : IDGenerator) (cs : ControlStructure)
    (hinv : g.dirty_node_cache = false →
      ∀ cache, g.cached_node_ids = some cache → ∀ id2 ∈ cs.nodeIds, id2 ∈ cache) :
    ∀ id2 ∈ cs.nodeIds, id2 ∈ g.nodeCacheNow cs := by
  intro id2 hm
  rw [IDGenerator.nodeCacheNow]
  by_cases hr : (g.dirty_node_cache || g.cached_node_ids.isNone) = true
  · rw [if_pos hr]
    exact List.mem_toFinset.mpr hm
  · rw [if_neg hr]
    simp only [Bool.or_eq_true] at hr
    push_neg at hr
    rcases hr with ⟨hd, hn⟩
    cases hc : g.cached_node_ids with
    | none =>
        exfalso
        apply hn
        rw [hc]
        rfl
    | some cache =>
        simp only [hc, Option.getD_some]
        exact hinv (by simpa using hd) cache hc id2 hm

/-- Mirror for link keys. -/
theorem linkCacheNow_supset (g : IDGenerator) (cs : ControlStructure)
    (hinv : g.dirty_link_cache = false →
      ∀ cache, g.cached_link_ids = some cache →
        ∀ e ∈ cs.edges, EdgeKey.toPyStr e.1.2.2 ∈ cache) :
    ∀ e ∈ cs.edges, EdgeKey.toPyStr e.1.2.2 ∈ g.linkCacheNow cs := by
  intro e hm
  rw [IDGenerator.linkCacheNow]
  by_cases hr : (g.dirty_link_cache || g.cached_link_ids.isNone) = true
  · rw [if_pos hr]
    refine List.mem_toFinset.mpr ?_
    rw [ControlStructure.linkKeyStrs]
    exact List.mem_map.mpr ⟨e, hm, rfl⟩
  · rw [if_neg hr]
    simp only [Bool.or_eq_true] at hr
    push_neg at hr
    rcases hr with ⟨hd, hn⟩
    cases hc : g.cached_link_ids with
    | none =>
        exfalso
        apply hn
        rw [hc]
        rfl
    | some cache =>
        simp only [hc, Option.getD_some]
        exact hinv (by simpa using hd) cache hc e hm

/-- Freshness of a generated node id against the store, on either code path. -/
theorem gen_fresh_node (g : IDGenerator) (cs : ControlStructure)
    (hinv : g.dirty_node_cache = false →
      ∀ cache, g.cached_node_ids = some cache → ∀ id2 ∈ cs.nodeIds, id2 ∈ cache) :
    (g.get_next_node_id cs).1 ∉ cs.nodeIds := by
  rw [IDGenerator.get_next_node_id]
  by_cases he : g.enable_cache = false
  · rw [if_pos he]
    intro hmem
    rcases List.mem_map.mp hmem with ⟨p, hp, hfst⟩
    have hb := scanNodeMax_ge cs p hp (cs.scanNodeMax + 1) (by rw [hfst]; rfl)
    omega
  · rw [if_neg he]
    show PyStr.nid (g.nodeBumped cs) ∉ cs.nodeIds
    intro hmem
    have hns := nodeCacheNow_supset g cs hinv _ hmem
    have hnm : PyStr.nid (g.nodeBumped cs) ∉ g.nodeCacheNow cs := by
      apply bumpNode_not_mem
      exact Nat.lt_succ_of_le (Finset.card_filter_le _ _)
    exact hnm hns

/-- Freshness of a generated link id against every edge key of the store. -/
theorem gen_fresh_link (g : IDGenerator) (cs : ControlStructure)
    (hinv : g.dirty_link_cache = false →
      ∀ cache, g.cached_link_ids = some cache →
        ∀ e ∈ cs.edges, EdgeKey.toPyStr e.1.2.2 ∈ cache) :
    ∀ e ∈ cs.edges, EdgeKey.toPyStr e.1.2.2 ≠ (g.get_next_link_id cs).1 := by
  intro e he heq
  rw [IDGenerator.get_next_link_id] at heq
  by_cases hen : g.enable_cache = false
  · rw [if_pos hen] at heq
    cases hk : e.1.2.2 with
    | kstr s =>
        rw [hk] at heq
        have hs : s = PyStr.eid (cs.scanLinkMax + 1) := heq
        have hb := scanLinkMax_ge cs e he (cs.scanLinkMax + 1) (by rw [hk, hs])
        omega
    | kint n =>
        rw [hk] at heq
        exact PyStr.noConfusion heq
  · rw [if_neg hen] at heq
    have heq2 : EdgeKey.toPyStr e.1.2.2 = PyStr.eid (g.linkBumped cs) := heq
    have hsup := linkCacheNow_supset g cs hinv e he
    rw [heq2] at hsup
    have hnm : PyStr.eid (g.linkBumped cs) ∉ g.linkCacheNow cs := by
      apply bumpLink_not_mem
      exact Nat.lt_succ_of_le (Finset.card_filter_le _ _)
    exact hnm hsup

theorem mem_aupsert {κ ν : Type} [DecidableEq κ] (k : κ) (v : ν) (l : List (κ × ν))
    (e : κ × ν) : e ∈ aupsert k v l → e ∈ l ∨ e = (k, v) := by
  induction l with
  | nil =>
      intro h
      rcases List.mem_singleton.mp h with h2
      exact Or.inr h2
  | cons p rest ih =>
      rcases p with ⟨k2, v2⟩
      rw [aupsert]
      by_cases h : k2 = k
      · rw [if_pos h]
        intro hm
        rcases List.mem_cons.mp hm with he | hm2
        · exact Or.inr he
        · exact Or.inl (List.mem_cons.mpr (Or.inr hm2))
      · rw [if_neg h]
        intro hm
        rcases List.mem_cons.mp hm with he | hm2
        · exact Or.inl (List.mem_cons.mpr (Or.inl he))
        · rcases ih hm2 with h3 | h3
          · exact Or.inl (List.mem_cons.mpr (Or.inr h3))
          · exact Or.inr h3

/-- `register_node_id` never touches the link namespace, the dirty flags or
the cache-enable switch; when caching is enabled and the node cache is
populated it inserts the registered id, and an absent cache stays absent. -/
theorem register_node_id_spec (g : IDGenerator) (id1 : PyStr) :
    (g.register_node_id id1).enable_cache = g.enable_cache ∧
    (g.register_node_id id1).dirty_node_cache = g.dirty_node_cache ∧
    (g.register_node_id id1).dirty_link_cache = g.dirty_link_cache ∧
    (g.register_node_id id1).cached_link_ids = g.cached_link_ids ∧
    (g.cached_node_ids = none → (g.register_node_id id1).cached_node_ids = none) ∧
    (g.enable_cache = true → ∀ c, g.cached_node_ids = some c →
      (g.register_node_id id1).cached_node_ids = some (insert id1 c)) := by
  rcases g with ⟨en, ncnt, lcnt, cn, cl, dn, dl⟩
  cases en with
  | false =>
      refine ⟨rfl, rfl, rfl, rfl, fun h => h, fun h => ?_⟩
      cases h
  | true =>
      cases cn with
      | none =>
          refine ⟨rfl, rfl, rfl, rfl, fun _ => rfl, fun _ c hc => ?_⟩
          cases hc
      | some c0 =>
          cases hnp : nodePat id1 with
          | none =>
              have hred : IDGenerator.register_node_id
                  ⟨true, ncnt, lcnt, some c0, cl, dn, dl⟩ id1 =
                  ⟨true, ncnt, lcnt, some (insert id1 c0), cl, dn, dl⟩ := by
                simp only [IDGenerator.register_node_id, hnp]
              rw [hred]
              exact ⟨rfl, rfl, rfl, rfl, fun h => Option.noConfusion h, fun _ c hc => by cases hc; rfl⟩
          | some num =>
              by_cases hc2 : ncnt ≤ num
              · have hred : IDGenerator.register_node_id
                    ⟨true, ncnt, lcnt, some c0, cl, dn, dl⟩ id1 =
                    ⟨true, num + 1, lcnt, some (insert id1 c0), cl, dn, dl⟩ := by
                  simp only [IDGenerator.register_node_id, hnp, if_pos hc2]
                rw [hred]
                exact ⟨rfl, rfl, rfl, rfl, fun h => Option.noConfusion h, fun _ c hc => by cases hc; rfl⟩
              · have hred : IDGenerator.register_node_id
                    ⟨true, ncnt, lcnt, some c0, cl, dn, dl⟩ id1 =
                    ⟨true, ncnt, lcnt, some (insert id1 c0), cl, dn, dl⟩ := by
                  simp only [IDGenerator.register_node_id, hnp, if_neg hc2]
                rw [hred]
                exact ⟨rfl, rfl, rfl, rfl, fun h => Option.noConfusion h, fun _ c hc => by cases hc; rfl⟩

/-- Mirror of the previous lemma for `register_link_id`. -/
theorem register_link_id_spec (g : IDGenerator) (lid : EdgeKey) :
    (g.register_link_id lid).enable_cache = g.enable_cache ∧
    (g.register_link_id lid).dirty_node_cache = g.dirty_node_cache ∧
    (g.register_link_id lid).dirty_link_cache = g.dirty_link_cache ∧
    (g.register_link_id lid).cached_node_ids = g.cached_node_ids ∧
    (g.cached_link_ids = none → (g.register_link_id lid).cached_link_ids = none) ∧
    (g.enable_cache = true → ∀ c, g.cached_link_ids = some c →
      (g.register_link_id lid).cached_link_ids = some (insert lid.toPyStr c)) := by
  rcases g with ⟨en, ncnt, lcnt, cn, cl, dn, dl⟩
  cases en with
  | false =>
      refine ⟨rfl, rfl, rfl, rfl, fun h => h, fun h => ?_⟩
      cases h
  | true =>
      cases cl with
      | none =>
          refine ⟨rfl, rfl, rfl, rfl, fun _ => rfl, fun _ c hc => ?_⟩
          cases hc
      | some c0 =>
          cases lid with
          | kstr s =>
              cases hnp : eidPat s with
              | none =>
                  have hred : IDGenerator.register_link_id
                      ⟨true, ncnt, lcnt, cn, some c0, dn, dl⟩ (.kstr s) =
                      ⟨true, ncnt, lcnt, cn, some (insert s c0), dn, dl⟩ := by
                    simp only [IDGenerator.register_link_id, EdgeKey.toPyStr, hnp]
                  rw [hred]
                  exact ⟨rfl, rfl, rfl, rfl, fun h => Option.noConfusion h,
                    fun _ c hc => by cases hc; rfl⟩
              | some num =>
                  by_cases hc2 : lcnt ≤ num
                  · have hred : IDGenerator.register_link_id
                        ⟨true, ncnt, lcnt, cn, some c0, dn, dl⟩ (.kstr s) =
                        ⟨true, ncnt, num + 1, cn, some (insert s c0), dn, dl⟩ := by
                      simp only [IDGenerator.register_link_id, EdgeKey.toPyStr, hnp, if_pos hc2]
                    rw [hred]
                    exact ⟨rfl, rfl, rfl, rfl, fun h => Option.noConfusion h,
                      fun _ c hc => by cases hc; rfl⟩
                  · have hred : IDGenerator.register_link_id
                        ⟨true, ncnt, lcnt, cn, some c0, dn, dl⟩ (.kstr s) =
                        ⟨true, ncnt, lcnt, cn, some (insert s c0), dn, dl⟩ := by
                      simp only [IDGenerator.register_link_id, EdgeKey.toPyStr, hnp, if_neg hc2]
                    rw [hred]
                    exact ⟨rfl, rfl, rfl, rfl, fun h => Option.noConfusion h,
                      fun _ c hc => by cases hc; rfl⟩
          | kint n =>
              by_cases hc2 : (lcnt : Int) ≤ n
              · have hred : IDGenerator.register_link_id
                    ⟨true, ncnt, lcnt, cn, some c0, dn, dl⟩ (.kint n) =
                    ⟨true, ncnt, n.toNat + 1, cn, some (insert (PyStr.intStr n) c0), dn, dl⟩
                    := by
                  simp only [IDGenerator.register_link_id, EdgeKey.toPyStr, if_pos hc2]
                rw [hred]
                exact ⟨rfl, rfl, rfl, rfl, fun h => Option.noConfusion h,
                  fun _ c hc => by cases hc; rfl⟩
              · have hred : IDGenerator.register_link_id
                    ⟨true, ncnt, lcnt, cn, some c0, dn, dl⟩ (.kint n) =
                    ⟨true, ncnt, lcnt, cn, some (insert (PyStr.intStr n) c0), dn, dl⟩ := by
                  simp only [IDGenerator.register_link_id, EdgeKey.toPyStr, if_neg hc2]
                rw [hred]
                exact ⟨rfl, rfl, rfl, rfl, fun h => Option.noConfusion h,
                  fun _ c hc => by cases hc; rfl⟩

/-- Each operation issued through the store API preserves the store invariant
(the `addLink` case assuming, as the specification does, that its endpoints
already exist). -/
theorem stepOp_inv (cs : ControlStructure) (op : StoreOp) (hinv : StoreInv cs)
    (hok : match op with
      | .addLink _ src tgt _ =>
          (alookup src cs.nodes).isSome = true ∧ (alookup tgt cs.nodes).isSome = true
      | _ => True) :
    StoreInv (stepOp cs op) := by
  rcases hinv with ⟨hen, hnN, hnE, hcn, hcl⟩
  cases op with
  | addNode id1 a =>
      rcases register_node_id_spec cs.gen id1 with ⟨r1, r2, r3, r4, r5, r6⟩
      refine ⟨by rw [show (stepOp cs (.addNode id1 a)).gen = cs.gen.register_node_id id1
          from rfl, r1]; exact hen,
        nodup_akeys_aupsert _ _ _ hnN, hnE, ?_, ?_⟩
      · intro hd cache hc id2 hm
        rw [show (stepOp cs (.addNode id1 a)).gen = cs.gen.register_node_id id1 from rfl]
          at hd hc
        rw [show (stepOp cs (.addNode id1 a)).nodeIds =
          akeys (aupsert id1 (some a) cs.nodes) from rfl] at hm
        rw [r2] at hd
        cases hcr : cs.gen.cached_node_ids with
        | none =>
            rw [r5 hcr] at hc
            cases hc
        | some c =>
            rw [r6 hen c hcr] at hc
            cases hc
            rcases (mem_akeys_aupsert id1 id2 (some a) cs.nodes).mp hm with hold | hnew
            · exact Finset.mem_insert_of_mem (hcn hd c hcr id2 hold)
            · rw [hnew]
              exact Finset.mem_insert_self id1 c
      · intro hd cache hc e he
        rw [show (stepOp cs (.addNode id1 a)).gen = cs.gen.register_node_id id1 from rfl]
          at hd hc
        rw [show (stepOp cs (.addNode id1 a)).edges = cs.edges from rfl] at he
        rw [r3] at hd
        rw [r4] at hc
        exact hcl hd cache hc e he
  | addLink lid src tgt d =>
      rcases hok with ⟨hsrc, htgt⟩
      have hauto : (cs.autoAddNode src).autoAddNode tgt = cs := by
        rw [autoAddNode_present cs src hsrc]
        exact autoAddNode_present cs tgt htgt
      have hstep : stepOp cs (.addLink lid src tgt d) =
          ⟨cs.nodes,
           aupsert (src, tgt, lid)
             ⟨lid, src, tgt, d.name, d.description, d.weight, d.undirected, d.bidirectional⟩
             cs.edges,
           cs.gen.register_link_id lid⟩ := by
        show cs.add_link lid src tgt d = _
        rw [ControlStructure.add_link]
        rw [hauto]
      rcases register_link_id_spec cs.gen lid with ⟨r1, r2, r3, r4, r5, r6⟩
      rw [hstep]
      refine ⟨by rw [show (⟨cs.nodes, aupsert (src, tgt, lid)
            ⟨lid, src, tgt, d.name, d.description, d.weight, d.undirected, d.bidirectional⟩
            cs.edges, cs.gen.register_link_id lid⟩
          : ControlStructure).gen = cs.gen.register_link_id lid from rfl, r1]; exact hen,
        hnN, nodup_akeys_aupsert _ _ _ hnE, ?_, ?_⟩
      · intro hd cache hc id2 hm
        rw [r2] at hd
        rw [r4] at hc
        exact hcn hd cache hc id2 hm
      · intro hd cache hc e he
        rw [r3] at hd
        cases hcr : cs.gen.cached_link_ids with
        | none =>
            rw [r5 hcr] at hc
            cases hc
        | some c =>
            rw [r6 hen c hcr] at hc
            cases hc
            rcases mem_aupsert _ _ _ _ he with hold | hnew
            · exact Finset.mem_insert_of_mem (hcl hd c hcr e hold)
            · rw [hnew]
              exact Finset.mem_insert_self _ c
  | removeNode id1 =>
      show StoreInv (cs.remove_node_with_links id1)
      rw [ControlStructure.remove_node_with_links]
      by_cases hp : (alookup id1 cs.nodes).isSome = true
      · rw [if_pos hp]
        refine ⟨hen, nodup_akeys_aerase _ _ hnN, nodup_akeys_filter _ _ hnE, ?_, ?_⟩
        · intro hd _ _ _ _
          cases hd
        · intro hd _ _ _ _
          cases hd
      · rw [if_neg hp]
        exact ⟨hen, hnN, hnE, hcn, hcl⟩
  | removeEdge u v k =>
      show StoreInv ((cs.remove_edge u v k).getD cs)
      rw [ControlStructure.remove_edge]
      by_cases hp : (alookup (u, v, k) cs.edges).isSome = true
      · rw [if_pos hp]
        refine ⟨hen, hnN, nodup_akeys_aerase _ _ hnE, ?_, ?_⟩
        · intro hd _ _ _ _
          cases hd
        · intro hd _ _ _ _
          cases hd
      · rw [if_neg hp]
        exact ⟨hen, hnN, hnE, hcn, hcl⟩
  | clearAll =>
      refine ⟨hen, List.nodup_nil, List.nodup_nil, ?_, ?_⟩
      · intro hd _ _ _ _
        cases hd
      · intro hd _ _ _ _
        cases hd
  | genNodeId =>
      show StoreInv (cs.get_next_node_id).2
      have hgen : cs.gen.get_next_node_id cs =
          (PyStr.nid (cs.gen.nodeBumped cs),
           ⟨cs.gen.enable_cache, cs.gen.nodeBumped cs + 1, cs.gen.link_counter,
            some (insert (PyStr.nid (cs.gen.nodeBumped cs)) (cs.gen.nodeCacheNow cs)),
            cs.gen.cached_link_ids, false, cs.gen.dirty_link_cache⟩) := by
        rw [IDGenerator.get_next_node_id, if_neg (by rw [hen]; simp)]
      have h2 : (cs.get_next_node_id).2 = ⟨cs.nodes, cs.edges,
          ⟨cs.gen.enable_cache, cs.gen.nodeBumped cs + 1, cs.gen.link_counter,
           some (insert (PyStr.nid (cs.gen.nodeBumped cs)) (cs.gen.nodeCacheNow cs)),
           cs.gen.cached_link_ids, false, cs.gen.dirty_link_cache⟩⟩ := by
        show ({ cs with gen := (cs.gen.get_next_node_id cs).2 } : ControlStructure) = _
        rw [hgen]
      rw [h2]
      refine ⟨hen, hnN, hnE, ?_, ?_⟩
      · intro hd cache hc id2 hm
        cases hc
        exact Finset.mem_insert_of_mem (nodeCacheNow_supset cs.gen cs hcn id2 hm)
      · intro hd cache hc e he
        exact hcl hd cache hc e he
  | genLinkId =>
      show StoreInv (cs.get_next_link_id).2
      have hgen : cs.gen.get_next_link_id cs =
          (PyStr.eid (cs.gen.linkBumped cs),
           ⟨cs.gen.enable_cache, cs.gen.node_counter, cs.gen.linkBumped cs + 1,
            cs.gen.cached_node_ids,
            some (insert (PyStr.eid (cs.gen.linkBumped cs)) (cs.gen.linkCacheNow cs)),
            cs.gen.dirty_node_cache, false⟩) := by
        rw [IDGenerator.get_next_link_id, if_neg (by rw [hen]; simp)]
      have h2 : (cs.get_next_link_id).2 = ⟨cs.nodes, cs.edges,
          ⟨cs.gen.enable_cache, cs.gen.node_counter, cs.gen.linkBumped cs + 1,
           cs.gen.cached_node_ids,
           some (insert (PyStr.eid (cs.gen.linkBumped cs)) (cs.gen.linkCacheNow cs)),
           cs.gen.dirty_node_cache, false⟩⟩ := by
        show ({ cs with gen := (cs.gen.get_next_link_id cs).2 } : ControlStructure) = _
        rw [hgen]
      rw [h2]
      refine ⟨hen, hnN, hnE, ?_, ?_⟩
      · intro hd cache hc id2 hm
        exact hcn hd cache hc id2 hm
      · intro hd cache hc e he
        cases hc
        exact Finset.mem_insert_of_mem (linkCacheNow_supset cs.gen cs hcl e he)

theorem runOps_inv (ops : List StoreOp) :
    ∀ cs, StoreInv cs → EndpointsOk cs ops → StoreInv (runOps cs ops) := by
  induction ops with
  | nil => intro cs h _; exact h
  | cons op ops ih =>
      intro cs hinv hok
      rcases hok with ⟨h1, h2⟩
      exact ih _ (stepOp_inv cs op hinv h1) h2

theorem StoreInv_init : StoreInv {} := by
  refine ⟨rfl, List.nodup_nil, List.nodup_nil, ?_, ?_⟩ <;>
    · intro hd
      cases hd

/-- C2 (amended): for every sequence of operations issued through the graph
store's own mutation API — adds, cascading node removals, edge removals,
clears and generator calls, covering the store traffic of any add/delete/
undo/redo sequence — in which every `add_link` is called with both endpoints
present (the discipline the rest of the claim's spec assumes; see the
counterexample for what happens without it), the store never holds two nodes
with the same id or two edges with the same `(source, target, key)` identity,
`get_next_node_id` never returns an id already present among the nodes, and
`get_next_link_id` never returns a key string already carried by any edge —
even after removals and the cache invalidations they trigger. -/
theorem id_allocation_collision_free (ops : List StoreOp)
    (h : EndpointsOk {} ops) :
    ((akeys (runOps {} ops).nodes).Nodup ∧ (akeys (runOps {} ops).edges).Nodup) ∧
    ((runOps {} ops).get_next_node_id).1 ∉ (runOps {} ops).nodeIds ∧
    (∀ e ∈ (runOps {} ops).edges,
       EdgeKey.toPyStr e.1.2.2 ≠ ((runOps {} ops).get_next_link_id).1) := by
  have hinv := runOps_inv ops {} StoreInv_init h
  rcases hinv with ⟨hen, hnN, hnE, hcn, hcl⟩
  refine ⟨⟨hnN, hnE⟩, ?_, ?_⟩
  · exact gen_fresh_node _ _ hcn
  · intro e he
    exact gen_fresh_link _ _ hcl e he

/-- Witness for C2 (amended): a churn sequence with adds, a generator call, a
valid link, a cascading removal and a link-id request. -/
theorem id_allocation_collision_free_witness :
    EndpointsOk {} [StoreOp.addNode (.nid 1) { name := "A" },
      .addNode (.nid 7) { name := "B" }, .genNodeId,
      .addLink (.kstr (.eid 1)) (.nid 1) (.nid 7) {}, .removeNode (.nid 7),
      .genLinkId] ∧
    (((akeys (runOps {} [StoreOp.addNode (.nid 1) { name := "A" },
        .addNode (.nid 7) { name := "B" }, .genNodeId,
        .addLink (.kstr (.eid 1)) (.nid 1) (.nid 7) {}, .removeNode (.nid 7),
        .genLinkId]).nodes).Nodup ∧
      (akeys (runOps {} [StoreOp.addNode (.nid 1) { name := "A" },
        .addNode (.nid 7) { name := "B" }, .genNodeId,
        .addLink (.kstr (.eid 1)) (.nid 1) (.nid 7) {}, .removeNode (.nid 7),
        .genLinkId]).edges).Nodup) ∧
     ((runOps {} [StoreOp.addNode (.nid 1) { name := "A" },
        .addNode (.nid 7) { name := "B" }, .genNodeId,
        .addLink (.kstr (.eid 1)) (.nid 1) (.nid 7) {}, .removeNode (.nid 7),
        .genLinkId]).get_next_node_id).1 ∉
       (runOps {} [StoreOp.addNode (.nid 1) { name := "A" },
        .addNode (.nid 7) { name := "B" }, .genNodeId,
        .addLink (.kstr (.eid 1)) (.nid 1) (.nid 7) {}, .removeNode (.nid 7),
        .genLinkId]).nodeIds ∧
     (∀ e ∈ (runOps {} [StoreOp.addNode (.nid 1) { name := "A" },
        .addNode (.nid 7) { name := "B" }, .genNodeId,
        .addLink (.kstr (.eid 1)) (.nid 1) (.nid 7) {}, .removeNode (.nid 7),
        .genLinkId]).edges,
       EdgeKey.toPyStr e.1.2.2 ≠
         ((runOps {} [StoreOp.addNode (.nid 1) { name := "A" },
          .addNode (.nid 7) { name := "B" }, .genNodeId,
          .addLink (.kstr (.eid 1)) (.nid 1) (.nid 7) {}, .removeNode (.nid 7),
          .genLinkId]).get_next_link_id).1)) :=
  ⟨by decide, id_allocation_collision_free _ (by decide)⟩

/-- Counterexample to C2 as stated: after `get_next_node_id` (which populates
the node-id cache), an `add_link` whose endpoints are absent silently
auto-creates nodes `n2` and `n3` without registering them or invalidating the
cache; the next `get_next_node_id` then returns `n2`, an identifier already
present in the store. -/
theorem id_allocator_duplicate_cx :
    PyStr.nid 2 ∈ (runOps {} [StoreOp.genNodeId,
        .addLink (.kstr (.eid 1)) (.nid 2) (.nid 3) {}]).nodeIds ∧
    ((runOps {} [StoreOp.genNodeId,
        .addLink (.kstr (.eid 1)) (.nid 2) (.nid 3) {}]).get_next_node_id).1 =
      PyStr.nid 2 := by
  decide

/-! ## Reflow lemmas (towards C3 and C4) -/

theorem idxOfLast_eq_none {T : Type} [DecidableEq T] (tr : List T) (t : T) (h : t ∉ tr) :
    idxOfLast tr t = none := by
  induction tr with
  | nil => rfl
  | cons x xs ih =>
      rw [idxOfLast, ih (fun hm => h (List.mem_cons.mpr (Or.inr hm)))]
      rw [if_neg (fun he => h (List.mem_cons.mpr (Or.inl he.symm)))]

theorem idxOfLast_get {T : Type} [DecidableEq T] :
    ∀ (tr : List T), tr.Nodup → ∀ (i : Nat) (h : i < tr.length),
      idxOfLast tr (tr.get ⟨i, h⟩) = some i := by
  intro tr
  induction tr with
  | nil => intro _ i h; cases h
  | cons x xs ih =>
      intro hnd i h
      rcases List.nodup_cons.mp hnd with ⟨hx, hxs⟩
      cases i with
      | zero =>
          show idxOfLast (x :: xs) x = some 0
          rw [idxOfLast, idxOfLast_eq_none xs x hx, if_pos rfl]
      | succ i =>
          have hi : i < xs.length := by
            have h2 : i + 1 < xs.length + 1 := h
            omega
          show idxOfLast (x :: xs) (xs.get ⟨i, hi⟩) = some (i + 1)
          rw [idxOfLast, ih hxs i hi]

theorem mem_dirKeys (items : List EItem) (u v : Int) (k : Int) :
    k ∈ dirKeys items u v ↔ ∃ it ∈ items, it.src = u ∧ it.dst = v ∧ it.key = k := by
  rw [dirKeys]
  rw [List.mem_filterMap]
  constructor
  · rintro ⟨it, hmem, hk⟩
    by_cases hc : it.src = u ∧ it.dst = v
    · rw [if_pos hc] at hk
      cases hk
      exact ⟨it, hmem, hc.1, hc.2, rfl⟩
    · rw [if_neg hc] at hk
      cases hk
  · rintro ⟨it, hmem, h1, h2, h3⟩
    exact ⟨it, hmem, by rw [if_pos ⟨h1, h2⟩, h3]⟩

theorem nodup_dirKeys (items : List EItem) (u v : Int)
    (hnd : (items.map EItem.triple).Nodup) : (dirKeys items u v).Nodup := by
  induction items with
  | nil => exact List.nodup_nil
  | cons it rest ih =>
      have hnd2 : (it.triple :: rest.map EItem.triple).Nodup := hnd
      rcases List.nodup_cons.mp hnd2 with ⟨htr, hrest⟩
      rw [dirKeys, List.filterMap_cons]
      by_cases hc : it.src = u ∧ it.dst = v
      · rw [if_pos hc]
        refine List.nodup_cons.mpr ⟨?_, ih hrest⟩
        intro hk
        rcases (mem_dirKeys rest u v it.key).mp hk with ⟨it2, hm2, h1, h2, h3⟩
        apply htr
        have : it2.triple = it.triple := by
          rw [EItem.triple, EItem.triple, h1, h2, h3, hc.1, hc.2]
        rw [← this]
        exact List.mem_map.mpr ⟨it2, hm2, rfl⟩
      · rw [if_neg hc]
        exact ih hrest

theorem mem_collect_exists (items : List EItem) (u v : Int)
    (t : Int × Int × Int) (h : t ∈ collectTriples items u v) :
    ∃ it ∈ items, it.triple = t := by
  rw [collectTriples] at h
  rcases List.mem_append.mp h with h1 | h1
  · rcases List.mem_map.mp h1 with ⟨k, hk, rfl⟩
    have hk2 : k ∈ dirKeys items u v :=
      (List.perm_insertionSort _ _).mem_iff.mp hk
    rcases (mem_dirKeys items u v k).mp hk2 with ⟨it, hmem, h1, h2, h3⟩
    exact ⟨it, hmem, by rw [EItem.triple, h1, h2, h3]⟩
  · rcases List.mem_map.mp h1 with ⟨k, hk, rfl⟩
    have hk2 : k ∈ dirKeys items v u :=
      (List.perm_insertionSort _ _).mem_iff.mp hk
    rcases (mem_dirKeys items v u k).mp hk2 with ⟨it, hmem, h1, h2, h3⟩
    exact ⟨it, hmem, by rw [EItem.triple, h1, h2, h3]⟩

theorem collect_nodup (items : List EItem) (u v : Int)
    (hnd : (items.map EItem.triple).Nodup) (huv : u ≠ v) :
    (collectTriples items u v).Nodup := by
  rw [collectTriples]
  have hinj1 : Function.Injective (fun k : Int => ((u, v, k) : Int × Int × Int)) := by
    intro a b hab
    simpa using hab
  have hinj2 : Function.Injective (fun k : Int => ((v, u, k) : Int × Int × Int)) := by
    intro a b hab
    simpa using hab
  refine List.Nodup.append ?_ ?_ ?_
  · exact ((List.perm_insertionSort _ _).nodup_iff.mpr (nodup_dirKeys items u v hnd)).map
      hinj1
  · exact ((List.perm_insertionSort _ _).nodup_iff.mpr (nodup_dirKeys items v u hnd)).map
      hinj2
  · intro t h1 h2
    rcases List.mem_map.mp h1 with ⟨k1, _, he1⟩
    rcases List.mem_map.mp h2 with ⟨k2, _, he2⟩
    rw [← he1] at he2
    apply huv
    exact (Prod.mk.injEq _ _ _ _).mp he2.symm |>.1

theorem find?_triple_of_mem_nodup (items : List EItem) (it : EItem) (hmem : it ∈ items)
    (hnd : (items.map EItem.triple).Nodup) :
    items.find? (fun x => x.triple = it.triple) = some it := by
  induction items with
  | nil => cases hmem
  | cons x rest ih =>
      have hnd2 : (x.triple :: rest.map EItem.triple).Nodup := hnd
      rcases List.nodup_cons.mp hnd2 with ⟨hxt, hrest⟩
      by_cases hx : x.triple = it.triple
      · rw [List.find?_cons_of_pos _ (by simpa using hx)]
        rcases List.mem_cons.mp hmem with he | hm
        · rw [he]
        · exfalso
          apply hxt
          rw [hx]
          exact List.mem_map.mpr ⟨it, hm, rfl⟩
      · rw [List.find?_cons_of_neg _ (by simpa using hx)]
        rcases List.mem_cons.mp hmem with he | hm
        · exact absurd (congrArg EItem.triple he.symm) hx
        · exact ih hm hrest

theorem find?_map_triple (items : List EItem) (g : EItem → EItem)
    (hg : ∀ it, (g it).triple = it.triple) (t : Int × Int × Int) :
    (items.map g).find? (fun x => x.triple = t) =
      (items.find? (fun x => x.triple = t)).map g := by
  induction items with
  | nil => rfl
  | cons x rest ih =>
      rw [List.map_cons]
      by_cases hx : x.triple = t
      · rw [List.find?_cons_of_pos _ (by simp [hg x, hx]),
            List.find?_cons_of_pos _ (by simpa using hx)]
        rfl
      · rw [List.find?_cons_of_neg _ (by simp [hg x, hx]),
            List.find?_cons_of_neg _ (by simpa using hx)]
        exact ih

theorem reflowAssign_triple (tr : List (Int × Int × Int)) (n : Nat) (it : EItem) :
    (reflowAssign tr n it).triple = it.triple := by
  rw [reflowAssign]
  cases idxOfLast tr it.triple <;> rfl

theorem reflowAssign_fields (tr : List (Int × Int × Int)) (n : Nat) (it : EItem) :
    (reflowAssign tr n it).src = it.src ∧ (reflowAssign tr n it).dst = it.dst ∧
      (reflowAssign tr n it).key = it.key := by
  rw [reflowAssign]
  cases idxOfLast tr it.triple <;> exact ⟨rfl, rfl, rfl⟩

/-- The offset the reflow leaves on an edge item whose identity has (last)
index `i` in the collected order. -/
theorem reflow_offset_eq (items : List EItem) (u v : Int)
    (hnd : (items.map EItem.triple).Nodup) (it : EItem) (hmem : it ∈ items) (i : Nat)
    (hidx : idxOfLast (collectTriples items u v) it.triple = some i) :
    eitemOffset (reflowItems items u v) it.triple =
      some (offsetAt (collectTriples items u v).length i) := by
  have hne : ¬ (collectTriples items u v).length = 0 := by
    intro h0
    rw [List.length_eq_zero.mp h0] at hidx
    cases hidx
  rw [reflowItems]
  simp only [if_neg hne]
  rw [eitemOffset, find?_map_triple _ _
      (fun it2 => reflowAssign_triple (collectTriples items u v)
        (collectTriples items u v).length it2) it.triple,
    find?_triple_of_mem_nodup items it hmem hnd,
    Option.map_some', Option.map_some', reflowAssign, hidx]

/-- C4: with `base_spacing = 50`, the reflow assigns the edge at index `i` of
the collected order (`u → v` by key, then `v → u` by key) the offset `0` when
it is the only edge, `(i − N÷2)·50` for odd `N` (the middle edge gets 0), and
`(i − (N−1)/2)·50` for even `N` (no edge gets 0); in particular two parallel
edges receive `−25` and `+25`. -/
theorem reflow_offset_formula (items : List EItem) (u v : Int)
    (hnd : (items.map EItem.triple).Nodup) (huv : u ≠ v) :
    (∀ i, ∀ h : i < (collectTriples items u v).length,
      eitemOffset (reflowItems items u v) ((collectTriples items u v).get ⟨i, h⟩) =
        some (if (collectTriples items u v).length = 1 then 0
          else if (collectTriples items u v).length % 2 = 1 then
            ((i : ℚ) - (((collectTriples items u v).length / 2 : Nat) : ℚ)) * 50
          else ((i : ℚ) - (((collectTriples items u v).length : ℚ) - 1) / 2) * 50)) ∧
    ((collectTriples items u v).length = 2 →
      ∃ t0 t1, collectTriples items u v = [t0, t1] ∧
        eitemOffset (reflowItems items u v) t0 = some (-25) ∧
        eitemOffset (reflowItems items u v) t1 = some 25) := by
  have hndtr := collect_nodup items u v hnd huv
  have key : ∀ i, ∀ h : i < (collectTriples items u v).length,
      eitemOffset (reflowItems items u v) ((collectTriples items u v).get ⟨i, h⟩) =
        some (offsetAt (collectTriples items u v).length i) := by
    intro i h
    have hidx := idxOfLast_get (collectTriples items u v) hndtr i h
    rcases mem_collect_exists items u v _ (List.get_mem _ _ _) with ⟨it, hmem, htr⟩
    rw [← htr]
    rw [← htr] at hidx
    exact reflow_offset_eq items u v hnd it hmem i hidx
  constructor
  · intro i h
    rw [key i h]
    rfl
  · intro h2
    rcases hl : collectTriples items u v with _ | ⟨t0, tl⟩
    · rw [hl] at h2
      cases h2
    · rcases tl with _ | ⟨t1, tl2⟩
      · rw [hl] at h2
        cases h2
      · rcases tl2 with _ | ⟨t2, tl3⟩
        · have hne01 : t0 ≠ t1 := by
            rw [hl] at hndtr
            rcases List.nodup_cons.mp hndtr with ⟨h01, _⟩
            intro he
            exact h01 (by rw [he]; exact List.mem_singleton.mpr rfl)
          have hidx0 : idxOfLast (collectTriples items u v) t0 = some 0 := by
            rw [hl]
            simp [idxOfLast, Ne.symm hne01]
          have hidx1 : idxOfLast (collectTriples items u v) t1 = some 1 := by
            rw [hl]
            simp [idxOfLast]
          rcases mem_collect_exists items u v t0
              (by rw [hl]; exact List.mem_cons.mpr (Or.inl rfl)) with ⟨it0, hm0, htr0⟩
          rcases mem_collect_exists items u v t1
              (by rw [hl]
                  exact List.mem_cons.mpr (Or.inr (List.mem_singleton.mpr rfl)))
            with ⟨it1, hm1, htr1⟩
          refine ⟨t0, t1, rfl, ?_, ?_⟩
          · have hr := reflow_offset_eq items u v hnd it0 hm0 0 (by rw [htr0]; exact hidx0)
            rw [htr0] at hr
            rw [hr, h2]
            norm_num [offsetAt]
          · have hr := reflow_offset_eq items u v hnd it1 hm1 1 (by rw [htr1]; exact hidx1)
            rw [htr1] at hr
            rw [hr, h2]
            norm_num [offsetAt]
        · rw [hl] at h2
          simp at h2

/-- Witness for C4: two parallel edges between nodes 0 and 1, plus a third
pair-unrelated edge, evaluated concretely: the parallel pair gets -25, +25. -/
theorem reflow_offset_formula_witness :
    (([⟨0, 1, 0, {}, 0⟩, ⟨0, 1, 1, {}, 0⟩, ⟨2, 3, 0, {}, 0⟩] : List EItem).map
        EItem.triple).Nodup ∧
    (0 : Int) ≠ 1 ∧
    (∃ t0 t1, collectTriples [⟨0, 1, 0, {}, 0⟩, ⟨0, 1, 1, {}, 0⟩, ⟨2, 3, 0, {}, 0⟩] 0 1
        = [t0, t1] ∧
      eitemOffset (reflowItems [⟨0, 1, 0, {}, 0⟩, ⟨0, 1, 1, {}, 0⟩, ⟨2, 3, 0, {}, 0⟩] 0 1)
        t0 = some (-25) ∧
      eitemOffset (reflowItems [⟨0, 1, 0, {}, 0⟩, ⟨0, 1, 1, {}, 0⟩, ⟨2, 3, 0, {}, 0⟩] 0 1)
        t1 = some 25) :=
  ⟨by decide, by decide,
   (reflow_offset_formula [⟨0, 1, 0, {}, 0⟩, ⟨0, 1, 1, {}, 0⟩, ⟨2, 3, 0, {}, 0⟩] 0 1
      (by decide) (by decide)).2 (by decide)⟩

theorem map_congr_mem {α β : Type} (l : List α) (f h : α → β)
    (he : ∀ x ∈ l, f x = h x) : l.map f = l.map h := by
  induction l with
  | nil => rfl
  | cons x xs ih =>
      rw [List.map_cons, List.map_cons, he x (List.mem_cons.mpr (Or.inl rfl)),
        ih (fun y hy => he y (List.mem_cons.mpr (Or.inr hy)))]

theorem dirKeys_map (items : List EItem) (g : EItem → EItem)
    (hg : ∀ it, (g it).src = it.src ∧ (g it).dst = it.dst ∧ (g it).key = it.key)
    (a b : Int) : dirKeys (items.map g) a b = dirKeys items a b := by
  induction items with
  | nil => rfl
  | cons it rest ih =>
      rw [List.map_cons, dirKeys, List.filterMap_cons]
      rw [dirKeys, List.filterMap_cons]
      rw [dirKeys] at ih
      rw [dirKeys] at ih
      have h1 : ((g it).src = a ∧ (g it).dst = b) ↔ (it.src = a ∧ it.dst = b) := by
        rw [(hg it).1, (hg it).2.1]
      by_cases hc : it.src = a ∧ it.dst = b
      · rw [if_pos hc, if_pos (h1.mpr hc), (hg it).2.2, ih]
      · rw [if_neg hc, if_neg (fun hx => hc (h1.mp hx)), ih]

theorem collect_map_fields (items : List EItem) (u v : Int) (g : EItem → EItem)
    (hg : ∀ it, (g it).src = it.src ∧ (g it).dst = it.dst ∧ (g it).key = it.key) :
    collectTriples (items.map g) u v = collectTriples items u v := by
  rw [collectTriples, collectTriples, dirKeys_map items g hg u v, dirKeys_map items g hg v u]

theorem reflowAssign_idem (tr : List (Int × Int × Int)) (n : Nat) (it : EItem) :
    reflowAssign tr n (reflowAssign tr n it) = reflowAssign tr n it := by
  have htr := reflowAssign_triple tr n it
  show (match idxOfLast tr (reflowAssign tr n it).triple with
    | some i => { reflowAssign tr n it with curve_offset := offsetAt n i }
    | none => reflowAssign tr n it) = reflowAssign tr n it
  rw [htr]
  cases hix : idxOfLast tr it.triple with
  | none => rfl
  | some i =>
      have hA : reflowAssign tr n it = { it with curve_offset := offsetAt n i } := by
        rw [reflowAssign, hix]
      rw [hA]

/-- With no structural change, the reflow's collected order is unchanged by a
previous reflow pass (offset assignment does not touch identities). -/
theorem collect_reflow (items : List EItem) (u v a b : Int) :
    collectTriples (reflowItems items u v) a b = collectTriples items a b := by
  rw [reflowItems]
  by_cases h0 : (collectTriples items u v).length = 0
  · simp only [if_pos h0]
  · simp only [if_neg h0]
    exact collect_map_fields items a b _
      (fun it => reflowAssign_fields (collectTriples items u v)
        (collectTriples items u v).length it)

theorem eitemOffset_perm (items items2 : List EItem) (hperm : items.Perm items2)
    (hnd : (items.map EItem.triple).Nodup) (t : Int × Int × Int) :
    eitemOffset items t = eitemOffset items2 t := by
  have hnd2 : (items2.map EItem.triple).Nodup := ((hperm.map EItem.triple).nodup_iff).mp hnd
  by_cases hex : ∃ it ∈ items, it.triple = t
  · rcases hex with ⟨it, hm, ht⟩
    rw [eitemOffset, eitemOffset, ← ht,
      find?_triple_of_mem_nodup items it hm hnd,
      find?_triple_of_mem_nodup items2 it (hperm.mem_iff.mp hm) hnd2]
  · push_neg at hex
    rw [eitemOffset, eitemOffset,
      List.find?_eq_none.mpr (fun it hm => by simpa using hex it hm),
      List.find?_eq_none.mpr (fun it hm => by
        simpa using hex it (hperm.mem_iff.mpr hm))]

theorem triples_reflow (items : List EItem) (u v : Int) :
    (reflowItems items u v).map EItem.triple = items.map EItem.triple := by
  rw [reflowItems]
  by_cases h0 : (collectTriples items u v).length = 0
  · simp only [if_pos h0]
  · simp only [if_neg h0]
    rw [List.map_map]
    exact map_congr_mem _ _ _ (fun it _ => reflowAssign_triple _ _ it)

/-- C3 (amended): for a fixed argument pair `(u, v)`, the offsets assigned by
reflow are a function only of the set of edge items — reflow is idempotent
(a second consecutive call changes nothing) and insertion-order independent
(any permutation of the item list yields the same offset for every edge
identity), because each direction's edges are sorted by key, not taken in
first-seen order.  What the code does NOT provide is the claim's independence
from the direction of the `(u, v)` arguments themselves: the call's `u → v`
edges are collected before its `v → u` edges, so when both directions are
populated, `reflow(u, v)` and `reflow(v, u)` assign different offsets (see
the counterexample). -/
theorem reflow_deterministic (items items2 : List EItem) (u v : Int)
    (hperm : items.Perm items2) (hnd : (items.map EItem.triple).Nodup) :
    reflowItems (reflowItems items u v) u v = reflowItems items u v ∧
    (∀ t, eitemOffset (reflowItems items u v) t =
      eitemOffset (reflowItems items2 u v) t) := by
  constructor
  · by_cases h0 : (collectTriples items u v).length = 0
    · have h1 : reflowItems items u v = items := by
        rw [reflowItems]
        simp only [if_pos h0]
      rw [h1]
      exact h1
    · have h1 : reflowItems items u v = items.map
          (reflowAssign (collectTriples items u v) (collectTriples items u v).length) := by
        rw [reflowItems]
        simp only [if_neg h0]
      rw [reflowItems]
      rw [collect_reflow items u v u v]
      simp only [if_neg h0]
      conv_lhs => rw [h1]
      conv_rhs => rw [h1]
      rw [List.map_map]
      exact map_congr_mem _ _ _ (fun it _ => reflowAssign_idem _ _ it)
  · intro t
    have hcol : collectTriples items u v = collectTriples items2 u v := by
      have hdir : ∀ a b : Int, (dirKeys items a b).insertionSort (· ≤ ·) =
          (dirKeys items2 a b).insertionSort (· ≤ ·) := by
        intro a b
        refine List.eq_of_perm_of_sorted ?_ (List.sorted_insertionSort _ _)
          (List.sorted_insertionSort _ _)
        exact ((List.perm_insertionSort _ _).trans (hperm.filterMap _)).trans
          (List.perm_insertionSort _ _).symm
      rw [collectTriples, collectTriples, hdir u v, hdir v u]
    have hpref : (reflowItems items u v).Perm (reflowItems items2 u v) := by
      rw [reflowItems, reflowItems, ← hcol]
      by_cases h0 : (collectTriples items u v).length = 0
      · simp only [if_pos h0]
        exact hperm
      · simp only [if_neg h0]
        exact hperm.map _
    have hnd3 : ((reflowItems items u v).map EItem.triple).Nodup := by
      rw [triples_reflow]
      exact hnd
    exact eitemOffset_perm _ _ hpref hnd3 t

/-- Witness for C3 (amended): the same two parallel edges inserted in the two
possible orders. -/
theorem reflow_deterministic_witness :
    (([⟨0, 1, 0, {}, 0⟩, ⟨0, 1, 1, {}, 0⟩] : List EItem).Perm
        [⟨0, 1, 1, {}, 0⟩, ⟨0, 1, 0, {}, 0⟩]) ∧
    (([⟨0, 1, 0, {}, 0⟩, ⟨0, 1, 1, {}, 0⟩] : List EItem).map EItem.triple).Nodup ∧
    (reflowItems (reflowItems [⟨0, 1, 0, {}, 0⟩, ⟨0, 1, 1, {}, 0⟩] 0 1) 0 1 =
      reflowItems [⟨0, 1, 0, {}, 0⟩, ⟨0, 1, 1, {}, 0⟩] 0 1 ∧
    (∀ t, eitemOffset (reflowItems [⟨0, 1, 0, {}, 0⟩, ⟨0, 1, 1, {}, 0⟩] 0 1) t =
      eitemOffset (reflowItems [⟨0, 1, 1, {}, 0⟩, ⟨0, 1, 0, {}, 0⟩] 0 1) t)) :=
  ⟨List.Perm.swap _ _ _, by decide,
   reflow_deterministic [⟨0, 1, 0, {}, 0⟩, ⟨0, 1, 1, {}, 0⟩]
     [⟨0, 1, 1, {}, 0⟩, ⟨0, 1, 0, {}, 0⟩] 0 1 (List.Perm.swap _ _ _) (by decide)⟩

/-- Counterexample to C3 as stated: with one edge in each direction, the
offsets depend on which direction's arguments the reflow is invoked with —
`reflow(0, 1)` gives the `0 → 1` edge offset `-25`, while `reflow(1, 0)` on
the unchanged edge set gives it `+25`: the assignment is not a function of
the unordered pair's edge set alone, and the tie-break is the call's argument
order, not a canonical lower-first order. -/
theorem reflow_direction_dependent_cx :
    eitemOffset (reflowItems [⟨0, 1, 0, {}, 0⟩, ⟨1, 0, 0, {}, 0⟩] 0 1) (0, 1, 0) =
      some (-25) ∧
    eitemOffset (reflowItems [⟨0, 1, 0, {}, 0⟩, ⟨1, 0, 0, {}, 0⟩] 1 0) (0, 1, 0) =
      some 25 := by
  constructor
  · have h := reflow_offset_eq [⟨0, 1, 0, {}, 0⟩, ⟨1, 0, 0, {}, 0⟩] 0 1 (by decide)
      ⟨0, 1, 0, {}, 0⟩ (by decide) 0 (by decide)
    rw [show ((⟨0, 1, 0, {}, 0⟩ : EItem)).triple = ((0, 1, 0) : Int × Int × Int)
      from rfl] at h
    rw [h]
    rw [show (collectTriples [⟨0, 1, 0, {}, 0⟩, ⟨1, 0, 0, {}, 0⟩] 0 1).length = 2
      from by decide]
    norm_num [offsetAt]
  · have h := reflow_offset_eq [⟨0, 1, 0, {}, 0⟩, ⟨1, 0, 0, {}, 0⟩] 1 0 (by decide)
      ⟨0, 1, 0, {}, 0⟩ (by decide) 1 (by decide)
    rw [show ((⟨0, 1, 0, {}, 0⟩ : EItem)).triple = ((0, 1, 0) : Int × Int × Int)
      from rfl] at h
    rw [h]
    rw [show (collectTriples [⟨0, 1, 0, {}, 0⟩, ⟨1, 0, 0, {}, 0⟩] 1 0).length = 2
      from by decide]
    norm_num [offsetAt]

/-! ## C9: numeric property parsing -/

theorem alookup_mapUpdate_self {κ ν : Type} [DecidableEq κ] (k : κ) (f : ν → ν)
    (l : List (κ × ν)) :
    alookup k (l.map (fun p => if p.1 = k then (p.1, f p.2) else p)) =
      (alookup k l).map f := by
  induction l with
  | nil => rfl
  | cons p ps ih =>
      rcases p with ⟨a, b⟩
      simp only [List.map_cons]
      by_cases h : a = k
      · rw [if_pos h]
        simp only [alookup]
        rw [if_pos h, if_pos h]
        rfl
      · rw [if_neg h]
        simp only [alookup]
        rw [if_neg h, if_neg h]
        exact ih

theorem alookup_mapUpdate_ne {κ ν : Type} [DecidableEq κ] (k j : κ) (f : ν → ν)
    (l : List (κ × ν)) (hne : ¬ j = k) :
    alookup j (l.map (fun p => if p.1 = k then (p.1, f p.2) else p)) = alookup j l := by
  induction l with
  | nil => rfl
  | cons p ps ih =>
      rcases p with ⟨a, b⟩
      simp only [List.map_cons]
      by_cases h : a = k
      · rw [if_pos h]
        simp only [alookup]
        have haj : ¬ a = j := fun hh => hne (by rw [← hh]; exact h)
        rw [if_neg haj, if_neg haj]
        exact ih
      · rw [if_neg h]
        simp only [alookup]
        by_cases haj : a = j
        · rw [if_pos haj, if_pos haj]
        · rw [if_neg haj, if_neg haj]
          exact ih

/-- `float("1e3") = 1000.0`: exponent notation is accepted. -/
theorem parseFloat_exponent_sample : parseFloat "1e3" = some (.finite 1000) := by
  rw [show parseFloat "1e3" =
      some (.finite (((1 : ℕ) : ℚ) * (10 : ℚ) ^ (((3 : ℕ) : ℤ)))) from rfl]
  norm_num

/-- `float(" -2.5E-2 ") = -0.025`: surrounding whitespace, sign, fraction,
upper-case exponent marker and negative exponent combined. -/
theorem parseFloat_negexp_sample :
    parseFloat " -2.5E-2 " = some (.finite (-(1/40))) := by
  rw [show parseFloat " -2.5E-2 " =
      some (.finite (-(((2 : ℕ) : ℚ) + ((5 : ℕ) : ℚ) / (10 : ℚ) ^ (1 : ℕ)) *
        (10 : ℚ) ^ (-((2 : ℕ) : ℤ)))) from rfl]
  norm_num

/-- `float(".5") = 0.5` and `float("5.") = 5.0`: the bare-dot forms. -/
theorem parseFloat_dot_samples : parseFloat ".5" = some (.finite (1/2)) ∧
    parseFloat "5." = some (.finite 5) := by
  constructor
  · rw [show parseFloat ".5" =
        some (.finite (((0 : ℕ) : ℚ) + ((5 : ℕ) : ℚ) / (10 : ℚ) ^ (1 : ℕ))) from rfl]
    norm_num
  · rw [show parseFloat "5." =
        some (.finite (((5 : ℕ) : ℚ) + ((0 : ℕ) : ℚ) / (10 : ℚ) ^ (0 : ℕ))) from rfl]
    norm_num

/-- `float("1_000.000_1e1_0") = 1.0000001e13`: underscore separators in all
three digit groups. -/
theorem parseFloat_seps_sample :
    parseFloat "1_000.000_1e1_0" = some (.finite 10000001000000) := by
  rw [show parseFloat "1_000.000_1e1_0" =
      some (.finite ((((1000 : ℕ) : ℚ) + ((1 : ℕ) : ℚ) / (10 : ℚ) ^ (4 : ℕ)) *
        (10 : ℚ) ^ (((10 : ℕ) : ℤ)))) from rfl]
  norm_num

/-- The accept/reject boundary of `float(string)` on forms needing no
rational arithmetic: underscored integers, case-insensitive special values,
whitespace, and the rejected shapes (misplaced underscores, double signs,
dangling markers, inner spaces). -/
theorem parseFloat_boundary_samples :
    parseFloat "1_000" = some (.finite 1000) ∧
    parseFloat "INF" = some .inf ∧ parseFloat "-Infinity" = some .ninf ∧
    parseFloat "NaN" = some .nan ∧ parseFloat "\t7\n" = some (.finite 7) ∧
    parseFloat "" = none ∧ parseFloat "abc" = none ∧ parseFloat "1__0" = none ∧
    parseFloat "_1" = none ∧ parseFloat "1_" = none ∧ parseFloat "1e" = none ∧
    parseFloat "1_.5" = none ∧ parseFloat "1.5.2" = none ∧
    parseFloat "--1" = none ∧ parseFloat "1 2" = none := by decide

/-- The `size` branch of `ChangeNodePropertyCommand._apply_property`. -/
theorem applyNodeProp_size (s : Scene) (i : Int) (v : PyVal) :
    applyNodeProp s i "size" v =
      match pyFloat v with
      | none => some s
      | some q =>
          gUpdateNode (adjustNItem s i (fun it => { it with data.size := q })) i
            (fun g => { g with size := q }) := rfl

/-- The `weight` branch of `ChangeEdgePropertyCommand._apply_property`. -/
theorem applyEdgeProp_weight (s : Scene) (t : Int × Int × Int) (v : PyVal) :
    applyEdgeProp s t "weight" v =
      match pyFloat v with
      | none => some s
      | some q =>
          gUpdateEdge (adjustEItem s t (fun it => { it with data.weight := q })) t
            (fun g => { g with weight := q }) := rfl

/-- The edge-item data visible after mapping the weight update over the item
list: the targeted identity gets its weight replaced, others are untouched. -/
theorem eitemObs_mapUpdate (l : List EItem) (t t2 : Int × Int × Int) (q : PyFloat) :
    ((l.map (fun it => if it.triple = t then { it with data.weight := q } else it)).find?
        (fun it => it.triple = t2)).map (fun it => it.data) =
      if t2 = t then
        ((l.find? (fun it => it.triple = t2)).map (fun it => it.data)).map
          (fun d => { d with weight := q })
      else (l.find? (fun it => it.triple = t2)).map (fun it => it.data) := by
  rw [find?_map_triple l _ (fun it => by
        by_cases hh : it.triple = t
        · rw [if_pos hh]; rfl
        · rw [if_neg hh]) t2]
  cases hf : l.find? (fun it => it.triple = t2) with
  | none => by_cases ht : t2 = t <;> simp [ht]
  | some it0 =>
      have hp0 := List.find?_some hf
      simp only [decide_eq_true_eq] at hp0
      have hp : it0.triple = t2 := hp0
      by_cases ht : t2 = t
      · rw [if_pos ht]
        simp only [Option.map_some']
        rw [show (if it0.triple = t then ({ it0 with data.weight := q } : EItem) else it0) =
            { it0 with data.weight := q } from if_pos (hp.trans ht)]
      · rw [if_neg ht]
        simp only [Option.map_some']
        rw [show (if it0.triple = t then ({ it0 with data.weight := q } : EItem) else it0) =
            it0 from if_neg (fun hc => ht (hp.symm.trans hc))]

/-- C9: on the numeric properties `size` (node) and `weight` (edge), a value
`float()` rejects (`ValueError`/`TypeError`, e.g. an unparsable string or a
list) makes the command a silent no-op — the scene is returned unchanged and
no error escapes — while a value `float()` accepts (plain or exponent
notation, underscore separators, `inf`/`nan`, numbers, bools) sets exactly
that field to the parsed float `q` in the item data and in the graph
attribute dict and changes nothing else. -/
theorem numeric_property_parse (s : Scene) (i u w k : Int) (o v : PyVal) :
    (pyFloat v = none →
      execCmd s (.changeNodeProp i "size" o v) =
          some (.changeNodeProp i "size" o v, s) ∧
      execCmd s (.changeEdgeProp u w k "weight" o v) =
          some (.changeEdgeProp u w k "weight" o v, s)) ∧
    (∀ q g, pyFloat v = some q → alookup i s.gnodes = some g →
      ∃ s2, execCmd s (.changeNodeProp i "size" o v) =
          some (.changeNodeProp i "size" o v, s2) ∧
        alookup i s2.gnodes = some { g with size := q } ∧
        (∀ n, alookup i s.nitems = some n →
          alookup i s2.nitems = some { n with data.size := q }) ∧
        (∀ j, ¬ j = i → alookup j s2.gnodes = alookup j s.gnodes) ∧
        (∀ j, ¬ j = i → alookup j s2.nitems = alookup j s.nitems) ∧
        s2.gedges = s.gedges ∧ s2.eitems = s.eitems) ∧
    (∀ q g, pyFloat v = some q → alookup (u, w, k) s.gedges = some g →
      ∃ s2, execCmd s (.changeEdgeProp u w k "weight" o v) =
          some (.changeEdgeProp u w k "weight" o v, s2) ∧
        alookup (u, w, k) s2.gedges = some { g with weight := q } ∧
        eitemObs s2 (u, w, k) =
          (eitemObs s (u, w, k)).map (fun d => { d with weight := q }) ∧
        (∀ p, ¬ p = (u, w, k) → alookup p s2.gedges = alookup p s.gedges) ∧
        (∀ t2, ¬ t2 = (u, w, k) → eitemObs s2 t2 = eitemObs s t2) ∧
        s2.gnodes = s.gnodes ∧ s2.nitems = s.nitems) := by
  refine ⟨fun hn => ⟨?_, ?_⟩, fun q g hq hg => ?_, fun q g hq hg => ?_⟩
  · simp only [execCmd]
    rw [applyNodeProp_size, hn]
    rfl
  · simp only [execCmd]
    rw [applyEdgeProp_weight, hn]
    rfl
  · have hcond : (alookup i s.gnodes).isSome = true := by rw [hg]; rfl
    have hred : applyNodeProp s i "size" v = some { s with
        gnodes := s.gnodes.map (fun p =>
          if p.1 = i then (p.1, { p.2 with size := q }) else p),
        nitems := s.nitems.map (fun p =>
          if p.1 = i then (p.1, { p.2 with data.size := q }) else p) } := by
      rw [applyNodeProp_size, hq]
      show gUpdateNode (adjustNItem s i (fun it => { it with data.size := q })) i
        (fun g2 => { g2 with size := q }) = _
      unfold gUpdateNode
      dsimp only [adjustNItem]
      rw [if_pos hcond]
    refine ⟨{ s with
        gnodes := s.gnodes.map (fun p =>
          if p.1 = i then (p.1, { p.2 with size := q }) else p),
        nitems := s.nitems.map (fun p =>
          if p.1 = i then (p.1, { p.2 with data.size := q }) else p) },
      ?_, ?_, ?_, ?_, ?_, rfl, rfl⟩
    · simp only [execCmd]
      rw [hred]
      rfl
    · exact (alookup_mapUpdate_self i (fun g2 : GNodeA => { g2 with size := q })
        s.gnodes).trans (by rw [hg]; rfl)
    · intro n hn2
      exact (alookup_mapUpdate_self i (fun it : NItem => { it with data.size := q })
        s.nitems).trans (by rw [hn2]; rfl)
    · intro j hj
      exact alookup_mapUpdate_ne i j (fun g2 : GNodeA => { g2 with size := q })
        s.gnodes hj
    · intro j hj
      exact alookup_mapUpdate_ne i j (fun it : NItem => { it with data.size := q })
        s.nitems hj
  · have hcond : (alookup (u, w, k) s.gedges).isSome = true := by rw [hg]; rfl
    have hred : applyEdgeProp s (u, w, k) "weight" v = some { s with
        gedges := s.gedges.map (fun p =>
          if p.1 = (u, w, k) then (p.1, { p.2 with weight := q }) else p),
        eitems := s.eitems.map (fun it =>
          if it.triple = (u, w, k) then { it with data.weight := q } else it) } := by
      rw [applyEdgeProp_weight, hq]
      show gUpdateEdge (adjustEItem s (u, w, k) (fun it => { it with data.weight := q }))
        (u, w, k) (fun g2 => { g2 with weight := q }) = _
      unfold gUpdateEdge
      dsimp only [adjustEItem]
      rw [if_pos hcond]
    refine ⟨{ s with
        gedges := s.gedges.map (fun p =>
          if p.1 = (u, w, k) then (p.1, { p.2 with weight := q }) else p),
        eitems := s.eitems.map (fun it =>
          if it.triple = (u, w, k) then { it with data.weight := q } else it) },
      ?_, ?_, ?_, ?_, ?_, rfl, rfl⟩
    · simp only [execCmd]
      rw [hred]
      rfl
    · exact (alookup_mapUpdate_self (u, w, k)
        (fun g2 : GEdgeA => { g2 with weight := q }) s.gedges).trans (by rw [hg]; rfl)
    · show ((s.eitems.map (fun it =>
          if it.triple = (u, w, k) then { it with data.weight := q } else it)).find?
            (fun it => it.triple = (u, w, k))).map (fun it => it.data) =
        ((s.eitems.find? (fun it => it.triple = (u, w, k))).map (fun it => it.data)).map
          (fun d => { d with weight := q })
      rw [eitemObs_mapUpdate s.eitems (u, w, k) (u, w, k) q, if_pos rfl]
    · intro p hp
      exact alookup_mapUpdate_ne (u, w, k) p
        (fun g2 : GEdgeA => { g2 with weight := q }) s.gedges hp
    · intro t2 ht2
      show ((s.eitems.map (fun it =>
          if it.triple = (u, w, k) then { it with data.weight := q } else it)).find?
            (fun it => it.triple = t2)).map (fun it => it.data) =
        (s.eitems.find? (fun it => it.triple = t2)).map (fun it => it.data)
      rw [eitemObs_mapUpdate s.eitems (u, w, k) t2 q, if_neg ht2]

/-- Witness for C9 at the concrete scene: `float([])` raises `TypeError` and
`float("oops")` raises `ValueError` (both caught, scene unchanged), while
`float(5/2)` and `float("1e3")` succeed and set the field. -/
theorem numeric_property_parse_witness :
    (execCmd sceneW (.changeNodeProp 0 "size" (.pnum 24) (.plist [])) =
        some (.changeNodeProp 0 "size" (.pnum 24) (.plist []), sceneW) ∧
      execCmd sceneW (.changeEdgeProp 0 1 0 "weight" (.pnum 24) (.plist [])) =
        some (.changeEdgeProp 0 1 0 "weight" (.pnum 24) (.plist []), sceneW)) ∧
    (execCmd sceneW (.changeNodeProp 0 "size" (.pnum 24) (.pstr "oops")) =
        some (.changeNodeProp 0 "size" (.pnum 24) (.pstr "oops"), sceneW) ∧
      execCmd sceneW (.changeEdgeProp 0 1 0 "weight" (.pnum 24) (.pstr "oops")) =
        some (.changeEdgeProp 0 1 0 "weight" (.pnum 24) (.pstr "oops"), sceneW)) ∧
    (∃ s2, execCmd sceneW (.changeNodeProp 0 "size" (.pnum 24) (.pnum (5/2))) =
        some (.changeNodeProp 0 "size" (.pnum 24) (.pnum (5/2)), s2) ∧
      alookup 0 s2.gnodes = some { gnW with size := .finite (5/2) }) ∧
    (∃ s2, execCmd sceneW (.changeNodeProp 0 "size" (.pnum 24) (.pstr "1e3")) =
        some (.changeNodeProp 0 "size" (.pnum 24) (.pstr "1e3"), s2) ∧
      alookup 0 s2.gnodes = some { gnW with size := .finite 1000 }) ∧
    (∃ s2, execCmd sceneW (.changeEdgeProp 0 1 0 "weight" (.pnum 24) (.pnum (5/2))) =
        some (.changeEdgeProp 0 1 0 "weight" (.pnum 24) (.pnum (5/2)), s2) ∧
      alookup (0, 1, 0) s2.gedges = some { geW with weight := .finite (5/2) }) := by
  refine ⟨(numeric_property_parse sceneW 0 0 1 0 (.pnum 24) (.plist [])).1 rfl,
    (numeric_property_parse sceneW 0 0 1 0 (.pnum 24) (.pstr "oops")).1 (by decide),
    ?_, ?_, ?_⟩
  · obtain ⟨s2, h1, h2, -⟩ :=
      (numeric_property_parse sceneW 0 0 1 0 (.pnum 24) (.pnum (5/2))).2.1
        (.finite (5/2)) gnW rfl rfl
    exact ⟨s2, h1, h2⟩
  · obtain ⟨s2, h1, h2, -⟩ :=
      (numeric_property_parse sceneW 0 0 1 0 (.pnum 24) (.pstr "1e3")).2.1
        (.finite 1000) gnW parseFloat_exponent_sample rfl
    exact ⟨s2, h1, h2⟩
  · obtain ⟨s2, h1, h2, -⟩ :=
      (numeric_property_parse sceneW 0 0 1 0 (.pnum 24) (.pnum (5/2))).2.2
        (.finite (5/2)) geW rfl rfl
    exact ⟨s2, h1, h2⟩

/-! ## C1: execute-undo round trips — list-level helpers -/

theorem ofirst_none_left {ν : Type} (b : Option ν) : ofirst none b = b := rfl

theorem ofirst_none_right {ν : Type} (a : Option ν) : ofirst a none = a := by
  cases a <;> rfl

theorem alookup_append {κ ν : Type} [DecidableEq κ] (k : κ) (l1 l2 : List (κ × ν)) :
    alookup k (l1 ++ l2) = ofirst (alookup k l1) (alookup k l2) := by
  induction l1 with
  | nil => rfl
  | cons p ps ih =>
      rcases p with ⟨a, b⟩
      rw [List.cons_append]
      simp only [alookup]
      by_cases h : a = k
      · rw [if_pos h, if_pos h]
        rfl
      · rw [if_neg h, if_neg h]
        exact ih

theorem alookup_append_single_ne {κ ν : Type} [DecidableEq κ] (t k2 : κ) (v : ν)
    (l : List (κ × ν)) (h : ¬ k2 = t) : alookup t (l ++ [(k2, v)]) = alookup t l := by
  rw [alookup_append,
    show alookup t [(k2, v)] = none from by simp only [alookup]; rw [if_neg h]]
  exact ofirst_none_right _

theorem alookup_append_single_self {κ ν : Type} [DecidableEq κ] (k : κ) (v : ν)
    (l : List (κ × ν)) (h : alookup k l = none) :
    alookup k (l ++ [(k, v)]) = some v := by
  rw [alookup_append, h]
  show alookup k [(k, v)] = some v
  simp [alookup]

theorem aerase_append_fresh {κ ν : Type} [DecidableEq κ] (k : κ) (l : List (κ × ν)) (x : ν)
    (h : alookup k l = none) : aerase k (l ++ [(k, x)]) = l := by
  induction l with
  | nil => simp [aerase]
  | cons p ps ih =>
      rcases p with ⟨a, b⟩
      have ha : ¬ a = k := by
        intro hh
        rw [alookup, if_pos hh] at h
        cases h
      rw [alookup, if_neg ha] at h
      rw [List.cons_append, aerase, if_neg ha, ih h]

theorem find?_append_or {α : Type} (p : α → Bool) (l1 l2 : List α) :
    (l1 ++ l2).find? p = ofirst (l1.find? p) (l2.find? p) := by
  induction l1 with
  | nil => rfl
  | cons x xs ih =>
      rw [List.cons_append]
      by_cases h : p x = true
      · rw [List.find?_cons_of_pos _ h, List.find?_cons_of_pos _ h]
        rfl
      · rw [List.find?_cons_of_neg _ (by simpa using h),
          List.find?_cons_of_neg _ (by simpa using h), ih]

theorem eraseP_map_triple (l : List EItem) (g : EItem → EItem)
    (hg : ∀ it, (g it).triple = it.triple) (t : Int × Int × Int) :
    (l.map g).eraseP (fun it => it.triple = t) =
      (l.eraseP (fun it => it.triple = t)).map g := by
  induction l with
  | nil => rfl
  | cons x xs ih =>
      rw [List.map_cons]
      by_cases hx : x.triple = t
      · rw [List.eraseP_cons_of_pos (by simp [hg x, hx]),
          List.eraseP_cons_of_pos (by simpa using hx)]
      · rw [List.eraseP_cons_of_neg (by simp [hg x, hx]),
          List.eraseP_cons_of_neg (by simpa using hx), List.map_cons, ih]

theorem eraseP_append_fresh (l : List EItem) (it0 : EItem)
    (h : l.find? (fun it => it.triple = it0.triple) = none) :
    (l ++ [it0]).eraseP (fun it => it.triple = it0.triple) = l := by
  induction l with
  | nil =>
      rw [List.nil_append]
      rw [List.eraseP_cons_of_pos (by simp)]
  | cons x xs ih =>
      have hx : ¬ (x.triple = it0.triple) := by
        intro hh
        rw [List.find?_cons_of_pos _ (by simpa using hh)] at h
        cases h
      rw [List.find?_cons_of_neg _ (by simpa using hx)] at h
      rw [List.cons_append, List.eraseP_cons_of_neg (by simpa using hx), ih h]

theorem find?_eraseP_triple_ne (l : List EItem) (t t' : Int × Int × Int)
    (hne : ¬ t' = t) :
    (l.eraseP (fun it => it.triple = t)).find? (fun it => it.triple = t') =
      l.find? (fun it => it.triple = t') := by
  induction l with
  | nil => rfl
  | cons x xs ih =>
      by_cases hq : x.triple = t
      · rw [List.eraseP_cons_of_pos (by simpa using hq)]
        have hp : ¬ (x.triple = t') := fun hh => hne (hh.symm.trans hq)
        rw [List.find?_cons_of_neg _ (by simpa using hp)]
      · rw [List.eraseP_cons_of_neg (by simpa using hq)]
        by_cases hp : x.triple = t'
        · rw [List.find?_cons_of_pos _ (by simpa using hp),
            List.find?_cons_of_pos _ (by simpa using hp)]
        · rw [List.find?_cons_of_neg _ (by simpa using hp),
            List.find?_cons_of_neg _ (by simpa using hp), ih]

theorem find?_filter_touch_none (l : List EItem) (i : Int) (t : Int × Int × Int)
    (ht : t.1 = i ∨ t.2.1 = i) :
    (l.filter (fun it => !(it.src = i || it.dst = i))).find?
      (fun it => it.triple = t) = none := by
  induction l with
  | nil => rfl
  | cons x xs ih =>
      rw [List.filter_cons]
      by_cases hc : (!(decide (x.src = i) || decide (x.dst = i))) = true
      · rw [if_pos hc]
        have hx : ¬ (x.triple = t) := by
          intro hh
          simp only [Bool.not_eq_true', Bool.or_eq_false_iff,
            decide_eq_false_iff_not] at hc
          rcases ht with h1 | h1
          · rw [← hh] at h1
            exact hc.1 h1
          · rw [← hh] at h1
            exact hc.2 h1
        rw [List.find?_cons_of_neg _ (by simpa using hx)]
        exact ih
      · rw [if_neg hc]
        exact ih

theorem find?_filter_touch_keep (l : List EItem) (i : Int) (t : Int × Int × Int)
    (ht : ¬ (t.1 = i ∨ t.2.1 = i)) :
    (l.filter (fun it => !(it.src = i || it.dst = i))).find?
      (fun it => it.triple = t) = l.find? (fun it => it.triple = t) := by
  induction l with
  | nil => rfl
  | cons x xs ih =>
      rw [List.filter_cons]
      by_cases hc : (!(decide (x.src = i) || decide (x.dst = i))) = true
      · rw [if_pos hc]
        by_cases hp : x.triple = t
        · rw [List.find?_cons_of_pos _ (by simpa using hp),
            List.find?_cons_of_pos _ (by simpa using hp)]
        · rw [List.find?_cons_of_neg _ (by simpa using hp),
            List.find?_cons_of_neg _ (by simpa using hp), ih]
      · rw [if_neg hc]
        have hsd : x.src = i ∨ x.dst = i := by
          by_cases h1 : x.src = i
          · exact Or.inl h1
          · by_cases h2 : x.dst = i
            · exact Or.inr h2
            · exact absurd (by simp [h1, h2]) hc
        have hp : ¬ (x.triple = t) := by
          intro hh
          apply ht
          rcases hsd with h1 | h1
          · exact Or.inl (by rw [← hh]; exact h1)
          · exact Or.inr (by rw [← hh]; exact h1)
        rw [List.find?_cons_of_neg _ (by simpa using hp)]
        exact ih

/-! ### Freshness of the allocators -/

theorem le_maxInt (xs : List Int) :
    ∀ x : Int, x ≤ maxInt x xs ∧ ∀ y ∈ xs, y ≤ maxInt x xs := by
  induction xs with
  | nil => exact fun x => ⟨le_refl x, by intro y hy; cases hy⟩
  | cons z zs ih =>
      intro x
      constructor
      · exact le_trans (le_max_left x z) (ih (max x z)).1
      · intro y hy
        rcases List.mem_cons.mp hy with rfl | hy2
        · exact le_trans (le_max_right x y) (ih (max x y)).1
        · exact (ih (max x z)).2 y hy2

theorem allocNodeId_fresh (s : Scene) : alookup (allocNodeId s) s.gnodes = none := by
  cases ho : alookup (allocNodeId s) s.gnodes with
  | none => rfl
  | some v =>
      exfalso
      have hm := (alookup_isSome_iff_mem _ s.gnodes).mp (by rw [ho]; rfl)
      cases hg : s.gnodes with
      | nil =>
          rw [hg] at hm
          cases hm
      | cons p ps =>
          have halloc : allocNodeId s = maxInt p.1 (ps.map Prod.fst) + 1 := by
            unfold allocNodeId
            rw [hg]
          rw [hg] at hm
          simp only [akeys, List.map_cons, List.mem_cons] at hm
          have hle : allocNodeId s ≤ maxInt p.1 (ps.map Prod.fst) := by
            rcases hm with he | hm2
            · rw [he]
              exact (le_maxInt (ps.map Prod.fst) p.1).1
            · exact (le_maxInt (ps.map Prod.fst) p.1).2 _ hm2
          omega

theorem allocEdgeKey_fresh (s : Scene) (u v : Int) :
    alookup (u, v, allocEdgeKey s u v) s.gedges = none := by
  cases ho : alookup (u, v, allocEdgeKey s u v) s.gedges with
  | none => rfl
  | some d =>
      exfalso
      have hm := (alookup_isSome_iff_mem _ s.gedges).mp (by rw [ho]; rfl)
      simp only [akeys, List.mem_map] at hm
      obtain ⟨p, hp, hpk⟩ := hm
      have hmem : allocEdgeKey s u v ∈ s.gedges.filterMap (fun p =>
          if p.1.1 = u ∧ p.1.2.1 = v then some p.1.2.2 else none) := by
        rw [List.mem_filterMap]
        refine ⟨p, hp, ?_⟩
        rw [hpk]
        simp
      cases hks : s.gedges.filterMap (fun p =>
          if p.1.1 = u ∧ p.1.2.1 = v then some p.1.2.2 else none) with
      | nil =>
          rw [hks] at hmem
          cases hmem
      | cons k0 ks =>
          have halloc : allocEdgeKey s u v = maxInt k0 ks + 1 := by
            unfold allocEdgeKey
            rw [hks]
          rw [hks] at hmem
          have hle : allocEdgeKey s u v ≤ maxInt k0 ks := by
            rcases List.mem_cons.mp hmem with he | hm2
            · rw [he]
              exact (le_maxInt ks k0).1
            · exact (le_maxInt ks k0).2 _ hm2
          omega

/-! ### Reflow preserves item data -/

theorem reflowAssign_data (tr : List (Int × Int × Int)) (n : Nat) (it : EItem) :
    (reflowAssign tr n it).data = it.data := by
  rw [reflowAssign]
  cases idxOfLast tr it.triple <;> rfl

theorem find?_data_map_triple (l : List EItem) (g : EItem → EItem)
    (hg : ∀ it, (g it).triple = it.triple) (hd : ∀ it, (g it).data = it.data)
    (t : Int × Int × Int) :
    ((l.map g).find? (fun it => it.triple = t)).map (fun it => it.data) =
      (l.find? (fun it => it.triple = t)).map (fun it => it.data) := by
  rw [find?_map_triple l g hg t]
  cases l.find? (fun it => it.triple = t) with
  | none => rfl
  | some x => simp [hd x]

theorem find?_data_reflowItems (items : List EItem) (u v : Int) (t : Int × Int × Int) :
    ((reflowItems items u v).find? (fun it => it.triple = t)).map (fun it => it.data) =
      (items.find? (fun it => it.triple = t)).map (fun it => it.data) := by
  rw [reflowItems]
  by_cases h : (collectTriples items u v).length = 0
  · simp only [if_pos h]
  · simp only [if_neg h]
    exact find?_data_map_triple items _ (fun it => reflowAssign_triple _ _ it)
      (fun it => reflowAssign_data _ _ it) t

/-! ### Effect of `_create_edge_internal` on the visible store -/

theorem createEdge_gnodes (st : Scene) (a b : Int) (d : EdgeData) (k0 : Option Int) :
    (createEdgeInternal st a b d k0).1.gnodes = st.gnodes := rfl

theorem createEdge_nitems (st : Scene) (a b : Int) (d : EdgeData) (k0 : Option Int) :
    (createEdgeInternal st a b d k0).1.nitems = st.nitems := rfl

theorem createEdge_gedges_lookup (st : Scene) (a b k0 : Int) (d : EdgeData)
    (t : Int × Int × Int) (habs : alookup (a, b, k0) st.gedges = none) :
    alookup t (createEdgeInternal st a b d (some k0)).1.gedges =
      if t = (a, b, k0) then some (coreEdge d) else alookup t st.gedges := by
  show alookup t (gAddEdge st.gedges (a, b, k0) d) = _
  unfold gAddEdge
  rw [if_neg (by simp [habs])]
  by_cases ht : t = (a, b, k0)
  · rw [if_pos ht, ht]
    exact alookup_append_single_self (a, b, k0) _ st.gedges habs
  · rw [if_neg ht]
    exact alookup_append_single_ne t (a, b, k0) _ st.gedges (fun hh => ht hh.symm)

theorem createEdge_eitems_data (st : Scene) (a b k0 : Int) (d : EdgeData)
    (t : Int × Int × Int)
    (habs : st.eitems.find? (fun it => it.triple = (a, b, k0)) = none) :
    ((createEdgeInternal st a b d (some k0)).1.eitems.find?
        (fun it => it.triple = t)).map (fun it => it.data) =
      if t = (a, b, k0) then some d
      else (st.eitems.find? (fun it => it.triple = t)).map (fun it => it.data) := by
  show ((reflowItems (st.eitems ++ [{ src := a, dst := b, key := k0, data := d }]) a b).find?
      (fun it => it.triple = t)).map (fun it => it.data) = _
  rw [find?_data_reflowItems, find?_append_or]
  by_cases ht : t = (a, b, k0)
  · rw [if_pos ht, ht, habs]
    show (([({ src := a, dst := b, key := k0, data := d } : EItem)].find?
        (fun it => it.triple = (a, b, k0)))).map (fun it => it.data) = some d
    rw [List.find?_cons_of_pos _ (by simp [EItem.triple])]
    rfl
  · rw [if_neg ht]
    rw [show ([({ src := a, dst := b, key := k0, data := d } : EItem)].find?
        (fun it => it.triple = t)) = none from by
      rw [List.find?_cons_of_neg _ (by simpa [EItem.triple] using fun hh => ht hh.symm)]
      rfl]
    rw [ofirst_none_right]

/-! ### The incident-edge restore loop of `DeleteNodeCommand.undo` -/

theorem akeys_connMap (conn : List (Int × Int × EdgeData × Int)) :
    akeys (connMap conn) = conn.map connTriple := by
  induction conn with
  | nil => rfl
  | cons e es ih =>
      show connTriple e :: akeys (connMap es) = connTriple e :: es.map connTriple
      rw [ih]

theorem alookup_connMap_none (t : Int × Int × Int)
    (conn : List (Int × Int × EdgeData × Int)) (hnm : t ∉ conn.map connTriple) :
    alookup t (connMap conn) = none := by
  cases ho : alookup t (connMap conn) with
  | none => rfl
  | some d =>
      exfalso
      have hm := (alookup_isSome_iff_mem t (connMap conn)).mp (by rw [ho]; rfl)
      rw [akeys_connMap] at hm
      exact hnm hm

theorem foldl_connStep_spec (conn : List (Int × Int × EdgeData × Int)) :
    ∀ st : Scene,
    (∀ e ∈ conn, alookup (connTriple e) st.gedges = none) →
    (∀ e ∈ conn, st.eitems.find? (fun it => it.triple = connTriple e) = none) →
    (∀ e ∈ conn, (alookup e.1 st.nitems).isSome = true ∧
        (alookup e.2.1 st.nitems).isSome = true) →
    ((conn.map connTriple).Nodup) →
    (conn.foldl connStep st).gnodes = st.gnodes ∧
    (conn.foldl connStep st).nitems = st.nitems ∧
    (∀ t, alookup t (conn.foldl connStep st).gedges =
      ofirst ((alookup t (connMap conn)).map coreEdge) (alookup t st.gedges)) ∧
    (∀ t, ((conn.foldl connStep st).eitems.find? (fun it => it.triple = t)).map
        (fun it => it.data) =
      ofirst (alookup t (connMap conn))
        ((st.eitems.find? (fun it => it.triple = t)).map (fun it => it.data))) := by
  induction conn with
  | nil =>
      intro st _ _ _ _
      exact ⟨rfl, rfl, fun t => rfl, fun t => rfl⟩
  | cons e es ih =>
      intro st habs hitem hep hnd
      have hg1 := (hep e (List.mem_cons_self e es)).1
      have hg2 := (hep e (List.mem_cons_self e es)).2
      have hstep : connStep st e = (createEdgeInternal st e.1 e.2.1 e.2.2.1
          (some e.2.2.2)).1 := by
        unfold connStep
        rw [if_pos (by rw [hg1, hg2]; rfl)]
      have habs_e : alookup (connTriple e) st.gedges = none :=
        habs e (List.mem_cons_self e es)
      have hitem_e : st.eitems.find? (fun it => it.triple = connTriple e) = none :=
        hitem e (List.mem_cons_self e es)
      have hgl : ∀ t, alookup t (createEdgeInternal st e.1 e.2.1 e.2.2.1
          (some e.2.2.2)).1.gedges =
          if t = connTriple e then some (coreEdge e.2.2.1) else alookup t st.gedges :=
        fun t => createEdge_gedges_lookup st e.1 e.2.1 e.2.2.2 e.2.2.1 t habs_e
      have hil : ∀ t, (((createEdgeInternal st e.1 e.2.1 e.2.2.1
            (some e.2.2.2)).1.eitems.find? (fun it => it.triple = t)).map
            (fun it => it.data)) =
          if t = connTriple e then some e.2.2.1
          else (st.eitems.find? (fun it => it.triple = t)).map (fun it => it.data) :=
        fun t => createEdge_eitems_data st e.1 e.2.1 e.2.2.2 e.2.2.1 t hitem_e
      rw [List.map_cons, List.nodup_cons] at hnd
      obtain ⟨hne_e, hnd2⟩ := hnd
      have habs2 : ∀ e2 ∈ es, alookup (connTriple e2)
          (createEdgeInternal st e.1 e.2.1 e.2.2.1 (some e.2.2.2)).1.gedges = none := by
        intro e2 he2
        rw [hgl, if_neg (fun hh : connTriple e2 = connTriple e => hne_e (hh ▸ List.mem_map_of_mem connTriple he2))]
        exact habs e2 (List.mem_cons_of_mem e he2)
      have hitem2 : ∀ e2 ∈ es, (createEdgeInternal st e.1 e.2.1 e.2.2.1
          (some e.2.2.2)).1.eitems.find? (fun it => it.triple = connTriple e2) =
          none := by
        intro e2 he2
        have hthis := hil (connTriple e2)
        rw [if_neg (fun hh : connTriple e2 = connTriple e => hne_e (hh ▸ List.mem_map_of_mem connTriple he2)),
          hitem e2 (List.mem_cons_of_mem e he2)] at hthis
        exact Option.map_eq_none'.mp hthis
      have hep2 : ∀ e2 ∈ es, (alookup e2.1 (createEdgeInternal st e.1 e.2.1 e.2.2.1
            (some e.2.2.2)).1.nitems).isSome = true ∧
          (alookup e2.2.1 (createEdgeInternal st e.1 e.2.1 e.2.2.1
            (some e.2.2.2)).1.nitems).isSome = true := by
        intro e2 he2
        rw [createEdge_nitems]
        exact hep e2 (List.mem_cons_of_mem e he2)
      obtain ⟨ihg, ihn, ihge, ihit⟩ := ih _ habs2 hitem2 hep2 hnd2
      rw [List.foldl_cons, hstep]
      refine ⟨?_, ?_, ?_, ?_⟩
      · rw [ihg, createEdge_gnodes]
      · rw [ihn, createEdge_nitems]
      · intro t
        rw [ihge t, hgl t]
        by_cases ht : t = connTriple e
        · rw [if_pos ht,
            alookup_connMap_none t es (fun hm => hne_e (ht ▸ hm)),
            show alookup t (connMap (e :: es)) = some e.2.2.1 from by
              show alookup t ((connTriple e, e.2.2.1) :: connMap es) = _
              simp only [alookup]
              rw [if_pos ht.symm]]
          rfl
        · rw [if_neg ht,
            show alookup t (connMap (e :: es)) = alookup t (connMap es) from by
              show alookup t ((connTriple e, e.2.2.1) :: connMap es) = _
              simp only [alookup]
              rw [if_neg (fun hh => ht hh.symm)]]
      · intro t
        rw [ihit t, hil t]
        by_cases ht : t = connTriple e
        · rw [if_pos ht,
            alookup_connMap_none t es (fun hm => hne_e (ht ▸ hm)),
            show alookup t (connMap (e :: es)) = some e.2.2.1 from by
              show alookup t ((connTriple e, e.2.2.1) :: connMap es) = _
              simp only [alookup]
              rw [if_pos ht.symm]]
          rfl
        · rw [if_neg ht,
            show alookup t (connMap (e :: es)) = alookup t (connMap es) from by
              show alookup t ((connTriple e, e.2.2.1) :: connMap es) = _
              simp only [alookup]
              rw [if_neg (fun hh => ht hh.symm)]]

theorem ofirst_map {ν ν2 : Type} (f : ν → ν2) (a b : Option ν) :
    (ofirst a b).map f = ofirst (a.map f) (b.map f) := by
  cases a <;> rfl

theorem alookup_some_mem {κ ν : Type} [DecidableEq κ] (k : κ) (v : ν) (l : List (κ × ν))
    (h : alookup k l = some v) : (k, v) ∈ l := by
  induction l with
  | nil => cases h
  | cons p ps ih =>
      rcases p with ⟨a, b⟩
      rw [alookup] at h
      by_cases ha : a = k
      · rw [if_pos ha] at h
        subst ha
        cases h
        exact List.mem_cons_self _ _
      · rw [if_neg ha] at h
        exact List.mem_cons_of_mem _ (ih h)

theorem find?_triple_none_of_not_mem (l : List EItem) (t : Int × Int × Int)
    (h : t ∉ l.map EItem.triple) : l.find? (fun it => it.triple = t) = none := by
  induction l with
  | nil => rfl
  | cons x xs ih =>
      rw [List.map_cons, List.mem_cons] at h
      push_neg at h
      rw [List.find?_cons_of_neg _ (by simpa using fun hh => h.1 hh.symm)]
      exact ih h.2

theorem find?_eraseP_self_nodup (l : List EItem) (t : Int × Int × Int)
    (hnd : (l.map EItem.triple).Nodup) :
    (l.eraseP (fun it => it.triple = t)).find? (fun it => it.triple = t) = none := by
  induction l with
  | nil => rfl
  | cons x xs ih =>
      rw [List.map_cons, List.nodup_cons] at hnd
      by_cases hx : x.triple = t
      · rw [List.eraseP_cons_of_pos (by simpa using hx)]
        exact find?_triple_none_of_not_mem xs t (hx ▸ hnd.1)
      · rw [List.eraseP_cons_of_neg (by simpa using hx),
          List.find?_cons_of_neg _ (by simpa using hx)]
        exact ih hnd.2

theorem eraseP_append_fresh2 (l : List EItem) (it0 : EItem) (t : Int × Int × Int)
    (htr : it0.triple = t) (h : l.find? (fun it => it.triple = t) = none) :
    (l ++ [it0]).eraseP (fun it => it.triple = t) = l := by
  subst htr
  exact eraseP_append_fresh l it0 h

theorem find?_data_eraseP_reflow (items : List EItem) (u v : Int)
    (t t2 : Int × Int × Int) :
    (((reflowItems items u v).eraseP (fun it => it.triple = t)).find?
        (fun it => it.triple = t2)).map (fun it => it.data) =
      ((items.eraseP (fun it => it.triple = t)).find? (fun it => it.triple = t2)).map
        (fun it => it.data) := by
  rw [reflowItems]
  by_cases h : (collectTriples items u v).length = 0
  · simp only [if_pos h]
  · simp only [if_neg h]
    rw [eraseP_map_triple items _ (fun it => reflowAssign_triple _ _ it) t]
    exact find?_data_map_triple _ _ (fun it => reflowAssign_triple _ _ it)
      (fun it => reflowAssign_data _ _ it) t2

theorem find?_adjust_data (l : List EItem) (t t2 : Int × Int × Int) (f : EItem → EItem)
    (hf : ∀ it, (f it).triple = it.triple) :
    ((l.map (fun it => if it.triple = t then f it else it)).find?
        (fun it => it.triple = t2)).map (fun it => it.data) =
      if t2 = t then (l.find? (fun it => it.triple = t2)).map (fun it => (f it).data)
      else (l.find? (fun it => it.triple = t2)).map (fun it => it.data) := by
  rw [find?_map_triple l _ (fun it => by
        by_cases hh : it.triple = t
        · rw [if_pos hh]
          exact hf it
        · rw [if_neg hh]) t2]
  cases hfind : l.find? (fun it => it.triple = t2) with
  | none => by_cases ht : t2 = t <;> simp [ht]
  | some it0 =>
      have hp0 := List.find?_some hfind
      simp only [decide_eq_true_eq] at hp0
      by_cases ht : t2 = t
      · rw [if_pos ht]
        simp only [Option.map_some']
        rw [show (if it0.triple = t then f it0 else it0) = f it0 from
          if_pos (hp0.trans ht)]
      · rw [if_neg ht]
        simp only [Option.map_some']
        rw [show (if it0.triple = t then f it0 else it0) = it0 from
          if_neg (fun hc => ht (hp0.symm.trans hc))]

theorem connList_triples (l : List EItem) (i : Int) :
    (l.filterMap (fun it => if it.src = i || it.dst = i then
        some (it.src, it.dst, it.data, it.key) else none)).map connTriple =
      (l.filter (fun it => it.src = i || it.dst = i)).map EItem.triple := by
  induction l with
  | nil => rfl
  | cons x xs ih =>
      by_cases hc : (decide (x.src = i) || decide (x.dst = i)) = true
      · rw [List.filterMap_cons_some (by rw [if_pos hc]),
          List.filter_cons, if_pos hc, List.map_cons, List.map_cons, ih]
        rfl
      · rw [List.filterMap_cons_none (by rw [if_neg hc]),
          List.filter_cons, if_neg hc]
        exact ih

theorem alookup_connMap_touch (l : List EItem) (i : Int) (t : Int × Int × Int)
    (ht : t.1 = i ∨ t.2.1 = i) :
    alookup t (connMap (l.filterMap (fun it => if it.src = i || it.dst = i then
        some (it.src, it.dst, it.data, it.key) else none))) =
      (l.find? (fun it => it.triple = t)).map (fun it => it.data) := by
  induction l with
  | nil => rfl
  | cons x xs ih =>
      by_cases hc : (decide (x.src = i) || decide (x.dst = i)) = true
      · rw [List.filterMap_cons_some (by rw [if_pos hc])]
        by_cases hx : x.triple = t
        · rw [List.find?_cons_of_pos _ (by simpa using hx)]
          simp only [alookup]
          rw [if_pos (show connTriple (x.src, x.dst, x.data, x.key) = t from hx)]
          rfl
        · rw [List.find?_cons_of_neg _ (by simpa using hx)]
          simp only [alookup]
          rw [if_neg (show ¬ connTriple (x.src, x.dst, x.data, x.key) = t from hx)]
          exact ih
      · rw [List.filterMap_cons_none (by rw [if_neg hc])]
        have hx : ¬ (x.triple = t) := by
          intro hh
          apply hc
          rcases ht with h1 | h1
          · rw [← hh] at h1
            have h2 : x.src = i := h1
            simp [h2]
          · rw [← hh] at h1
            have h2 : x.dst = i := h1
            simp [h2]
        rw [List.find?_cons_of_neg _ (by simpa using hx)]
        exact ih

/-! ### Branch equations of the property-change appliers -/

theorem applyNodeProp_name (s : Scene) (i : Int) (v : PyVal) :
    applyNodeProp s i "name" v =
      gUpdateNode (adjustNItem s i (fun it => { it with data.name := pyStr v })) i
        (fun g => { g with name := pyStr v }) := rfl

theorem applyNodeProp_states (s : Scene) (i : Int) (v : PyVal) :
    applyNodeProp s i "states" v =
      gUpdateNode (adjustNItem s i (fun it => { it with data.states := pyListOf v })) i
        (fun g => { g with states := pyListOf v }) := rfl

theorem applyNodeProp_shape (s : Scene) (i : Int) (v : PyVal) :
    applyNodeProp s i "shape" v =
      gUpdateNode (adjustNItem s i (fun it => { it with data.shape := pyStr v })) i
        (fun g => { g with shape := pyStr v }) := rfl

theorem applyNodeProp_node_type (s : Scene) (i : Int) (v : PyVal) :
    applyNodeProp s i "node_type" v =
      gUpdateNode s i (fun g => { g with node_type := some v }) := rfl

theorem applyNodeProp_description (s : Scene) (i : Int) (v : PyVal) :
    applyNodeProp s i "description" v =
      gUpdateNode s i (fun g => { g with description := some v }) := rfl

theorem applyNodeProp_other (s : Scene) (i : Int) (prop : String) (v : PyVal)
    (h1 : ¬ prop = "name") (h2 : ¬ prop = "states") (h3 : ¬ prop = "shape")
    (h4 : ¬ prop = "size") (h5 : ¬ prop = "node_type")
    (h6 : ¬ prop = "description") : applyNodeProp s i prop v = some s := by
  unfold applyNodeProp
  rw [if_neg h1, if_neg h2, if_neg h3, if_neg h4, if_neg h5, if_neg h6]

theorem applyEdgeProp_label (s : Scene) (t : Int × Int × Int) (v : PyVal) :
    applyEdgeProp s t "label" v =
      gUpdateEdge (adjustEItem s t (fun it => { it with data.name := pyStr v })) t
        (fun g => { g with name := pyStr v }) := rfl

theorem applyEdgeProp_link_type (s : Scene) (t : Int × Int × Int) (v : PyVal) :
    applyEdgeProp s t "link_type" v =
      gUpdateEdge s t (fun g => { g with link_type := some v }) := rfl

theorem applyEdgeProp_description (s : Scene) (t : Int × Int × Int) (v : PyVal) :
    applyEdgeProp s t "description" v =
      gUpdateEdge s t (fun g => { g with description := some v }) := rfl

theorem applyEdgeProp_undirected (s : Scene) (t : Int × Int × Int) (v : PyVal) :
    applyEdgeProp s t "undirected" v =
      gUpdateEdge (adjustEItem s t (fun it => { it with data.undirected := pyBool v })) t
        (fun g => { g with undirected := pyBool v }) := rfl

theorem applyEdgeProp_bidirectional (s : Scene) (t : Int × Int × Int) (v : PyVal) :
    applyEdgeProp s t "bidirectional" v =
      gUpdateEdge (adjustEItem s t
          (fun it => { it with data.bidirectional := pyBool v })) t
        (fun g => { g with bidirectional := pyBool v }) := rfl

theorem applyEdgeProp_other (s : Scene) (t : Int × Int × Int) (prop : String) (v : PyVal)
    (h1 : ¬ prop = "label") (h2 : ¬ prop = "link_type") (h3 : ¬ prop = "description")
    (h4 : ¬ prop = "undirected") (h5 : ¬ prop = "bidirectional")
    (h6 : ¬ prop = "weight") : applyEdgeProp s t prop v = some s := by
  unfold applyEdgeProp
  rw [if_neg h1, if_neg h2, if_neg h3, if_neg h4, if_neg h5, if_neg h6]

/-! ### Round trips of the node/edge attribute updates -/

theorem obsEq_refl (s : Scene) : obsEq s s :=
  ⟨fun _ => rfl, fun _ => rfl, fun _ => rfl, fun _ => rfl⟩

theorem node_update_once (s : Scene) (i : Int) (g : GNodeA) (n0 : NItem)
    (hg : alookup i s.gnodes = some g) (hn0 : alookup i s.nitems = some n0)
    (fI1 : NItem → NItem) (fG1 : GNodeA → GNodeA) :
    gUpdateNode (adjustNItem s i fI1) i fG1 = some { s with
      gnodes := s.gnodes.map (fun p => if p.1 = i then (p.1, fG1 p.2) else p),
      nitems := s.nitems.map (fun p => if p.1 = i then (p.1, fI1 p.2) else p) } := by
  unfold gUpdateNode
  dsimp only [adjustNItem]
  rw [if_pos (show (alookup i s.gnodes).isSome = true by rw [hg]; rfl)]

theorem node_update_roundtrip (s : Scene) (i : Int) (g : GNodeA) (n0 : NItem)
    (hg : alookup i s.gnodes = some g) (hn0 : alookup i s.nitems = some n0)
    (fI1 fI2 : NItem → NItem) (fG1 fG2 : GNodeA → GNodeA)
    (hrestI : fI2 (fI1 n0) = n0) (hrestG : fG2 (fG1 g) = g) :
    ∃ s2, gUpdateNode (adjustNItem s i fI1) i fG1 = some s2 ∧
      ∃ s3, gUpdateNode (adjustNItem s2 i fI2) i fG2 = some s3 ∧ obsEq s3 s := by
  refine ⟨_, node_update_once s i g n0 hg hn0 fI1 fG1, ?_⟩
  have hg2 : alookup i (s.gnodes.map
      (fun p => if p.1 = i then (p.1, fG1 p.2) else p)) = some (fG1 g) := by
    rw [alookup_mapUpdate_self, hg]
    rfl
  have hn2 : alookup i (s.nitems.map
      (fun p => if p.1 = i then (p.1, fI1 p.2) else p)) = some (fI1 n0) := by
    rw [alookup_mapUpdate_self, hn0]
    rfl
  refine ⟨_, node_update_once _ i (fG1 g) (fI1 n0) hg2 hn2 fI2 fG2, ?_⟩
  refine ⟨fun j => ?_, fun t => rfl, fun j => ?_, fun t2 => rfl⟩
  · show alookup j ((s.gnodes.map (fun p => if p.1 = i then (p.1, fG1 p.2) else p)).map
        (fun p => if p.1 = i then (p.1, fG2 p.2) else p)) = alookup j s.gnodes
    by_cases hj : j = i
    · subst hj
      rw [alookup_mapUpdate_self, alookup_mapUpdate_self, hg]
      show some (fG2 (fG1 g)) = some g
      rw [hrestG]
    · exact (alookup_mapUpdate_ne i j _ _ hj).trans (alookup_mapUpdate_ne i j _ _ hj)
  · show alookup j ((s.nitems.map (fun p => if p.1 = i then (p.1, fI1 p.2) else p)).map
        (fun p => if p.1 = i then (p.1, fI2 p.2) else p)) = alookup j s.nitems
    by_cases hj : j = i
    · subst hj
      rw [alookup_mapUpdate_self, alookup_mapUpdate_self, hn0]
      show some (fI2 (fI1 n0)) = some n0
      rw [hrestI]
    · exact (alookup_mapUpdate_ne i j _ _ hj).trans (alookup_mapUpdate_ne i j _ _ hj)

theorem node_update_noop (s : Scene) (i : Int) (g : GNodeA) (n0 : NItem)
    (hg : alookup i s.gnodes = some g) (hn0 : alookup i s.nitems = some n0)
    (fI1 : NItem → NItem) (fG1 : GNodeA → GNodeA)
    (hrestI : fI1 n0 = n0) (hrestG : fG1 g = g) :
    ∃ s2, gUpdateNode (adjustNItem s i fI1) i fG1 = some s2 ∧ obsEq s2 s := by
  refine ⟨_, node_update_once s i g n0 hg hn0 fI1 fG1, ?_⟩
  refine ⟨fun j => ?_, fun t => rfl, fun j => ?_, fun t2 => rfl⟩
  · show alookup j (s.gnodes.map (fun p => if p.1 = i then (p.1, fG1 p.2) else p)) =
      alookup j s.gnodes
    by_cases hj : j = i
    · subst hj
      rw [alookup_mapUpdate_self, hg]
      show some (fG1 g) = some g
      rw [hrestG]
    · exact alookup_mapUpdate_ne i j _ _ hj
  · show alookup j (s.nitems.map (fun p => if p.1 = i then (p.1, fI1 p.2) else p)) =
      alookup j s.nitems
    by_cases hj : j = i
    · subst hj
      rw [alookup_mapUpdate_self, hn0]
      show some (fI1 n0) = some n0
      rw [hrestI]
    · exact alookup_mapUpdate_ne i j _ _ hj

theorem gnode_update_roundtrip (s : Scene) (i : Int) (g : GNodeA)
    (hg : alookup i s.gnodes = some g) (fG1 fG2 : GNodeA → GNodeA)
    (hrestG : fG2 (fG1 g) = g) :
    ∃ s2, gUpdateNode s i fG1 = some s2 ∧
      ∃ s3, gUpdateNode s2 i fG2 = some s3 ∧ obsEq s3 s := by
  have h1 : gUpdateNode s i fG1 = some { s with
      gnodes := s.gnodes.map (fun p => if p.1 = i then (p.1, fG1 p.2) else p) } := by
    unfold gUpdateNode
    rw [if_pos (show (alookup i s.gnodes).isSome = true by rw [hg]; rfl)]
  refine ⟨_, h1, ?_⟩
  have hg2 : alookup i (s.gnodes.map
      (fun p => if p.1 = i then (p.1, fG1 p.2) else p)) = some (fG1 g) := by
    rw [alookup_mapUpdate_self, hg]
    rfl
  have h2 : gUpdateNode { s with
      gnodes := s.gnodes.map (fun p => if p.1 = i then (p.1, fG1 p.2) else p) } i fG2 =
      some { s with gnodes := ((s.gnodes.map
        (fun p => if p.1 = i then (p.1, fG1 p.2) else p)).map
        (fun p => if p.1 = i then (p.1, fG2 p.2) else p)) } := by
    unfold gUpdateNode
    rw [if_pos (show (alookup i (s.gnodes.map
      (fun p => if p.1 = i then (p.1, fG1 p.2) else p))).isSome = true by
        rw [hg2]; rfl)]
  refine ⟨_, h2, ?_⟩
  refine ⟨fun j => ?_, fun t => rfl, fun j => rfl, fun t2 => rfl⟩
  show alookup j ((s.gnodes.map (fun p => if p.1 = i then (p.1, fG1 p.2) else p)).map
      (fun p => if p.1 = i then (p.1, fG2 p.2) else p)) = alookup j s.gnodes
  by_cases hj : j = i
  · subst hj
    rw [alookup_mapUpdate_self, alookup_mapUpdate_self, hg]
    show some (fG2 (fG1 g)) = some g
    rw [hrestG]
  · exact (alookup_mapUpdate_ne i j _ _ hj).trans (alookup_mapUpdate_ne i j _ _ hj)

theorem edge_update_once (s : Scene) (t : Int × Int × Int) (ge : GEdgeA)
    (hge : alookup t s.gedges = some ge) (fd1 : EdgeData → EdgeData)
    (fG1 : GEdgeA → GEdgeA) :
    gUpdateEdge (adjustEItem s t (fun it => { it with data := fd1 it.data })) t fG1 =
      some { s with
        gedges := s.gedges.map (fun p => if p.1 = t then (p.1, fG1 p.2) else p),
        eitems := s.eitems.map (fun it =>
          if it.triple = t then { it with data := fd1 it.data } else it) } := by
  unfold gUpdateEdge
  dsimp only [adjustEItem]
  rw [if_pos (show (alookup t s.gedges).isSome = true by rw [hge]; rfl)]

theorem edge_update_roundtrip (s : Scene) (t : Int × Int × Int) (ge : GEdgeA)
    (d0 : EdgeData) (hge : alookup t s.gedges = some ge) (hd0 : eitemObs s t = some d0)
    (fd1 fd2 : EdgeData → EdgeData) (fG1 fG2 : GEdgeA → GEdgeA)
    (hrestD : fd2 (fd1 d0) = d0) (hrestG : fG2 (fG1 ge) = ge) :
    ∃ s2, gUpdateEdge (adjustEItem s t (fun it => { it with data := fd1 it.data })) t
        fG1 = some s2 ∧
      ∃ s3, gUpdateEdge (adjustEItem s2 t (fun it => { it with data := fd2 it.data })) t
          fG2 = some s3 ∧ obsEq s3 s := by
  refine ⟨_, edge_update_once s t ge hge fd1 fG1, ?_⟩
  have hge2 : alookup t (s.gedges.map
      (fun p => if p.1 = t then (p.1, fG1 p.2) else p)) = some (fG1 ge) := by
    rw [alookup_mapUpdate_self, hge]
    rfl
  refine ⟨_, edge_update_once _ t (fG1 ge) hge2 fd2 fG2, ?_⟩
  refine ⟨fun j => rfl, fun j => ?_, fun j => rfl, fun t2 => ?_⟩
  · show alookup j ((s.gedges.map (fun p => if p.1 = t then (p.1, fG1 p.2) else p)).map
        (fun p => if p.1 = t then (p.1, fG2 p.2) else p)) = alookup j s.gedges
    by_cases hj : j = t
    · subst hj
      rw [alookup_mapUpdate_self, alookup_mapUpdate_self, hge]
      show some (fG2 (fG1 ge)) = some ge
      rw [hrestG]
    · exact (alookup_mapUpdate_ne t j _ _ hj).trans (alookup_mapUpdate_ne t j _ _ hj)
  · show (((s.eitems.map (fun it =>
          if it.triple = t then { it with data := fd1 it.data } else it)).map
        (fun it => if it.triple = t then { it with data := fd2 it.data } else it)).find?
          (fun it => it.triple = t2)).map (fun it => it.data) =
      (s.eitems.find? (fun it => it.triple = t2)).map (fun it => it.data)
    rw [find?_adjust_data _ t t2 (fun it => { it with data := fd2 it.data })
      (fun it => rfl)]
    by_cases ht : t2 = t
    · rw [if_pos ht]
      rw [find?_map_triple s.eitems _ (fun it => by
          by_cases hh : it.triple = t
          · rw [if_pos hh]
            rfl
          · rw [if_neg hh]) t2]
      subst ht
      have hd0b : (s.eitems.find? (fun it => it.triple = t2)).map (fun it => it.data) =
          some d0 := hd0
      cases hfind : s.eitems.find? (fun it => it.triple = t2) with
      | none =>
          rw [hfind] at hd0b
          cases hd0b
      | some it1 =>
          rw [hfind] at hd0b
          have hd1 : it1.data = d0 := by
            simp only [Option.map_some'] at hd0b
            exact Option.some.inj hd0b
          have hp1 := List.find?_some hfind
          simp only [decide_eq_true_eq] at hp1
          simp only [Option.map_some']
          rw [show (if it1.triple = t2 then { it1 with data := fd1 it1.data } else it1) =
            { it1 with data := fd1 it1.data } from if_pos hp1]
          show some (fd2 (fd1 it1.data)) = some it1.data
          rw [hd1, hrestD]
    · rw [if_neg ht,
        find?_adjust_data s.eitems t t2 (fun it => { it with data := fd1 it.data })
          (fun it => rfl), if_neg ht]

theorem edge_update_noop (s : Scene) (t : Int × Int × Int) (ge : GEdgeA)
    (d0 : EdgeData) (hge : alookup t s.gedges = some ge) (hd0 : eitemObs s t = some d0)
    (fd1 : EdgeData → EdgeData) (fG1 : GEdgeA → GEdgeA)
    (hrestD : fd1 d0 = d0) (hrestG : fG1 ge = ge) :
    ∃ s2, gUpdateEdge (adjustEItem s t (fun it => { it with data := fd1 it.data })) t
        fG1 = some s2 ∧ obsEq s2 s := by
  refine ⟨_, edge_update_once s t ge hge fd1 fG1, ?_⟩
  refine ⟨fun j => rfl, fun j => ?_, fun j => rfl, fun t2 => ?_⟩
  · show alookup j (s.gedges.map (fun p => if p.1 = t then (p.1, fG1 p.2) else p)) =
      alookup j s.gedges
    by_cases hj : j = t
    · subst hj
      rw [alookup_mapUpdate_self, hge]
      show some (fG1 ge) = some ge
      rw [hrestG]
    · exact alookup_mapUpdate_ne t j _ _ hj
  · show ((s.eitems.map (fun it =>
        if it.triple = t then { it with data := fd1 it.data } else it)).find?
          (fun it => it.triple = t2)).map (fun it => it.data) =
      (s.eitems.find? (fun it => it.triple = t2)).map (fun it => it.data)
    rw [find?_adjust_data s.eitems t t2 (fun it => { it with data := fd1 it.data })
      (fun it => rfl)]
    by_cases ht : t2 = t
    · rw [if_pos ht]
      subst ht
      have hd0b : (s.eitems.find? (fun it => it.triple = t2)).map (fun it => it.data) =
          some d0 := hd0
      cases hfind : s.eitems.find? (fun it => it.triple = t2) with
      | none => rfl
      | some it1 =>
          rw [hfind] at hd0b
          have hd1 : it1.data = d0 := by
            simp only [Option.map_some'] at hd0b
            exact Option.some.inj hd0b
          simp only [Option.map_some']
          show some (fd1 it1.data) = some it1.data
          rw [hd1, hrestD]
    · rw [if_neg ht]

theorem gedge_update_roundtrip (s : Scene) (t : Int × Int × Int) (ge : GEdgeA)
    (hge : alookup t s.gedges = some ge) (fG1 fG2 : GEdgeA → GEdgeA)
    (hrestG : fG2 (fG1 ge) = ge) :
    ∃ s2, gUpdateEdge s t fG1 = some s2 ∧
      ∃ s3, gUpdateEdge s2 t fG2 = some s3 ∧ obsEq s3 s := by
  have h1 : gUpdateEdge s t fG1 = some { s with
      gedges := s.gedges.map (fun p => if p.1 = t then (p.1, fG1 p.2) else p) } := by
    unfold gUpdateEdge
    rw [if_pos (show (alookup t s.gedges).isSome = true by rw [hge]; rfl)]
  refine ⟨_, h1, ?_⟩
  have hge2 : alookup t (s.gedges.map
      (fun p => if p.1 = t then (p.1, fG1 p.2) else p)) = some (fG1 ge) := by
    rw [alookup_mapUpdate_self, hge]
    rfl
  have h2 : gUpdateEdge { s with
      gedges := s.gedges.map (fun p => if p.1 = t then (p.1, fG1 p.2) else p) } t fG2 =
      some { s with gedges := ((s.gedges.map
        (fun p => if p.1 = t then (p.1, fG1 p.2) else p)).map
        (fun p => if p.1 = t then (p.1, fG2 p.2) else p)) } := by
    unfold gUpdateEdge
    rw [if_pos (show (alookup t (s.gedges.map
      (fun p => if p.1 = t then (p.1, fG1 p.2) else p))).isSome = true by
        rw [hge2]; rfl)]
  refine ⟨_, h2, ?_⟩
  refine ⟨fun j => rfl, fun j => ?_, fun j => rfl, fun t2 => rfl⟩
  show alookup j ((s.gedges.map (fun p => if p.1 = t then (p.1, fG1 p.2) else p)).map
      (fun p => if p.1 = t then (p.1, fG2 p.2) else p)) = alookup j s.gedges
  by_cases hj : j = t
  · subst hj
    rw [alookup_mapUpdate_self, alookup_mapUpdate_self, hge]
    show some (fG2 (fG1 ge)) = some ge
    rw [hrestG]
  · exact (alookup_mapUpdate_ne t j _ _ hj).trans (alookup_mapUpdate_ne t j _ _ hj)

/-! ### Per-command round-trip lemmas -/

theorem alookup_double_mapUpdate {κ ν : Type} [DecidableEq κ] (i : κ) (l : List (κ × ν))
    (n0 : ν) (hn0 : alookup i l = some n0) (f1 f2 : ν → ν) (hrest : f2 (f1 n0) = n0) :
    ∀ j, alookup j ((l.map (fun p => if p.1 = i then (p.1, f1 p.2) else p)).map
      (fun p => if p.1 = i then (p.1, f2 p.2) else p)) = alookup j l := by
  intro j
  by_cases hj : j = i
  · subst hj
    rw [alookup_mapUpdate_self, alookup_mapUpdate_self, hn0]
    show some (f2 (f1 n0)) = some n0
    rw [hrest]
  · exact (alookup_mapUpdate_ne i j _ _ hj).trans (alookup_mapUpdate_ne i j _ _ hj)

theorem eitems_double_update (l : List EItem) (t : Int × Int × Int) (d0 : EdgeData)
    (hd0 : (l.find? (fun it => it.triple = t)).map (fun it => it.data) = some d0)
    (f1 f2 : EItem → EItem) (hf1 : ∀ it, (f1 it).triple = it.triple)
    (hf2 : ∀ it, (f2 it).triple = it.triple)
    (hrest : ∀ it, it.data = d0 → (f2 (f1 it)).data = it.data) :
    ∀ t2, (((l.map (fun it => if it.triple = t then f1 it else it)).map
        (fun it => if it.triple = t then f2 it else it)).find?
          (fun it => it.triple = t2)).map (fun it => it.data) =
      (l.find? (fun it => it.triple = t2)).map (fun it => it.data) := by
  intro t2
  rw [find?_adjust_data _ t t2 f2 hf2]
  by_cases ht : t2 = t
  · rw [if_pos ht]
    rw [find?_map_triple l _ (fun it => by
        by_cases hh : it.triple = t
        · rw [if_pos hh]
          exact hf1 it
        · rw [if_neg hh]) t2]
    subst ht
    cases hfind : l.find? (fun it => it.triple = t2) with
    | none =>
        rw [hfind] at hd0
        cases hd0
    | some it1 =>
        rw [hfind] at hd0
        have hd1 : it1.data = d0 := by
          simp only [Option.map_some'] at hd0
          exact Option.some.inj hd0
        have hp1 := List.find?_some hfind
        simp only [decide_eq_true_eq] at hp1
        simp only [Option.map_some']
        rw [show (if it1.triple = t2 then f1 it1 else it1) = f1 it1 from if_pos hp1]
        show some ((f2 (f1 it1)).data) = some it1.data
        rw [hrest it1 hd1]
  · rw [if_neg ht, find?_adjust_data l t t2 f1 hf1, if_neg ht]

theorem undo_renameNode (s : Scene) (i : Int) (o n : String) (n0 : NItem)
    (hn0 : alookup i s.nitems = some n0) (hold : n0.data.name = o) :
    ∃ c2 s2 s3, execCmd s (.renameNode i o n) = some (c2, s2) ∧
      undoCmd s2 c2 = some s3 ∧ obsEq s3 s := by
  refine ⟨.renameNode i o n, _, _, rfl, rfl, ?_⟩
  refine ⟨fun j => rfl, fun t => rfl, fun j => ?_, fun t2 => rfl⟩
  exact alookup_double_mapUpdate i s.nitems n0 hn0
    (fun it => { it with data.name := n }) (fun it => { it with data.name := o })
    (by
      show ({ n0 with data.name := o } : NItem) = n0
      obtain ⟨⟨nm, sts, shp, sz⟩, ps⟩ := n0
      have h2 : nm = o := hold
      rw [h2]) j

theorem undo_renameEdge (s : Scene) (u v k : Int) (o n : String) (d0 : EdgeData)
    (hd0 : eitemObs s (u, v, k) = some d0) (hold : d0.name = o) :
    ∃ c2 s2 s3, execCmd s (.renameEdge u v k o n) = some (c2, s2) ∧
      undoCmd s2 c2 = some s3 ∧ obsEq s3 s := by
  refine ⟨.renameEdge u v k o n, _, _, rfl, rfl, ?_⟩
  refine ⟨fun j => rfl, fun j => rfl, fun j => rfl, fun t2 => ?_⟩
  exact eitems_double_update s.eitems (u, v, k) d0 hd0
    (fun it => { it with data.name := n }) (fun it => { it with data.name := o })
    (fun it => rfl) (fun it => rfl)
    (fun it hd1 => by
      show ({ it.data with name := o } : EdgeData) = it.data
      rw [hd1]
      obtain ⟨nm, w, ud, bd⟩ := d0
      have h2 : nm = o := hold
      rw [h2]) t2

theorem undo_moveNode (s : Scene) (i : Int) (op np : ℚ × ℚ) (g : GNodeA) (n0 : NItem)
    (hg : alookup i s.gnodes = some g) (hn0 : alookup i s.nitems = some n0)
    (hgp : g.position = op) (hnp : n0.pos = op) :
    ∃ c2 s2 s3, execCmd s (.moveNode i op np) = some (c2, s2) ∧
      undoCmd s2 c2 = some s3 ∧ obsEq s3 s := by
  have hc1 : ((alookup i s.nitems).isSome && (alookup i s.gnodes).isSome) = true := by
    rw [hn0, hg]
    rfl
  have hred1 : applyMove s i np = some { s with
      gnodes := s.gnodes.map (fun p =>
        if p.1 = i then (p.1, { p.2 with position := np }) else p),
      nitems := s.nitems.map (fun p =>
        if p.1 = i then (p.1, { p.2 with pos := np }) else p),
      applying_command := false } := by
    unfold applyMove
    rw [if_pos hc1]
    rfl
  have hs1 : alookup i (s.nitems.map (fun p =>
      if p.1 = i then (p.1, ({ p.2 with pos := np } : NItem)) else p)) =
      some { n0 with pos := np } :=
    (alookup_mapUpdate_self i (fun it : NItem => { it with pos := np })
      s.nitems).trans (by rw [hn0]; rfl)
  have hs2 : alookup i (s.gnodes.map (fun p =>
      if p.1 = i then (p.1, ({ p.2 with position := np } : GNodeA)) else p)) =
      some { g with position := np } :=
    (alookup_mapUpdate_self i (fun g2 : GNodeA => { g2 with position := np })
      s.gnodes).trans (by rw [hg]; rfl)
  have hc2 : ((alookup i (s.nitems.map (fun p =>
        if p.1 = i then (p.1, ({ p.2 with pos := np } : NItem)) else p))).isSome &&
      (alookup i (s.gnodes.map (fun p =>
        if p.1 = i then (p.1, ({ p.2 with position := np } : GNodeA)) else p))).isSome) =
        true := by
    rw [hs1, hs2]
    rfl
  have hred2 : applyMove { s with
      gnodes := s.gnodes.map (fun p =>
        if p.1 = i then (p.1, { p.2 with position := np }) else p),
      nitems := s.nitems.map (fun p =>
        if p.1 = i then (p.1, { p.2 with pos := np }) else p),
      applying_command := false } i op = some { s with
      gnodes := ((s.gnodes.map (fun p =>
        if p.1 = i then (p.1, { p.2 with position := np }) else p)).map (fun p =>
        if p.1 = i then (p.1, { p.2 with position := op }) else p)),
      nitems := ((s.nitems.map (fun p =>
        if p.1 = i then (p.1, { p.2 with pos := np }) else p)).map (fun p =>
        if p.1 = i then (p.1, { p.2 with pos := op }) else p)),
      applying_command := false } := by
    unfold applyMove
    rw [if_pos hc2]
    rfl
  refine ⟨.moveNode i op np, { s with
      gnodes := s.gnodes.map (fun p =>
        if p.1 = i then (p.1, { p.2 with position := np }) else p),
      nitems := s.nitems.map (fun p =>
        if p.1 = i then (p.1, { p.2 with pos := np }) else p),
      applying_command := false }, { s with
      gnodes := ((s.gnodes.map (fun p =>
        if p.1 = i then (p.1, { p.2 with position := np }) else p)).map (fun p =>
        if p.1 = i then (p.1, { p.2 with position := op }) else p)),
      nitems := ((s.nitems.map (fun p =>
        if p.1 = i then (p.1, { p.2 with pos := np }) else p)).map (fun p =>
        if p.1 = i then (p.1, { p.2 with pos := op }) else p)),
      applying_command := false }, ?_, ?_, ?_⟩
  · simp only [execCmd]
    rw [hred1]
    rfl
  · exact hred2
  · refine ⟨fun j => ?_, fun t => rfl, fun j => ?_, fun t2 => rfl⟩
    · exact alookup_double_mapUpdate i s.gnodes g hg
        (fun g2 => { g2 with position := np }) (fun g2 => { g2 with position := op })
        (by
          show ({ g with position := op } : GNodeA) = g
          obtain ⟨nm, sts, shp, sz, ps, nt, ds⟩ := g
          have h2 : ps = op := hgp
          rw [← h2]) j
    · exact alookup_double_mapUpdate i s.nitems n0 hn0
        (fun it => { it with pos := np }) (fun it => { it with pos := op })
        (by
          show ({ n0 with pos := op } : NItem) = n0
          obtain ⟨d1, ps⟩ := n0
          have h2 : ps = op := hnp
          rw [← h2]) j

theorem undo_changeNodeProp (s : Scene) (i : Int) (prop : String) (o n : PyVal)
    (g : GNodeA) (n0 : NItem)
    (hg : alookup i s.gnodes = some g) (hn0 : alookup i s.nitems = some n0)
    (hname : prop = "name" → pyStr o = g.name ∧ pyStr o = n0.data.name)
    (hstates : prop = "states" → pyListOf o = g.states ∧ pyListOf o = n0.data.states)
    (hshape : prop = "shape" → pyStr o = g.shape ∧ pyStr o = n0.data.shape)
    (hsize : prop = "size" → pyFloat o = some g.size ∧ n0.data.size = g.size)
    (htype : prop = "node_type" → g.node_type = some o)
    (hdesc : prop = "description" → g.description = some o) :
    ∃ c2 s2 s3, execCmd s (.changeNodeProp i prop o n) = some (c2, s2) ∧
      undoCmd s2 c2 = some s3 ∧ obsEq s3 s := by
  by_cases h1 : prop = "name"
  · subst h1
    obtain ⟨hG, hI⟩ := hname rfl
    obtain ⟨s2, h2, s3, h3, hobs⟩ := node_update_roundtrip s i g n0 hg hn0
      (fun it => { it with data.name := pyStr n })
      (fun it => { it with data.name := pyStr o })
      (fun g2 => { g2 with name := pyStr n }) (fun g2 => { g2 with name := pyStr o })
      (by
        show ({ n0 with data.name := pyStr o } : NItem) = n0
        obtain ⟨⟨nm, sts, shp, sz⟩, ps⟩ := n0
        have h4 : pyStr o = nm := hI
        rw [← h4])
      (by
        show ({ g with name := pyStr o } : GNodeA) = g
        obtain ⟨nm, sts, shp, sz, ps, nt, ds⟩ := g
        have h4 : pyStr o = nm := hG
        rw [← h4])
    refine ⟨.changeNodeProp i "name" o n, s2, s3, ?_, ?_, hobs⟩
    · simp only [execCmd]
      rw [(applyNodeProp_name s i n).trans h2]
      rfl
    · show applyNodeProp s2 i "name" o = some s3
      exact (applyNodeProp_name s2 i o).trans h3
  by_cases h2p : prop = "states"
  · subst h2p
    obtain ⟨hG, hI⟩ := hstates rfl
    obtain ⟨s2, h2, s3, h3, hobs⟩ := node_update_roundtrip s i g n0 hg hn0
      (fun it => { it with data.states := pyListOf n })
      (fun it => { it with data.states := pyListOf o })
      (fun g2 => { g2 with states := pyListOf n })
      (fun g2 => { g2 with states := pyListOf o })
      (by
        show ({ n0 with data.states := pyListOf o } : NItem) = n0
        obtain ⟨⟨nm, sts, shp, sz⟩, ps⟩ := n0
        have h4 : pyListOf o = sts := hI
        rw [← h4])
      (by
        show ({ g with states := pyListOf o } : GNodeA) = g
        obtain ⟨nm, sts, shp, sz, ps, nt, ds⟩ := g
        have h4 : pyListOf o = sts := hG
        rw [← h4])
    refine ⟨.changeNodeProp i "states" o n, s2, s3, ?_, ?_, hobs⟩
    · simp only [execCmd]
      rw [(applyNodeProp_states s i n).trans h2]
      rfl
    · show applyNodeProp s2 i "states" o = some s3
      exact (applyNodeProp_states s2 i o).trans h3
  by_cases h3p : prop = "shape"
  · subst h3p
    obtain ⟨hG, hI⟩ := hshape rfl
    obtain ⟨s2, h2, s3, h3, hobs⟩ := node_update_roundtrip s i g n0 hg hn0
      (fun it => { it with data.shape := pyStr n })
      (fun it => { it with data.shape := pyStr o })
      (fun g2 => { g2 with shape := pyStr n }) (fun g2 => { g2 with shape := pyStr o })
      (by
        show ({ n0 with data.shape := pyStr o } : NItem) = n0
        obtain ⟨⟨nm, sts, shp, sz⟩, ps⟩ := n0
        have h4 : pyStr o = shp := hI
        rw [← h4])
      (by
        show ({ g with shape := pyStr o } : GNodeA) = g
        obtain ⟨nm, sts, shp, sz, ps, nt, ds⟩ := g
        have h4 : pyStr o = shp := hG
        rw [← h4])
    refine ⟨.changeNodeProp i "shape" o n, s2, s3, ?_, ?_, hobs⟩
    · simp only [execCmd]
      rw [(applyNodeProp_shape s i n).trans h2]
      rfl
    · show applyNodeProp s2 i "shape" o = some s3
      exact (applyNodeProp_shape s2 i o).trans h3
  by_cases h4p : prop = "size"
  · subst h4p
    obtain ⟨hO, hI⟩ := hsize rfl
    have hrI : ({ n0 with data.size := g.size } : NItem) = n0 := by
      obtain ⟨⟨nm, sts, shp, sz⟩, ps⟩ := n0
      have h4 : sz = g.size := hI
      rw [← h4]
    have hrG : ({ g with size := g.size } : GNodeA) = g := by
      obtain ⟨nm, sts, shp, sz, ps, nt, ds⟩ := g
      rfl
    cases hn2 : pyFloat n with
    | none =>
        obtain ⟨s3, h3, hobs⟩ := node_update_noop s i g n0 hg hn0
          (fun it => { it with data.size := g.size })
          (fun g2 => { g2 with size := g.size }) hrI hrG
        refine ⟨.changeNodeProp i "size" o n, s, s3, ?_, ?_, hobs⟩
        · simp only [execCmd]
          rw [applyNodeProp_size, hn2]
          rfl
        · show applyNodeProp s i "size" o = some s3
          rw [applyNodeProp_size, hO]
          exact h3
    | some q =>
        obtain ⟨s2, h2, s3, h3, hobs⟩ := node_update_roundtrip s i g n0 hg hn0
          (fun it => { it with data.size := q })
          (fun it => { it with data.size := g.size })
          (fun g2 => { g2 with size := q }) (fun g2 => { g2 with size := g.size })
          (by
            show ({ n0 with data.size := g.size } : NItem) = n0
            exact hrI)
          (by
            show ({ g with size := g.size } : GNodeA) = g
            exact hrG)
        refine ⟨.changeNodeProp i "size" o n, s2, s3, ?_, ?_, hobs⟩
        · simp only [execCmd]
          have h2b : applyNodeProp s i "size" n = some s2 := by
            rw [applyNodeProp_size, hn2]
            exact h2
          rw [h2b]
          rfl
        · show applyNodeProp s2 i "size" o = some s3
          rw [applyNodeProp_size, hO]
          exact h3
  by_cases h5p : prop = "node_type"
  · subst h5p
    have hT := htype rfl
    obtain ⟨s2, h2, s3, h3, hobs⟩ := gnode_update_roundtrip s i g hg
      (fun g2 => { g2 with node_type := some n }) (fun g2 => { g2 with node_type := some o })
      (by
        show ({ g with node_type := some o } : GNodeA) = g
        obtain ⟨nm, sts, shp, sz, ps, nt, ds⟩ := g
        have h4 : nt = some o := hT
        rw [← h4])
    refine ⟨.changeNodeProp i "node_type" o n, s2, s3, ?_, ?_, hobs⟩
    · simp only [execCmd]
      rw [(applyNodeProp_node_type s i n).trans h2]
      rfl
    · show applyNodeProp s2 i "node_type" o = some s3
      exact (applyNodeProp_node_type s2 i o).trans h3
  by_cases h6p : prop = "description"
  · subst h6p
    have hT := hdesc rfl
    obtain ⟨s2, h2, s3, h3, hobs⟩ := gnode_update_roundtrip s i g hg
      (fun g2 => { g2 with description := some n })
      (fun g2 => { g2 with description := some o })
      (by
        show ({ g with description := some o } : GNodeA) = g
        obtain ⟨nm, sts, shp, sz, ps, nt, ds⟩ := g
        have h4 : ds = some o := hT
        rw [← h4])
    refine ⟨.changeNodeProp i "description" o n, s2, s3, ?_, ?_, hobs⟩
    · simp only [execCmd]
      rw [(applyNodeProp_description s i n).trans h2]
      rfl
    · show applyNodeProp s2 i "description" o = some s3
      exact (applyNodeProp_description s2 i o).trans h3
  · refine ⟨.changeNodeProp i prop o n, s, s, ?_, ?_, obsEq_refl s⟩
    · simp only [execCmd]
      rw [applyNodeProp_other s i prop n h1 h2p h3p h4p h5p h6p]
      rfl
    · show applyNodeProp s i prop o = some s
      exact applyNodeProp_other s i prop o h1 h2p h3p h4p h5p h6p

theorem undo_changeEdgeProp (s : Scene) (u v k : Int) (prop : String) (o n : PyVal)
    (ge : GEdgeA) (d0 : EdgeData)
    (hge : alookup (u, v, k) s.gedges = some ge)
    (hd0 : eitemObs s (u, v, k) = some d0)
    (hlabel : prop = "label" → pyStr o = ge.name ∧ pyStr o = d0.name)
    (hlink : prop = "link_type" → ge.link_type = some o)
    (hdesc : prop = "description" → ge.description = some o)
    (hund : prop = "undirected" → pyBool o = ge.undirected ∧ pyBool o = d0.undirected)
    (hbid : prop = "bidirectional" →
      pyBool o = ge.bidirectional ∧ pyBool o = d0.bidirectional)
    (hwei : prop = "weight" → pyFloat o = some ge.weight ∧ d0.weight = ge.weight) :
    ∃ c2 s2 s3, execCmd s (.changeEdgeProp u v k prop o n) = some (c2, s2) ∧
      undoCmd s2 c2 = some s3 ∧ obsEq s3 s := by
  by_cases h1 : prop = "label"
  · subst h1
    obtain ⟨hG, hI⟩ := hlabel rfl
    obtain ⟨s2, h2, s3, h3, hobs⟩ := edge_update_roundtrip s (u, v, k) ge d0 hge hd0
      (fun d => { d with name := pyStr n }) (fun d => { d with name := pyStr o })
      (fun g2 => { g2 with name := pyStr n }) (fun g2 => { g2 with name := pyStr o })
      (by
        show ({ d0 with name := pyStr o } : EdgeData) = d0
        obtain ⟨nm, w, ud, bd⟩ := d0
        have h4 : pyStr o = nm := hI
        rw [← h4])
      (by
        show ({ ge with name := pyStr o } : GEdgeA) = ge
        obtain ⟨nm, w, ud, bd, lt, ds⟩ := ge
        have h4 : pyStr o = nm := hG
        rw [← h4])
    refine ⟨.changeEdgeProp u v k "label" o n, s2, s3, ?_, ?_, hobs⟩
    · simp only [execCmd]
      rw [(applyEdgeProp_label s (u, v, k) n).trans h2]
      rfl
    · show applyEdgeProp s2 (u, v, k) "label" o = some s3
      exact (applyEdgeProp_label s2 (u, v, k) o).trans h3
  by_cases h2p : prop = "link_type"
  · subst h2p
    have hT := hlink rfl
    obtain ⟨s2, h2, s3, h3, hobs⟩ := gedge_update_roundtrip s (u, v, k) ge hge
      (fun g2 => { g2 with link_type := some n })
      (fun g2 => { g2 with link_type := some o })
      (by
        show ({ ge with link_type := some o } : GEdgeA) = ge
        obtain ⟨nm, w, ud, bd, lt, ds⟩ := ge
        have h4 : lt = some o := hT
        rw [← h4])
    refine ⟨.changeEdgeProp u v k "link_type" o n, s2, s3, ?_, ?_, hobs⟩
    · simp only [execCmd]
      rw [(applyEdgeProp_link_type s (u, v, k) n).trans h2]
      rfl
    · show applyEdgeProp s2 (u, v, k) "link_type" o = some s3
      exact (applyEdgeProp_link_type s2 (u, v, k) o).trans h3
  by_cases h3p : prop = "description"
  · subst h3p
    have hT := hdesc rfl
    obtain ⟨s2, h2, s3, h3, hobs⟩ := gedge_update_roundtrip s (u, v, k) ge hge
      (fun g2 => { g2 with description := some n })
      (fun g2 => { g2 with description := some o })
      (by
        show ({ ge with description := some o } : GEdgeA) = ge
        obtain ⟨nm, w, ud, bd, lt, ds⟩ := ge
        have h4 : ds = some o := hT
        rw [← h4])
    refine ⟨.changeEdgeProp u v k "description" o n, s2, s3, ?_, ?_, hobs⟩
    · simp only [execCmd]
      rw [(applyEdgeProp_description s (u, v, k) n).trans h2]
      rfl
    · show applyEdgeProp s2 (u, v, k) "description" o = some s3
      exact (applyEdgeProp_description s2 (u, v, k) o).trans h3
  by_cases h4p : prop = "undirected"
  · subst h4p
    obtain ⟨hG, hI⟩ := hund rfl
    obtain ⟨s2, h2, s3, h3, hobs⟩ := edge_update_roundtrip s (u, v, k) ge d0 hge hd0
      (fun d => { d with undirected := pyBool n })
      (fun d => { d with undirected := pyBool o })
      (fun g2 => { g2 with undirected := pyBool n })
      (fun g2 => { g2 with undirected := pyBool o })
      (by
        show ({ d0 with undirected := pyBool o } : EdgeData) = d0
        obtain ⟨nm, w, ud, bd⟩ := d0
        have h4 : pyBool o = ud := hI
        rw [← h4])
      (by
        show ({ ge with undirected := pyBool o } : GEdgeA) = ge
        obtain ⟨nm, w, ud, bd, lt, ds⟩ := ge
        have h4 : pyBool o = ud := hG
        rw [← h4])
    refine ⟨.changeEdgeProp u v k "undirected" o n, s2, s3, ?_, ?_, hobs⟩
    · simp only [execCmd]
      rw [(applyEdgeProp_undirected s (u, v, k) n).trans h2]
      rfl
    · show applyEdgeProp s2 (u, v, k) "undirected" o = some s3
      exact (applyEdgeProp_undirected s2 (u, v, k) o).trans h3
  by_cases h5p : prop = "bidirectional"
  · subst h5p
    obtain ⟨hG, hI⟩ := hbid rfl
    obtain ⟨s2, h2, s3, h3, hobs⟩ := edge_update_roundtrip s (u, v, k) ge d0 hge hd0
      (fun d => { d with bidirectional := pyBool n })
      (fun d => { d with bidirectional := pyBool o })
      (fun g2 => { g2 with bidirectional := pyBool n })
      (fun g2 => { g2 with bidirectional := pyBool o })
      (by
        show ({ d0 with bidirectional := pyBool o } : EdgeData) = d0
        obtain ⟨nm, w, ud, bd⟩ := d0
        have h4 : pyBool o = bd := hI
        rw [← h4])
      (by
        show ({ ge with bidirectional := pyBool o } : GEdgeA) = ge
        obtain ⟨nm, w, ud, bd, lt, ds⟩ := ge
        have h4 : pyBool o = bd := hG
        rw [← h4])
    refine ⟨.changeEdgeProp u v k "bidirectional" o n, s2, s3, ?_, ?_, hobs⟩
    · simp only [execCmd]
      rw [(applyEdgeProp_bidirectional s (u, v, k) n).trans h2]
      rfl
    · show applyEdgeProp s2 (u, v, k) "bidirectional" o = some s3
      exact (applyEdgeProp_bidirectional s2 (u, v, k) o).trans h3
  by_cases h6p : prop = "weight"
  · subst h6p
    obtain ⟨hO, hI⟩ := hwei rfl
    have hrI : ({ d0 with weight := ge.weight } : EdgeData) = d0 := by
      obtain ⟨nm, w, ud, bd⟩ := d0
      have h4 : w = ge.weight := hI
      rw [← h4]
    have hrG : ({ ge with weight := ge.weight } : GEdgeA) = ge := by
      obtain ⟨nm, w, ud, bd, lt, ds⟩ := ge
      rfl
    cases hn2 : pyFloat n with
    | none =>
        obtain ⟨s3, h3, hobs⟩ := edge_update_noop s (u, v, k) ge d0 hge hd0
          (fun d => { d with weight := ge.weight })
          (fun g2 => { g2 with weight := ge.weight }) hrI hrG
        refine ⟨.changeEdgeProp u v k "weight" o n, s, s3, ?_, ?_, hobs⟩
        · simp only [execCmd]
          rw [applyEdgeProp_weight, hn2]
          rfl
        · show applyEdgeProp s (u, v, k) "weight" o = some s3
          rw [applyEdgeProp_weight, hO]
          exact h3
    | some q =>
        obtain ⟨s2, h2, s3, h3, hobs⟩ := edge_update_roundtrip s (u, v, k) ge d0 hge hd0
          (fun d => { d with weight := q }) (fun d => { d with weight := ge.weight })
          (fun g2 => { g2 with weight := q }) (fun g2 => { g2 with weight := ge.weight })
          (by
            show ({ d0 with weight := ge.weight } : EdgeData) = d0
            exact hrI)
          (by
            show ({ ge with weight := ge.weight } : GEdgeA) = ge
            exact hrG)
        refine ⟨.changeEdgeProp u v k "weight" o n, s2, s3, ?_, ?_, hobs⟩
        · simp only [execCmd]
          have h2b : applyEdgeProp s (u, v, k) "weight" n = some s2 := by
            rw [applyEdgeProp_weight, hn2]
            exact h2
          rw [h2b]
          rfl
        · show applyEdgeProp s2 (u, v, k) "weight" o = some s3
          rw [applyEdgeProp_weight, hO]
          exact h3
  · refine ⟨.changeEdgeProp u v k prop o n, s, s, ?_, ?_, obsEq_refl s⟩
    · simp only [execCmd]
      rw [applyEdgeProp_other s (u, v, k) prop n h1 h2p h3p h4p h5p h6p]
      rfl
    · show applyEdgeProp s (u, v, k) prop o = some s
      exact applyEdgeProp_other s (u, v, k) prop o h1 h2p h3p h4p h5p h6p

theorem undo_addNode (s : Scene) (pos : ℚ × ℚ) (dat : NodeData) (nid : Option Int)
    (hwf : SceneWf s) :
    ∃ c2 s2 s3, execCmd s (.addNode pos dat nid) = some (c2, s2) ∧
      undoCmd s2 c2 = some s3 ∧ obsEq s3 s := by
  obtain ⟨hnd1, hnd2, hnd3, hnd4, h5, h6, h7, h8, h9, h10, h11⟩ := hwf
  have hfresh : alookup (allocNodeId s) s.gnodes = none := allocNodeId_fresh s
  have hfreshN : alookup (allocNodeId s) s.nitems = none := by
    cases ho : alookup (allocNodeId s) s.nitems with
    | none => rfl
    | some q0 =>
        exfalso
        have hmem := alookup_some_mem _ _ _ ho
        have hx := h6 _ hmem
        rw [hfresh] at hx
        cases hx
  have hnotouch : ∀ it ∈ s.eitems,
      (!(decide (it.src = allocNodeId s) || decide (it.dst = allocNodeId s))) = true := by
    intro it hit
    have hks := h8 it hit
    have hmm := (alookup_isSome_iff_mem _ _).mp hks
    simp only [akeys, List.mem_map] at hmm
    obtain ⟨p, hp, hpk⟩ := hmm
    have hends := h9 p hp
    have hsrc : ¬ it.src = allocNodeId s := by
      intro he
      have h1 : (alookup p.1.1 s.gnodes).isSome = true := hends.1
      rw [hpk] at h1
      have h1b : (alookup it.src s.gnodes).isSome = true := h1
      rw [he, hfresh] at h1b
      cases h1b
    have hdst : ¬ it.dst = allocNodeId s := by
      intro he
      have h1 : (alookup p.1.2.1 s.gnodes).isSome = true := hends.2
      rw [hpk] at h1
      have h1b : (alookup it.dst s.gnodes).isSome = true := h1
      rw [he, hfresh] at h1b
      cases h1b
    simp [hsrc, hdst]
  have hkeepedges : ∀ p ∈ s.gedges,
      (!(decide (p.1.1 = allocNodeId s) || decide (p.1.2.1 = allocNodeId s))) = true := by
    intro p hp
    have hends := h9 p hp
    have hsrc : ¬ p.1.1 = allocNodeId s := by
      intro he
      have h1 := hends.1
      rw [he, hfresh] at h1
      cases h1
    have hdst : ¬ p.1.2.1 = allocNodeId s := by
      intro he
      have h1 := hends.2
      rw [he, hfresh] at h1
      cases h1
    simp [hsrc, hdst]
  have hgAdd : gAddNode s.gnodes (allocNodeId s) dat pos =
      s.gnodes ++ [(allocNodeId s, coreNode dat pos)] := by
    unfold gAddNode
    rw [if_neg (by simp [hfresh])]
    rfl
  have hpres : (alookup (allocNodeId s)
      (gAddNode s.gnodes (allocNodeId s) dat pos)).isSome = true := by
    rw [hgAdd, alookup_append_single_self _ _ _ hfresh]
    rfl
  refine ⟨.addNode pos dat (some (allocNodeId s)),
    { s with gnodes := gAddNode s.gnodes (allocNodeId s) dat pos,
             nitems := s.nitems ++ [(allocNodeId s, { data := dat, pos := pos })] },
    _, rfl, rfl, ?_⟩
  have hfinal : deleteNodeItemInternal { s with
      gnodes := gAddNode s.gnodes (allocNodeId s) dat pos,
      nitems := s.nitems ++ [(allocNodeId s, { data := dat, pos := pos })] }
      (allocNodeId s) = s := by
    show ({ s with
      eitems := s.eitems.filter (fun it =>
        !(it.src = allocNodeId s || it.dst = allocNodeId s)),
      gnodes := if (alookup (allocNodeId s)
            (gAddNode s.gnodes (allocNodeId s) dat pos)).isSome = true then
          aerase (allocNodeId s) (gAddNode s.gnodes (allocNodeId s) dat pos)
        else gAddNode s.gnodes (allocNodeId s) dat pos,
      gedges := if (alookup (allocNodeId s)
            (gAddNode s.gnodes (allocNodeId s) dat pos)).isSome = true then
          s.gedges.filter (fun p =>
            !(p.1.1 = allocNodeId s || p.1.2.1 = allocNodeId s))
        else s.gedges,
      nitems := aerase (allocNodeId s)
        (s.nitems ++ [(allocNodeId s, { data := dat, pos := pos })]) } : Scene) = s
    rw [if_pos hpres, if_pos hpres, hgAdd, aerase_append_fresh _ _ _ hfresh,
      aerase_append_fresh _ _ _ hfreshN, List.filter_eq_self.mpr hnotouch,
      List.filter_eq_self.mpr hkeepedges]
  rw [hfinal]
  exact obsEq_refl s

theorem eitemObs_mk (g0 : List (Int × GNodeA))
    (ge0 : List ((Int × Int × Int) × GEdgeA)) (ni : List (Int × NItem))
    (ei : List EItem) (em : EdgeMode) (ac : Bool) (t : Int × Int × Int) :
    eitemObs ⟨g0, ge0, ni, ei, em, ac⟩ t =
      (ei.find? (fun it => it.triple = t)).map (fun it => it.data) := rfl

theorem eitemObs_unfold (s : Scene) (t : Int × Int × Int) :
    eitemObs s t =
      (s.eitems.find? (fun it => it.triple = t)).map (fun it => it.data) := rfl

set_option maxHeartbeats 4000000 in
theorem addEdge_obsEq_gen (s : Scene) (u v kA : Int) (dat : EdgeData)
    (hfreshG : alookup (u, v, kA) s.gedges = none)
    (hfreshI : s.eitems.find? (fun it => it.triple = (u, v, kA)) = none) :
    obsEq (deleteEdgeItemInternal
      (createEdgeInternal s u v dat (some kA)).1 u v kA) s := by
  have hgAddE : gAddEdge s.gedges (u, v, kA) dat =
      s.gedges ++ [((u, v, kA), coreEdge dat)] := by
    unfold gAddEdge
    rw [if_neg (by simp [hfreshG])]
    rfl
  have e1 : (createEdgeInternal s u v dat (some kA)).1 = { s with
      gedges := gAddEdge s.gedges (u, v, kA) dat,
      eitems := reflowItems (s.eitems ++
        [{ src := u, dst := v, key := kA, data := dat }]) u v } := rfl
  have e2 : deleteEdgeItemInternal ({ s with
      gedges := gAddEdge s.gedges (u, v, kA) dat,
      eitems := reflowItems (s.eitems ++
        [{ src := u, dst := v, key := kA, data := dat }]) u v } : Scene) u v kA =
      { s with
        gedges := if (alookup (u, v, kA) (gAddEdge s.gedges (u, v, kA) dat)).isSome =
            true then aerase (u, v, kA) (gAddEdge s.gedges (u, v, kA) dat)
          else gAddEdge s.gedges (u, v, kA) dat,
        eitems := reflowItems ((reflowItems (s.eitems ++
            [{ src := u, dst := v, key := kA, data := dat }]) u v).eraseP
          (fun it => it.triple = (u, v, kA))) u v } := rfl
  have hlook : (alookup (u, v, kA)
      (gAddEdge s.gedges (u, v, kA) dat)).isSome = true := by
    rw [hgAddE, alookup_append_single_self _ _ _ hfreshG]
    rfl
  rw [e1, e2, if_pos hlook, hgAddE, aerase_append_fresh _ _ _ hfreshG]
  refine ⟨fun j => rfl, fun t => rfl, fun j => rfl, fun t2 => ?_⟩
  rw [eitemObs_mk, eitemObs_unfold]
  rw [find?_data_reflowItems, find?_data_eraseP_reflow,
    eraseP_append_fresh2 s.eitems
      { src := u, dst := v, key := kA, data := dat }
      (u, v, kA) rfl hfreshI]

theorem addEdge_obsEq (s : Scene) (u v : Int) (dat : EdgeData) (hwf : SceneWf s) :
    obsEq (deleteEdgeItemInternal
      (createEdgeInternal s u v dat (some (allocEdgeKey s u v))).1 u v
      (allocEdgeKey s u v)) s := by
  obtain ⟨hnd1, hnd2, hnd3, hnd4, h5, h6, h7, h8, h9, h10, h11⟩ := hwf
  have hfreshG : alookup (u, v, allocEdgeKey s u v) s.gedges = none :=
    allocEdgeKey_fresh s u v
  have hfreshI : s.eitems.find?
      (fun it => it.triple = (u, v, allocEdgeKey s u v)) = none := by
    cases hf : s.eitems.find? (fun it => it.triple = (u, v, allocEdgeKey s u v)) with
    | none => rfl
    | some it1 =>
        exfalso
        have hmem := List.mem_of_find?_eq_some hf
        have hp := List.find?_some hf
        simp only [decide_eq_true_eq] at hp
        have hx := h8 it1 hmem
        rw [hp, hfreshG] at hx
        cases hx
  exact addEdge_obsEq_gen s u v (allocEdgeKey s u v) dat hfreshG hfreshI

theorem undo_addEdge (s : Scene) (u v : Int) (ed : Option EdgeData) (hwf : SceneWf s) :
    ∃ c2 s2 s3, execCmd s (.addEdge u v ed none none) = some (c2, s2) ∧
      undoCmd s2 c2 = some s3 ∧ obsEq s3 s := by
  cases ed with
  | none =>
      refine ⟨_, _, _, rfl, rfl, ?_⟩
      exact addEdge_obsEq s u v _ hwf
  | some dat =>
      refine ⟨_, _, _, rfl, rfl, ?_⟩
      exact addEdge_obsEq s u v dat hwf

set_option maxHeartbeats 4000000 in
theorem undo_deleteEdge (s : Scene) (u v k : Int) (dat : EdgeData) (ge : GEdgeA)
    (hwf : SceneWf s) (hge : alookup (u, v, k) s.gedges = some ge)
    (hd0 : eitemObs s (u, v, k) = some dat)
    (hlt : ge.link_type = none) (hds : ge.description = none) :
    ∃ c2 s2 s3, execCmd s (.deleteEdge u v dat k) = some (c2, s2) ∧
      undoCmd s2 c2 = some s3 ∧ obsEq s3 s := by
  obtain ⟨hnd1, hnd2, hnd3, hnd4, h5, h6, h7, h8, h9, h10, h11⟩ := hwf
  have hnit : ∀ x : Int, (alookup x s.gnodes).isSome = true →
      (alookup x s.nitems).isSome = true := by
    intro x hx
    have hmm := (alookup_isSome_iff_mem _ _).mp hx
    simp only [akeys, List.mem_map] at hmm
    obtain ⟨p, hp, hpk⟩ := hmm
    have hy := h5 p hp
    rw [hpk] at hy
    exact hy
  have hmem2 := alookup_some_mem _ _ _ hge
  have hends := h9 ((u, v, k), ge) hmem2
  have hguard : ((alookup u s.nitems).isSome && (alookup v s.nitems).isSome) = true := by
    rw [hnit u hends.1, hnit v hends.2]
    rfl
  have hpre : (alookup (u, v, k) s.gedges).isSome = true := by
    rw [hge]
    rfl
  have hgel : alookup (u, v, k) (aerase (u, v, k) s.gedges) = none :=
    alookup_aerase_self _ _ hnd2
  have hcore : coreEdge dat = ge := by
    have hd0b : (s.eitems.find? (fun it => it.triple = (u, v, k))).map
        (fun it => it.data) = some dat := hd0
    cases hfind : s.eitems.find? (fun it => it.triple = (u, v, k)) with
    | none =>
        rw [hfind] at hd0b
        cases hd0b
    | some it1 =>
        rw [hfind] at hd0b
        have hd1 : it1.data = dat := by
          simp only [Option.map_some'] at hd0b
          exact Option.some.inj hd0b
        have hmem1 := List.mem_of_find?_eq_some hfind
        have hp1 := List.find?_some hfind
        simp only [decide_eq_true_eq] at hp1
        have hagree := h11 it1 hmem1 ge (by rw [hp1]; exact hge)
        obtain ⟨nm, w, ud, bd, lt, ds⟩ := ge
        have hb1 : nm = it1.data.name := hagree.1
        have hb2 : w = it1.data.weight := hagree.2.1
        have hb3 : ud = it1.data.undirected := hagree.2.2.1
        have hb4 : bd = it1.data.bidirectional := hagree.2.2.2
        have hlt2 : lt = none := hlt
        have hds2 : ds = none := hds
        rw [hb1, hb2, hb3, hb4, hlt2, hds2, ← hd1]
        rfl
  have e2 : deleteEdgeItemInternal s u v k = { s with
      gedges := if (alookup (u, v, k) s.gedges).isSome = true then
        aerase (u, v, k) s.gedges else s.gedges,
      eitems := reflowItems (s.eitems.eraseP
        (fun it => it.triple = (u, v, k))) u v } := rfl
  have e2b : deleteEdgeItemInternal s u v k = { s with
      gedges := aerase (u, v, k) s.gedges,
      eitems := reflowItems (s.eitems.eraseP
        (fun it => it.triple = (u, v, k))) u v } := by
    rw [e2, if_pos hpre]
  have e3 : (createEdgeInternal ({ s with
      gedges := aerase (u, v, k) s.gedges,
      eitems := reflowItems (s.eitems.eraseP
        (fun it => it.triple = (u, v, k))) u v } : Scene) u v dat (some k)).1 =
      { s with
        gedges := gAddEdge (aerase (u, v, k) s.gedges) (u, v, k) dat,
        eitems := reflowItems ((reflowItems (s.eitems.eraseP
            (fun it => it.triple = (u, v, k))) u v) ++
          [{ src := u, dst := v, key := k, data := dat }]) u v } := rfl
  have hundo : undoCmd (deleteEdgeItemInternal s u v k) (.deleteEdge u v dat k) =
      some (createEdgeInternal (deleteEdgeItemInternal s u v k) u v dat (some k)).1 := by
    rw [e2b]
    have hguard2 : ((alookup u ({ s with
        gedges := aerase (u, v, k) s.gedges,
        eitems := reflowItems (s.eitems.eraseP
          (fun it => it.triple = (u, v, k))) u v } : Scene).nitems).isSome &&
        (alookup v ({ s with
        gedges := aerase (u, v, k) s.gedges,
        eitems := reflowItems (s.eitems.eraseP
          (fun it => it.triple = (u, v, k))) u v } : Scene).nitems).isSome) = true :=
      hguard
    simp only [undoCmd]
    rw [if_pos hguard2]
  refine ⟨.deleteEdge u v dat k, deleteEdgeItemInternal s u v k,
    (createEdgeInternal (deleteEdgeItemInternal s u v k) u v dat (some k)).1,
    rfl, hundo, ?_⟩
  rw [e2b, e3]
  refine ⟨fun j => rfl, fun t2 => ?_, fun j => rfl, fun t2 => ?_⟩
  · show alookup t2 (gAddEdge (aerase (u, v, k) s.gedges) (u, v, k) dat) =
      alookup t2 s.gedges
    have happ : gAddEdge (aerase (u, v, k) s.gedges) (u, v, k) dat =
        aerase (u, v, k) s.gedges ++ [((u, v, k), coreEdge dat)] := by
      unfold gAddEdge
      rw [if_neg (by simp [hgel])]
      rfl
    rw [happ]
    by_cases ht : t2 = (u, v, k)
    · rw [ht, alookup_append_single_self _ _ _ hgel, hge, hcore]
    · rw [alookup_append_single_ne _ _ _ _ (fun hh => ht hh.symm),
        alookup_aerase_ne _ _ _ ht]
  · show ((reflowItems ((reflowItems (s.eitems.eraseP
        (fun it => it.triple = (u, v, k))) u v) ++
        [{ src := u, dst := v, key := k, data := dat }]) u v).find?
          (fun it => it.triple = t2)).map (fun it => it.data) =
      (s.eitems.find? (fun it => it.triple = t2)).map (fun it => it.data)
    rw [find?_data_reflowItems, find?_append_or, ofirst_map, find?_data_reflowItems]
    by_cases ht : t2 = (u, v, k)
    · rw [ht, find?_eraseP_self_nodup s.eitems (u, v, k) hnd4]
      rw [show ([({ src := u, dst := v, key := k, data := dat } : EItem)].find?
          (fun it => it.triple = (u, v, k))).map (fun it => it.data) = some dat from by
        rw [List.find?_cons_of_pos _ (by simp [EItem.triple])]
        rfl]
      rw [show (s.eitems.find? (fun it => it.triple = (u, v, k))).map
        (fun it => it.data) = some dat from hd0]
      rfl
    · rw [find?_eraseP_triple_ne s.eitems (u, v, k) t2 ht]
      have hcc : ¬ (({ src := u, dst := v, key := k, data := dat } : EItem).triple =
          t2) := fun hh => ht hh.symm
      rw [show ([({ src := u, dst := v, key := k, data := dat } : EItem)].find?
          (fun it => it.triple = t2)).map (fun it => it.data) = none from by
        rw [List.find?_cons_of_neg _ (by simpa using hcc)]
        rfl]
      rw [ofirst_none_right]

set_option maxHeartbeats 2000000 in
theorem undo_deleteNode (s : Scene) (i : Int) (dat : NodeData) (pos : ℚ × ℚ)
    (conn0 : List (Int × Int × EdgeData × Int)) (n0 : NItem) (g : GNodeA)
    (hwf : SceneWf s) (hn0 : alookup i s.nitems = some n0)
    (hg : alookup i s.gnodes = some g)
    (hdat : n0.data = dat) (hpos : n0.pos = pos)
    (hclean : g.node_type = none ∧ g.description = none)
    (hecln : ∀ p ∈ s.gedges, (p.1.1 = i ∨ p.1.2.1 = i) →
      p.2.link_type = none ∧ p.2.description = none) :
    ∃ c2 s2 s3, execCmd s (.deleteNode i dat pos conn0) = some (c2, s2) ∧
      undoCmd s2 c2 = some s3 ∧ obsEq s3 s := by
  subst hdat
  subst hpos
  obtain ⟨hnd1, hnd2, hnd3, hnd4, h5, h6, h7, h8, h9, h10, h11⟩ := hwf
  have hpresG : (alookup i s.gnodes).isSome = true := by
    rw [hg]
    rfl
  have hnit : ∀ x : Int, (alookup x s.gnodes).isSome = true →
      (alookup x s.nitems).isSome = true := by
    intro x hx
    have hmm := (alookup_isSome_iff_mem _ _).mp hx
    simp only [akeys, List.mem_map] at hmm
    obtain ⟨p, hp, hpk⟩ := hmm
    have hy := h5 p hp
    rw [hpk] at hy
    exact hy
  have hconnmem : ∀ e ∈ s.eitems.filterMap (fun it =>
      if it.src = i || it.dst = i then some (it.src, it.dst, it.data, it.key)
      else none),
      ∃ it2 ∈ s.eitems, (it2.src = i ∨ it2.dst = i) ∧
        e = (it2.src, it2.dst, it2.data, it2.key) := by
    intro e he
    rw [List.mem_filterMap] at he
    obtain ⟨it2, hit2, hfe⟩ := he
    by_cases hc : (decide (it2.src = i) || decide (it2.dst = i)) = true
    · rw [if_pos hc] at hfe
      cases hfe
      refine ⟨it2, hit2, ?_, rfl⟩
      simpa using hc
    · rw [if_neg hc] at hfe
      cases hfe
  have hfresh2 : alookup i (aerase i s.gnodes) = none := alookup_aerase_self _ _ hnd1
  have ed : deleteNodeItemInternal s i = { s with
      eitems := s.eitems.filter (fun it => !(it.src = i || it.dst = i)),
      gnodes := if (alookup i s.gnodes).isSome = true then aerase i s.gnodes
        else s.gnodes,
      gedges := if (alookup i s.gnodes).isSome = true then
        s.gedges.filter (fun p => !(p.1.1 = i || p.1.2.1 = i)) else s.gedges,
      nitems := aerase i s.nitems } := rfl
  have ed2 : deleteNodeItemInternal s i = { s with
      eitems := s.eitems.filter (fun it => !(it.src = i || it.dst = i)),
      gnodes := aerase i s.gnodes,
      gedges := s.gedges.filter (fun p => !(p.1.1 = i || p.1.2.1 = i)),
      nitems := aerase i s.nitems } := by
    rw [ed, if_pos hpresG, if_pos hpresG]
  have hga : gAddNode (aerase i s.gnodes) i n0.data n0.pos =
      aerase i s.gnodes ++ [(i, coreNode n0.data n0.pos)] := by
    unfold gAddNode
    rw [if_neg (by simp [hfresh2])]
    rfl
  have ec : ∀ Z : Scene, (createNodeInternal Z n0.pos n0.data (some i)).1 = { Z with
      gnodes := gAddNode Z.gnodes i n0.data n0.pos,
      nitems := Z.nitems ++ [(i, { data := n0.data, pos := n0.pos })] } :=
    fun Z => rfl
  have es1 : (createNodeInternal (deleteNodeItemInternal s i) n0.pos n0.data
      (some i)).1 = { s with
      eitems := s.eitems.filter (fun it => !(it.src = i || it.dst = i)),
      gnodes := aerase i s.gnodes ++ [(i, coreNode n0.data n0.pos)],
      gedges := s.gedges.filter (fun p => !(p.1.1 = i || p.1.2.1 = i)),
      nitems := aerase i s.nitems ++ [(i, { data := n0.data, pos := n0.pos })] } := by
    rw [ec, ed2, ← hga]
  -- preconditions of the restore loop
  have habs : ∀ e ∈ s.eitems.filterMap (fun it =>
      if it.src = i || it.dst = i then some (it.src, it.dst, it.data, it.key)
      else none),
      alookup (connTriple e) ({ s with
        eitems := s.eitems.filter (fun it => !(it.src = i || it.dst = i)),
        gnodes := aerase i s.gnodes ++ [(i, coreNode n0.data n0.pos)],
        gedges := s.gedges.filter (fun p => !(p.1.1 = i || p.1.2.1 = i)),
        nitems := aerase i s.nitems ++
          [(i, { data := n0.data, pos := n0.pos })] } : Scene).gedges = none := by
    intro e he
    obtain ⟨it2, hit2, hto, he2⟩ := hconnmem e he
    subst he2
    show alookup (connTriple (it2.src, it2.dst, it2.data, it2.key))
      (s.gedges.filter (fun p => !(p.1.1 = i || p.1.2.1 = i))) = none
    have hflt := alookup_filter_key
      (fun tk : Int × Int × Int => !(tk.1 = i || tk.2.1 = i))
      (connTriple (it2.src, it2.dst, it2.data, it2.key)) s.gedges
    rw [if_neg (by rcases hto with h | h <;> simp [connTriple, h])] at hflt
    exact hflt
  have hitem : ∀ e ∈ s.eitems.filterMap (fun it =>
      if it.src = i || it.dst = i then some (it.src, it.dst, it.data, it.key)
      else none),
      ({ s with
        eitems := s.eitems.filter (fun it => !(it.src = i || it.dst = i)),
        gnodes := aerase i s.gnodes ++ [(i, coreNode n0.data n0.pos)],
        gedges := s.gedges.filter (fun p => !(p.1.1 = i || p.1.2.1 = i)),
        nitems := aerase i s.nitems ++
          [(i, { data := n0.data, pos := n0.pos })] } : Scene).eitems.find?
        (fun it => it.triple = connTriple e) = none := by
    intro e he
    obtain ⟨it2, hit2, hto, he2⟩ := hconnmem e he
    subst he2
    show (s.eitems.filter (fun it => !(it.src = i || it.dst = i))).find?
      (fun it => it.triple = connTriple (it2.src, it2.dst, it2.data, it2.key)) = none
    exact find?_filter_touch_none s.eitems i _ hto
  have hep : ∀ e ∈ s.eitems.filterMap (fun it =>
      if it.src = i || it.dst = i then some (it.src, it.dst, it.data, it.key)
      else none),
      (alookup e.1 ({ s with
        eitems := s.eitems.filter (fun it => !(it.src = i || it.dst = i)),
        gnodes := aerase i s.gnodes ++ [(i, coreNode n0.data n0.pos)],
        gedges := s.gedges.filter (fun p => !(p.1.1 = i || p.1.2.1 = i)),
        nitems := aerase i s.nitems ++
          [(i, { data := n0.data, pos := n0.pos })] } : Scene).nitems).isSome = true ∧
      (alookup e.2.1 ({ s with
        eitems := s.eitems.filter (fun it => !(it.src = i || it.dst = i)),
        gnodes := aerase i s.gnodes ++ [(i, coreNode n0.data n0.pos)],
        gedges := s.gedges.filter (fun p => !(p.1.1 = i || p.1.2.1 = i)),
        nitems := aerase i s.nitems ++
          [(i, { data := n0.data, pos := n0.pos })] } : Scene).nitems).isSome =
        true := by
    intro e he
    obtain ⟨it2, hit2, hto, he2⟩ := hconnmem e he
    subst he2
    have hsg : (alookup it2.src s.gnodes).isSome = true ∧
        (alookup it2.dst s.gnodes).isSome = true := by
      have hks := h8 it2 hit2
      have hmm := (alookup_isSome_iff_mem _ _).mp hks
      simp only [akeys, List.mem_map] at hmm
      obtain ⟨p, hp, hpk⟩ := hmm
      have hends := h9 p hp
      constructor
      · have h1 := hends.1
        rw [hpk] at h1
        exact h1
      · have h1 := hends.2
        rw [hpk] at h1
        exact h1
    have hone : ∀ x : Int, (alookup x s.gnodes).isSome = true →
        (alookup x (aerase i s.nitems ++
          [(i, ({ data := n0.data, pos := n0.pos } : NItem))])).isSome = true := by
      intro x hx
      by_cases hxi : x = i
      · rw [hxi, alookup_append_single_self _ _ _ (alookup_aerase_self _ _ hnd3)]
        rfl
      · rw [alookup_append_single_ne _ _ _ _ (fun hh => hxi hh.symm),
          alookup_aerase_ne _ _ _ hxi]
        exact hnit x hx
    exact ⟨hone it2.src hsg.1, hone it2.dst hsg.2⟩
  have hndc : ((s.eitems.filterMap (fun it =>
      if it.src = i || it.dst = i then some (it.src, it.dst, it.data, it.key)
      else none)).map connTriple).Nodup := by
    rw [connList_triples]
    exact List.Nodup.sublist
      (List.Sublist.map EItem.triple (List.filter_sublist s.eitems)) hnd4
  obtain ⟨hFg, hFn, hFge, hFit⟩ := foldl_connStep_spec
    (s.eitems.filterMap (fun it =>
      if it.src = i || it.dst = i then some (it.src, it.dst, it.data, it.key)
      else none)) _ habs hitem hep hndc
  have hNoTouchNone : ∀ t2 : Int × Int × Int, ¬ (t2.1 = i ∨ t2.2.1 = i) →
      alookup t2 (connMap (s.eitems.filterMap (fun it =>
        if it.src = i || it.dst = i then some (it.src, it.dst, it.data, it.key)
        else none))) = none := by
    intro t2 hnt
    apply alookup_connMap_none
    rw [connList_triples]
    intro hm
    rw [List.mem_map] at hm
    obtain ⟨it2, hit2, htr⟩ := hm
    rw [List.mem_filter] at hit2
    have hc := hit2.2
    simp only [Bool.or_eq_true, decide_eq_true_eq] at hc
    apply hnt
    rcases hc with h | h
    · refine Or.inl ?_
      rw [← htr]
      exact h
    · refine Or.inr ?_
      rw [← htr]
      exact h
  refine ⟨.deleteNode i n0.data n0.pos (s.eitems.filterMap (fun it =>
      if it.src = i || it.dst = i then some (it.src, it.dst, it.data, it.key)
      else none)),
    deleteNodeItemInternal s i,
    (s.eitems.filterMap (fun it =>
      if it.src = i || it.dst = i then some (it.src, it.dst, it.data, it.key)
      else none)).foldl connStep
      (createNodeInternal (deleteNodeItemInternal s i) n0.pos n0.data (some i)).1,
    ?_, ?_, ?_⟩
  · rfl
  · rfl
  rw [es1]
  refine ⟨fun j => ?_, fun t2 => ?_, fun j => ?_, fun t2 => ?_⟩
  · rw [hFg]
    show alookup j (aerase i s.gnodes ++ [(i, coreNode n0.data n0.pos)]) =
      alookup j s.gnodes
    by_cases hj : j = i
    · rw [hj, alookup_append_single_self _ _ _ hfresh2, hg]
      have hq := alookup_some_mem _ _ _ hn0
      have hagree := h10 (i, n0) hq g hg
      obtain ⟨nm, sts, shp, sz, ps, nt, ds⟩ := g
      have hb1 : nm = n0.data.name := hagree.1
      have hb2 : sts = n0.data.states := hagree.2.1
      have hb3 : shp = n0.data.shape := hagree.2.2.1
      have hb4 : sz = n0.data.size := hagree.2.2.2.1
      have hb5 : ps = n0.pos := hagree.2.2.2.2
      have hb6 : nt = none := hclean.1
      have hb7 : ds = none := hclean.2
      rw [hb1, hb2, hb3, hb4, hb5, hb6, hb7]
      rfl
    · rw [alookup_append_single_ne _ _ _ _ (fun hh => hj hh.symm),
        alookup_aerase_ne _ _ _ hj]
  · rw [hFge t2,
      show ({ s with
        eitems := s.eitems.filter (fun it => !(it.src = i || it.dst = i)),
        gnodes := aerase i s.gnodes ++ [(i, coreNode n0.data n0.pos)],
        gedges := s.gedges.filter (fun p => !(p.1.1 = i || p.1.2.1 = i)),
        nitems := aerase i s.nitems ++
          [(i, { data := n0.data, pos := n0.pos })] } : Scene).gedges =
        s.gedges.filter (fun p => !(p.1.1 = i || p.1.2.1 = i)) from rfl]
    by_cases htouch : t2.1 = i ∨ t2.2.1 = i
    · have hfiltn : alookup t2 (s.gedges.filter
          (fun p => !(p.1.1 = i || p.1.2.1 = i))) = none := by
        have hflt := alookup_filter_key
          (fun tk : Int × Int × Int => !(tk.1 = i || tk.2.1 = i)) t2 s.gedges
        rw [if_neg (by rcases htouch with h | h <;> simp [h])] at hflt
        exact hflt
      rw [hfiltn, ofirst_none_right, alookup_connMap_touch s.eitems i t2 htouch]
      cases hfind : s.eitems.find? (fun it => it.triple = t2) with
      | none =>
          cases hge2 : alookup t2 s.gedges with
          | none => rfl
          | some ge2 =>
              exfalso
              have hx := h7 (t2, ge2) (alookup_some_mem _ _ _ hge2)
              have hx2 : ((s.eitems.find? (fun it => it.triple = t2)).map
                  (fun it => it.data)).isSome = true := hx
              rw [hfind] at hx2
              cases hx2
      | some it1 =>
          have hmem1 := List.mem_of_find?_eq_some hfind
          have hp1 := List.find?_some hfind
          simp only [decide_eq_true_eq] at hp1
          have hks := h8 it1 hmem1
          rw [hp1] at hks
          cases hge2 : alookup t2 s.gedges with
          | none =>
              rw [hge2] at hks
              cases hks
          | some ge2 =>
              have hagree := h11 it1 hmem1 ge2 (by rw [hp1]; exact hge2)
              have hex := hecln (t2, ge2) (alookup_some_mem _ _ _ hge2) htouch
              obtain ⟨nm, w, ud, bd, lt, ds⟩ := ge2
              have hb1 : nm = it1.data.name := hagree.1
              have hb2 : w = it1.data.weight := hagree.2.1
              have hb3 : ud = it1.data.undirected := hagree.2.2.1
              have hb4 : bd = it1.data.bidirectional := hagree.2.2.2
              have hb5 : lt = none := hex.1
              have hb6 : ds = none := hex.2
              simp only [Option.map_some']
              rw [hb1, hb2, hb3, hb4, hb5, hb6]
              rfl
    · rw [hNoTouchNone t2 htouch,
        show (none : Option EdgeData).map coreEdge = none from rfl,
        ofirst_none_left]
      have hflt := alookup_filter_key
        (fun tk : Int × Int × Int => !(tk.1 = i || tk.2.1 = i)) t2 s.gedges
      rw [if_pos (by push_neg at htouch; simp [htouch.1, htouch.2])] at hflt
      exact hflt
  · rw [hFn]
    show alookup j (aerase i s.nitems ++
      [(i, ({ data := n0.data, pos := n0.pos } : NItem))]) = alookup j s.nitems
    by_cases hj : j = i
    · rw [hj, alookup_append_single_self _ _ _ (alookup_aerase_self _ _ hnd3), hn0]
    · rw [alookup_append_single_ne _ _ _ _ (fun hh => hj hh.symm),
        alookup_aerase_ne _ _ _ hj]
  · rw [eitemObs_unfold, eitemObs_unfold, hFit t2,
      show ({ s with
        eitems := s.eitems.filter (fun it => !(it.src = i || it.dst = i)),
        gnodes := aerase i s.gnodes ++ [(i, coreNode n0.data n0.pos)],
        gedges := s.gedges.filter (fun p => !(p.1.1 = i || p.1.2.1 = i)),
        nitems := aerase i s.nitems ++
          [(i, { data := n0.data, pos := n0.pos })] } : Scene).eitems =
        s.eitems.filter (fun it => !(it.src = i || it.dst = i)) from rfl]
    by_cases htouch : t2.1 = i ∨ t2.2.1 = i
    · rw [find?_filter_touch_none s.eitems i t2 htouch,
        show (none : Option EItem).map (fun it => it.data) = none from rfl,
        ofirst_none_right]
      exact alookup_connMap_touch s.eitems i t2 htouch
    · rw [find?_filter_touch_keep s.eitems i t2 htouch, hNoTouchNone t2 htouch]
      rfl

/-- C1 (amended): for every command kind, executing the command and then
undoing it restores the editor's store to a state observationally equal to the
state before execute — provided the command's captured fields reflect the
current store (old values of rename/property/move commands equal the stored
ones) and, for the delete commands, the deleted node's and the cascaded
edges' attribute dicts carry none of the graph-only extras `node_type`,
`link_type`, `description`. A `DeleteNodeCommand` that cascaded edges
restores the node and every incident edge with their original attributes and
keys. Without the extras condition the claim is false (see the
counterexample): the undo rebuilds attribute dicts from the captured item
data only. -/
theorem undo_restores_store :
    (∀ (s : Scene) (pos : ℚ × ℚ) (dat : NodeData) (nid : Option Int), SceneWf s →
      ∃ c2 s2 s3, execCmd s (.addNode pos dat nid) = some (c2, s2) ∧
        undoCmd s2 c2 = some s3 ∧ obsEq s3 s) ∧
    (∀ (s : Scene) (i : Int) (dat : NodeData) (pos : ℚ × ℚ)
        (conn0 : List (Int × Int × EdgeData × Int)) (n0 : NItem) (g : GNodeA),
      SceneWf s → alookup i s.nitems = some n0 → alookup i s.gnodes = some g →
      n0.data = dat → n0.pos = pos →
      g.node_type = none ∧ g.description = none →
      (∀ p ∈ s.gedges, (p.1.1 = i ∨ p.1.2.1 = i) →
        p.2.link_type = none ∧ p.2.description = none) →
      ∃ c2 s2 s3, execCmd s (.deleteNode i dat pos conn0) = some (c2, s2) ∧
        undoCmd s2 c2 = some s3 ∧ obsEq s3 s) ∧
    (∀ (s : Scene) (u v : Int) (ed : Option EdgeData), SceneWf s →
      ∃ c2 s2 s3, execCmd s (.addEdge u v ed none none) = some (c2, s2) ∧
        undoCmd s2 c2 = some s3 ∧ obsEq s3 s) ∧
    (∀ (s : Scene) (u v k : Int) (dat : EdgeData) (ge : GEdgeA), SceneWf s →
      alookup (u, v, k) s.gedges = some ge → eitemObs s (u, v, k) = some dat →
      ge.link_type = none → ge.description = none →
      ∃ c2 s2 s3, execCmd s (.deleteEdge u v dat k) = some (c2, s2) ∧
        undoCmd s2 c2 = some s3 ∧ obsEq s3 s) ∧
    (∀ (s : Scene) (i : Int) (o n : String) (n0 : NItem),
      alookup i s.nitems = some n0 → n0.data.name = o →
      ∃ c2 s2 s3, execCmd s (.renameNode i o n) = some (c2, s2) ∧
        undoCmd s2 c2 = some s3 ∧ obsEq s3 s) ∧
    (∀ (s : Scene) (u v k : Int) (o n : String) (d0 : EdgeData),
      eitemObs s (u, v, k) = some d0 → d0.name = o →
      ∃ c2 s2 s3, execCmd s (.renameEdge u v k o n) = some (c2, s2) ∧
        undoCmd s2 c2 = some s3 ∧ obsEq s3 s) ∧
    (∀ (s : Scene) (i : Int) (prop : String) (o n : PyVal) (g : GNodeA) (n0 : NItem),
      alookup i s.gnodes = some g → alookup i s.nitems = some n0 →
      (prop = "name" → pyStr o = g.name ∧ pyStr o = n0.data.name) →
      (prop = "states" → pyListOf o = g.states ∧ pyListOf o = n0.data.states) →
      (prop = "shape" → pyStr o = g.shape ∧ pyStr o = n0.data.shape) →
      (prop = "size" → pyFloat o = some g.size ∧ n0.data.size = g.size) →
      (prop = "node_type" → g.node_type = some o) →
      (prop = "description" → g.description = some o) →
      ∃ c2 s2 s3, execCmd s (.changeNodeProp i prop o n) = some (c2, s2) ∧
        undoCmd s2 c2 = some s3 ∧ obsEq s3 s) ∧
    (∀ (s : Scene) (u v k : Int) (prop : String) (o n : PyVal) (ge : GEdgeA)
        (d0 : EdgeData),
      alookup (u, v, k) s.gedges = some ge → eitemObs s (u, v, k) = some d0 →
      (prop = "label" → pyStr o = ge.name ∧ pyStr o = d0.name) →
      (prop = "link_type" → ge.link_type = some o) →
      (prop = "description" → ge.description = some o) →
      (prop = "undirected" → pyBool o = ge.undirected ∧ pyBool o = d0.undirected) →
      (prop = "bidirectional" →
        pyBool o = ge.bidirectional ∧ pyBool o = d0.bidirectional) →
      (prop = "weight" → pyFloat o = some ge.weight ∧ d0.weight = ge.weight) →
      ∃ c2 s2 s3, execCmd s (.changeEdgeProp u v k prop o n) = some (c2, s2) ∧
        undoCmd s2 c2 = some s3 ∧ obsEq s3 s) ∧
    (∀ (s : Scene) (i : Int) (op np : ℚ × ℚ) (g : GNodeA) (n0 : NItem),
      alookup i s.gnodes = some g → alookup i s.nitems = some n0 →
      g.position = op → n0.pos = op →
      ∃ c2 s2 s3, execCmd s (.moveNode i op np) = some (c2, s2) ∧
        undoCmd s2 c2 = some s3 ∧ obsEq s3 s) :=
  ⟨undo_addNode, undo_deleteNode, undo_addEdge, undo_deleteEdge, undo_renameNode,
   undo_renameEdge, undo_changeNodeProp, undo_changeEdgeProp, undo_moveNode⟩

/-- C1 counterexample: deleting a node whose graph attribute dict carries a
`description` extra (as `ChangeNodePropertyCommand` writes it) and undoing the
deletion silently drops the attribute — `DeleteNodeCommand.undo` rebuilds the
node through `_create_node_internal`, which writes only the five core
attributes. The restored store is observably different from the original. -/
theorem undo_deleteNode_loses_attrs_cx :
    ∃ c2 s2 s3,
      execCmd sceneWd (.deleteNode 0
        { name := "A", states := [], shape := "circle", size := .finite 24 } (0, 0) []) =
        some (c2, s2) ∧
      undoCmd s2 c2 = some s3 ∧
      alookup 0 sceneWd.gnodes =
        some { gnW with description := some (.pstr "critical") } ∧
      alookup 0 s3.gnodes = some gnW ∧
      ¬ obsEq s3 sceneWd := by
  refine ⟨_, _, _, rfl, rfl, rfl, rfl, ?_⟩
  intro hobs
  exact absurd (hobs.1 0) (by decide)

/-- Witness for C1 at the concrete two-node, one-edge scene: all nine command
kinds round-trip. -/
theorem undo_restores_store_witness :
    (∃ c2 s2 s3, execCmd sceneW (.addNode (50, 50) {} none) = some (c2, s2) ∧
      undoCmd s2 c2 = some s3 ∧ obsEq s3 sceneW) ∧
    (∃ c2 s2 s3, execCmd sceneW (.deleteNode 0
        { name := "A", states := [], shape := "circle", size := .finite 24 } (0, 0) []) =
        some (c2, s2) ∧ undoCmd s2 c2 = some s3 ∧ obsEq s3 sceneW) ∧
    (∃ c2 s2 s3, execCmd sceneW (.addEdge 0 1 none none none) = some (c2, s2) ∧
      undoCmd s2 c2 = some s3 ∧ obsEq s3 sceneW) ∧
    (∃ c2 s2 s3, execCmd sceneW (.deleteEdge 0 1
        { name := "e0_1_0", weight := .finite 1, undirected := false,
          bidirectional := false } 0) = some (c2, s2) ∧
      undoCmd s2 c2 = some s3 ∧ obsEq s3 sceneW) ∧
    (∃ c2 s2 s3, execCmd sceneW (.renameNode 0 "A" "X") = some (c2, s2) ∧
      undoCmd s2 c2 = some s3 ∧ obsEq s3 sceneW) ∧
    (∃ c2 s2 s3, execCmd sceneW (.renameEdge 0 1 0 "e0_1_0" "Y") = some (c2, s2) ∧
      undoCmd s2 c2 = some s3 ∧ obsEq s3 sceneW) ∧
    (∃ c2 s2 s3, execCmd sceneW (.changeNodeProp 0 "name" (.pstr "A") (.pstr "X")) =
        some (c2, s2) ∧ undoCmd s2 c2 = some s3 ∧ obsEq s3 sceneW) ∧
    (∃ c2 s2 s3, execCmd sceneW
        (.changeEdgeProp 0 1 0 "label" (.pstr "e0_1_0") (.pstr "Z")) =
        some (c2, s2) ∧ undoCmd s2 c2 = some s3 ∧ obsEq s3 sceneW) ∧
    (∃ c2 s2 s3, execCmd sceneW (.moveNode 0 (0, 0) (5, 5)) = some (c2, s2) ∧
      undoCmd s2 c2 = some s3 ∧ obsEq s3 sceneW) := by
  obtain ⟨hA, hDN, hAE, hDE, hRN, hRE, hCN, hCE, hMV⟩ := undo_restores_store
  refine ⟨?_, ?_, ?_, ?_, ?_, ?_, ?_, ?_, ?_⟩
  · exact hA sceneW (50, 50) {} none (by decide)
  · exact hDN sceneW 0 { name := "A", states := [], shape := "circle", size := .finite 24 }
      (0, 0) []
      { data := { name := "A", states := [], shape := "circle", size := .finite 24 },
        pos := (0, 0) } gnW
      (by decide) rfl rfl rfl rfl ⟨rfl, rfl⟩ (by decide)
  · exact hAE sceneW 0 1 none (by decide)
  · exact hDE sceneW 0 1 0
      { name := "e0_1_0", weight := .finite 1, undirected := false, bidirectional := false }
      geW (by decide) rfl rfl rfl rfl
  · exact hRN sceneW 0 "A" "X"
      { data := { name := "A", states := [], shape := "circle", size := .finite 24 },
        pos := (0, 0) } rfl rfl
  · exact hRE sceneW 0 1 0 "e0_1_0" "Y"
      { name := "e0_1_0", weight := .finite 1, undirected := false, bidirectional := false }
      rfl rfl
  · exact hCN sceneW 0 "name" (.pstr "A") (.pstr "X") gnW
      { data := { name := "A", states := [], shape := "circle", size := .finite 24 },
        pos := (0, 0) } rfl rfl
      (fun _ => ⟨rfl, rfl⟩)
      (fun h => absurd h (by decide)) (fun h => absurd h (by decide))
      (fun h => absurd h (by decide)) (fun h => absurd h (by decide))
      (fun h => absurd h (by decide))
  · exact hCE sceneW 0 1 0 "label" (.pstr "e0_1_0") (.pstr "Z") geW
      { name := "e0_1_0", weight := .finite 1, undirected := false, bidirectional := false }
      rfl rfl
      (fun _ => ⟨rfl, rfl⟩)
      (fun h => absurd h (by decide)) (fun h => absurd h (by decide))
      (fun h => absurd h (by decide)) (fun h => absurd h (by decide))
      (fun h => absurd h (by decide))
  · exact hMV sceneW 0 (0, 0) (5, 5) gnW
      { data := { name := "A", states := [], shape := "circle", size := .finite 24 },
        pos := (0, 0) } rfl rfl rfl rfl

end Eir
